import Mathlib

/-!
aframe-terrain-plain: the `terrain-plain` geometry builder.

A shallow embedding of `init` of `src/index.js` (the registered geometry
`terrain-plain`) and the properties of the mesh it builds.

Numbers.  A JavaScript number is modelled by `JSNum K`: either a finite value of
an ordered field `K` (arithmetic on finite values is exact: rounding and
overflow of doubles are not modelled) or one of `Infinity`, `-Infinity`, `NaN`,
with the IEEE rules for them.  Zero carries no sign: a zero divisor is `+0`,
which is what `Math.round` of a non-negative ratio, a sum and `Math.sqrt` give.

Rounding.  What is proved over `JSNum K` is a property of the exact values; it
carries over to the doubles of the program where it is an order, a count or an
identity of indices, and not where it is an equality of computed magnitudes.
For these, lines 21 and 22 are also embedded in the arithmetic of doubles
(`roundToDouble`, `doubleSIZE`, `doubleUNIT_SIZE`), and a square root that
rounds is an `Env` like any other (`sampleEnv`).

Collaborators that are not part of the file: `Math.sqrt` on finite non-negative
arguments, `ImprovedNoise.noise` and the value of `Math.random() * 100` are the
fields of `Env`.
-/

set_option linter.unusedSectionVars false

namespace TerrainPlain

/-- A JavaScript number over the field `K` of finite values. -/
inductive JSNum (K : Type) where
  | fin (v : K)
  | pinf
  | ninf
  | nan
  deriving DecidableEq, Repr

namespace JSNum

variable {K : Type} [LinearOrderedField K]

/-- Unary minus. -/
def neg : JSNum K → JSNum K
  | fin a => fin (-a)
  | pinf => ninf
  | ninf => pinf
  | nan => nan

/-- The sum `a + b`. -/
def add : JSNum K → JSNum K → JSNum K
  | fin a, fin b => fin (a + b)
  | fin _, pinf => pinf
  | fin _, ninf => ninf
  | pinf, fin _ => pinf
  | pinf, pinf => pinf
  | pinf, ninf => nan
  | ninf, fin _ => ninf
  | ninf, pinf => nan
  | ninf, ninf => ninf
  | nan, _ => nan
  | _, nan => nan

/-- The product of a finite value with an infinity whose sign is `positive`. -/
def timesInf (a : K) (positive : Bool) : JSNum K :=
  if 0 < a then (if positive then pinf else ninf)
  else if a < 0 then (if positive then ninf else pinf)
  else nan

/-- The product `a * b`. -/
def mul : JSNum K → JSNum K → JSNum K
  | fin a, fin b => fin (a * b)
  | fin a, pinf => timesInf a true
  | fin a, ninf => timesInf a false
  | pinf, fin b => timesInf b true
  | ninf, fin b => timesInf b false
  | pinf, pinf => pinf
  | pinf, ninf => ninf
  | ninf, pinf => ninf
  | ninf, ninf => pinf
  | nan, _ => nan
  | _, nan => nan

/-- The quotient `a / b`; a zero divisor is `+0`. -/
def div : JSNum K → JSNum K → JSNum K
  | fin a, fin b =>
    if b = 0 then (if 0 < a then pinf else if a < 0 then ninf else nan) else fin (a / b)
  | fin _, pinf => fin 0
  | fin _, ninf => fin 0
  | pinf, fin b => if 0 ≤ b then pinf else ninf
  | ninf, fin b => if 0 ≤ b then ninf else pinf
  | pinf, pinf => nan
  | pinf, ninf => nan
  | ninf, pinf => nan
  | ninf, ninf => nan
  | nan, _ => nan
  | _, nan => nan

instance : Neg (JSNum K) := ⟨neg⟩
instance : Add (JSNum K) := ⟨add⟩
instance : Mul (JSNum K) := ⟨mul⟩
instance : Div (JSNum K) := ⟨div⟩
instance : Sub (JSNum K) := ⟨fun a b => add a (neg b)⟩

/-- The comparison `a <= b`; false when an operand is `NaN`. -/
def le : JSNum K → JSNum K → Bool
  | fin a, fin b => decide (a ≤ b)
  | fin _, pinf => true
  | fin _, ninf => false
  | fin _, nan => false
  | pinf, pinf => true
  | pinf, _ => false
  | ninf, nan => false
  | ninf, _ => true
  | nan, _ => false

/-- The comparison `a < b`; false when an operand is `NaN`. -/
def lt : JSNum K → JSNum K → Bool
  | fin a, fin b => decide (a < b)
  | fin _, pinf => true
  | fin _, ninf => false
  | fin _, nan => false
  | pinf, _ => false
  | ninf, fin _ => true
  | ninf, pinf => true
  | ninf, _ => false
  | nan, _ => false

/-- The comparison `a > b`. -/
def gt (a b : JSNum K) : Bool := lt b a

/-- The value of `Math.min(a, b)`: `NaN` when an operand is `NaN`. -/
def mathMin : JSNum K → JSNum K → JSNum K
  | nan, _ => nan
  | _, nan => nan
  | a, b => if le a b then a else b

/-- Truthiness of a number: false for zero and for `NaN`. -/
def truthy : JSNum K → Bool
  | fin a => decide (a ≠ 0)
  | pinf => true
  | ninf => true
  | nan => false

/-- The value of `Math.sqrt(a)`, given the square root `sqrtK` of the finite
non-negative values. -/
def mathSqrt (sqrtK : K → K) : JSNum K → JSNum K
  | fin a => if a < 0 then nan else fin (sqrtK a)
  | pinf => pinf
  | ninf => nan
  | nan => nan

/-- The value of `Math.round(a)`: the nearest integer, a half rounded up. -/
def mathRound [FloorRing K] : JSNum K → JSNum K
  | fin a => fin ((⌊a + 1 / 2⌋ : Int) : K)
  | a => a

/-- The value of `Math.ceil(a)`. -/
def mathCeil [FloorRing K] : JSNum K → JSNum K
  | fin a => fin ((⌈a⌉ : Int) : K)
  | a => a

end JSNum

open JSNum

/-- What `init` takes from outside the file: `Math.sqrt` on the finite
non-negative numbers, `perlin.noise` on finite arguments and the value of
`Math.random() * 100`. -/
structure Env (K : Type) where
  sqrt : K → K
  noise : K → K → K → K
  SEED : K

/-- A `THREE.Color`. -/
structure Color where
  hex : Nat
  deriving DecidableEq, Repr

/-- The properties of the geometry (the `schema`), as `init` receives them. -/
structure Data (K : Type) where
  middleRadius : K
  unitSize : K
  far : K
  color : Color
  seaColor : Color
  log : Bool

/-- A `THREE.Vector3`. -/
structure Vector3 (K : Type) where
  x : JSNum K
  y : JSNum K
  z : JSNum K
  deriving DecidableEq

/-- A `THREE.Face3` with its `color`. -/
structure Face3 where
  a : Nat
  b : Nat
  c : Nat
  color : Color
  deriving DecidableEq, Repr

/-- The parts of a `THREE.Geometry` that `init` fills. -/
structure Geometry (K : Type) where
  vertices : List (Vector3 K)
  faces : List Face3

section Constants

variable {K : Type} [LinearOrderedField K] [FloorRing K]

/-- The value of `perlin.noise(a, b, c)`: the noise of finite arguments is finite, and
`NaN` comes out when an argument is not finite. -/
def perlinNoise (env : Env K) : JSNum K → JSNum K → JSNum K → JSNum K
  | fin a, fin b, fin c => fin (env.noise a b c)
  | _, _, _ => nan

/-- Line 19: `SQRT3HALF = Math.sqrt(3) / 2`. -/
def SQRT3HALF (env : Env K) : JSNum K := JSNum.mathSqrt env.sqrt (fin 3) / fin 2

/-- Line 21: `SIZE = Math.round(data.middleRadius / data.unitSize)`. -/
def SIZE (data : Data K) : JSNum K := JSNum.mathRound (fin data.middleRadius / fin data.unitSize)

/-- Line 22: `UNIT_SIZE = data.middleRadius / SIZE`. -/
def UNIT_SIZE (data : Data K) : JSNum K := fin data.middleRadius / SIZE data

/-- Line 24: `INNER_RADIUS = (SIZE-1) * UNIT_SIZE + 0.0001`. -/
def INNER_RADIUS (data : Data K) : JSNum K :=
  (SIZE data - fin 1) * UNIT_SIZE data + fin (1 / 10000)

/-- Line 25: `OUTER_RADIUS = (SIZE+1) * UNIT_SIZE + 0.0001`. -/
def OUTER_RADIUS (data : Data K) : JSNum K :=
  (SIZE data + fin 1) * UNIT_SIZE data + fin (1 / 10000)

/-- Line 26: `FAR = data.far > OUTER_RADIUS ? data.far : OUTER_RADIUS`. -/
def FAR (data : Data K) : JSNum K :=
  if JSNum.gt (fin data.far) (OUTER_RADIUS data) then fin data.far else OUTER_RADIUS data

/-- Line 27: `PLATEAU_EDGE = INNER_RADIUS / 4`. -/
def PLATEAU_EDGE (data : Data K) : JSNum K := INNER_RADIUS data / fin 4

/-- Line 28: `SCAN_SIZE = Math.ceil(SIZE * 1.16)`. -/
def SCAN_SIZE (data : Data K) : JSNum K := JSNum.mathCeil (SIZE data * fin (116 / 100))

/-- Lines 54-56: the loop `for (quality = 25; quality <= 1500; quality *= 5)` that adds the
octaves to `y`, started at `quality`; `fuel` bounds the number of rounds. -/
def noiseLoop (env : Env K) (data : Data K) (x z : JSNum K) : Nat → Nat → JSNum K → JSNum K
  | 0, _, y => y
  | fuel + 1, quality, y =>
    if quality ≤ 1500 then
      noiseLoop env data x z fuel (quality * 5)
        (y + perlinNoise env ((x + fin data.middleRadius) / fin (quality : K))
              ((z + fin data.middleRadius) / fin (quality : K)) (fin env.SEED)
            * JSNum.mathMin (fin (quality : K) / fin 2) (fin 150))
    else y

/-- Lines 52-68: the height of a point of the inner band. -/
def innerHeight (env : Env K) (data : Data K) (x z r : JSNum K) : JSNum K :=
  let y := noiseLoop env data x z 1500 25 (fin 10)
  let y := y * (JSNum.mathMin (INNER_RADIUS data - r) (PLATEAU_EDGE data) / PLATEAU_EDGE data)
  let y :=
    if JSNum.gt y (fin 0) then
      y + perlinNoise env ((x + fin data.middleRadius) / fin 5)
            ((z + fin data.middleRadius) / fin 5) (fin env.SEED) * fin 5 / fin 2
    else y
  if JSNum.lt y (fin 0) then fin 0 else y

/-- Line 46: `x = i * SQRT3HALF * UNIT_SIZE`. -/
def latticeX (env : Env K) (data : Data K) (i : Int) : JSNum K :=
  fin (i : K) * SQRT3HALF env * UNIT_SIZE data

/-- Line 47: `z = (j - i/2) * UNIT_SIZE`. -/
def latticeZ (data : Data K) (i j : Int) : JSNum K :=
  (fin (j : K) - fin (i : K) / fin 2) * UNIT_SIZE data

/-- Line 48: `r = Math.sqrt(x*x + z*z)`. -/
def latticeR (env : Env K) (data : Data K) (i j : Int) : JSNum K :=
  JSNum.mathSqrt env.sqrt
    (latticeX env data i * latticeX env data i + latticeZ data i j * latticeZ data i j)

/-- Lines 46-75: the vertex of the lattice point `(i, j)`, or `none` when the point is
skipped (the test `r <= OUTER_RADIUS` fails). -/
def position (env : Env K) (data : Data K) (i j : Int) : Option (Vector3 K) :=
  let x := latticeX env data i
  let z := latticeZ data i j
  let r := latticeR env data i j
  if JSNum.le r (OUTER_RADIUS data) then
    if JSNum.le r (INNER_RADIUS data) then
      some ⟨x, innerHeight env data x z r, z⟩
    else if JSNum.le r (fin data.middleRadius) then
      some ⟨x, fin 0, z⟩
    else
      some ⟨x * (FAR data / r), fin 0, z * (FAR data / r)⟩
  else none

/-- Lines 54-56: the values of `quality` for which the body of the loop
`for (quality = 25; quality <= 1500; quality *= 5)` runs, started at `quality`, one per
octave; `fuel` bounds the number of rounds. -/
def loopQualities : Nat → Nat → List Nat
  | 0, _ => []
  | fuel + 1, quality =>
    if quality ≤ 1500 then quality :: loopQualities fuel (quality * 5) else []

/-- Line 55: the octave the body of the loop adds to `y` at `quality`. -/
def octave (env : Env K) (data : Data K) (x z : JSNum K) (quality : Nat) : JSNum K :=
  perlinNoise env ((x + fin data.middleRadius) / fin (quality : K))
      ((z + fin data.middleRadius) / fin (quality : K)) (fin env.SEED)
    * JSNum.mathMin (fin (quality : K) / fin 2) (fin 150)

/-- The integer nearest to `x`, a tie going to the even one: the rounding of IEEE 754. -/
def roundHalfEven (x : ℚ) : Int :=
  if x - ⌊x⌋ < 1 / 2 then ⌊x⌋
  else if 1 / 2 < x - ⌊x⌋ then ⌊x⌋ + 1
  else if ⌊x⌋ % 2 = 0 then ⌊x⌋ else ⌊x⌋ + 1

/-- The double nearest to the rational `q`: 53 significant bits, round to nearest, a tie to
the even significand; the exponent is not bounded (no overflow, no subnormal numbers).  It
is what an arithmetic operation of JavaScript returns when its exact result is `q`. -/
def roundToDouble (q : ℚ) : ℚ :=
  roundHalfEven (q / 2 ^ (Int.log 2 |q| - 52)) * 2 ^ (Int.log 2 |q| - 52)

/-- Line 21 in the arithmetic of doubles: `SIZE = Math.round(data.middleRadius /
data.unitSize)`, the quotient rounded to a double and `Math.round` exact on it. -/
def doubleSIZE (data : Data ℚ) : Int :=
  ⌊roundToDouble (data.middleRadius / data.unitSize) + 1 / 2⌋

/-- Line 22 in the arithmetic of doubles: `UNIT_SIZE = data.middleRadius / SIZE`. -/
def doubleUNIT_SIZE (data : Data ℚ) : ℚ :=
  roundToDouble (data.middleRadius / (doubleSIZE data : ℚ))

end Constants

/-- The variables of the scan (lines 38-42): the table `vertexLookup`, a row being
`none` while `vertexLookup[i]` is undefined, the counter `vertexInd` and the geometry. -/
structure State (K : Type) where
  vertexLookup : Int → Option (Int → Option Nat)
  vertexInd : Nat
  geometry : Geometry K

section Scan

variable {K : Type} [LinearOrderedField K] [FloorRing K]

/-- The value of `vertexLookup[i][j]`: `none` when reading it throws (the row
`vertexLookup[i]` is undefined), `some none` when it is `undefined`. -/
def State.read (s : State K) (i j : Int) : Option (Option Nat) :=
  (s.vertexLookup i).map (fun row => row j)

/-- The index of the lattice point `(i, j)` in the table, if it has one. -/
def State.index (s : State K) (i j : Int) : Option Nat :=
  (s.vertexLookup i).bind (fun row => row j)

/-- Lines 109-113 and 121-125: the color of a face from the height `y` of the new
vertex and the two neighbours `p`, `q` (`geometry.vertices[...]`, `none` when
undefined); `y || p.y || q.y` evaluates `p.y` only when `y` is falsy, and throws when
it evaluates the `y` of an undefined vertex. -/
def faceColor (data : Data K) (y : JSNum K) (p q : Option (Vector3 K)) : Option Color :=
  if y.truthy then some data.color
  else
    match p with
    | none => none
    | some vp =>
      if vp.y.truthy then some data.color
      else
        match q with
        | none => none
        | some vq => if vq.y.truthy then some data.color else some data.seaColor

/-- Lines 104-115 and 116-127: push the face `(a, p, q)` when both indices `p` and `q`
are defined. -/
def pushFace (data : Data K) (vertices : List (Vector3 K)) (y : JSNum K) (a : Nat)
    (p q : Option Nat) (faces : List Face3) : Option (List Face3) :=
  match p, q with
  | some ip, some iq =>
    (faceColor data y (vertices[ip]?) (vertices[iq]?)).map
      (fun color => faces ++ [⟨a, ip, iq, color⟩])
  | _, _ => some faces

/-- Lines 77-127: record the vertex `v` of the lattice point `(i, j)` and push the
faces it closes.  The result is `none` when a step throws. -/
def record (data : Data K) (i j : Int) (v : Vector3 K) (s : State K) : Option (State K) :=
  -- line 77: vertexLookup[i][j] = vertexInd++
  (s.vertexLookup i).bind fun row =>
  let s1 : State K :=
    { vertexLookup := Function.update s.vertexLookup i (some (Function.update row j (some s.vertexInd)))
      vertexInd := s.vertexInd + 1
      -- line 78
      geometry := { s.geometry with vertices := s.geometry.vertices ++ [v] } }
  let vertexAInd := s1.vertexInd - 1
  (s1.read i (j - 1)).bind fun vertexBInd =>
  (s1.read (i - 1) (j - 1)).bind fun vertexCInd =>
  (s1.read (i - 1) j).bind fun vertexDInd =>
  (pushFace data s1.geometry.vertices v.y vertexAInd vertexBInd vertexCInd
      s1.geometry.faces).bind fun faces1 =>
  (pushFace data s1.geometry.vertices v.y vertexAInd vertexCInd vertexDInd faces1).map
    fun faces2 => { s1 with geometry := { s1.geometry with faces := faces2 } }

/-- Lines 46-128: the body of the inner loop at the lattice point `(i, j)`. -/
def visit (env : Env K) (data : Data K) (i j : Int) (s : State K) : Option (State K) :=
  match position env data i j with
  | none => some s
  | some v => record data i j v s

/-- Line 45: `n` rounds of the loop over `j`, the next value being `j`. -/
def loopJ (env : Env K) (data : Data K) (i : Int) : Nat → Int → State K → Option (State K)
  | 0, _, s => some s
  | n + 1, j, s => (visit env data i j s).bind (loopJ env data i n (j + 1))

/-- Line 44: `vertexLookup[i] = {}`. -/
def newRow (i : Int) (s : State K) : State K :=
  { s with vertexLookup := Function.update s.vertexLookup i (some fun _ => none) }

/-- Lines 44-45: one round of the loop over `i`: the new row, then the loop over
`j` from `-SCAN_SIZE` to `SCAN_SIZE`, which is `2 * SCAN_SIZE + 1` rounds. -/
def row (env : Env K) (data : Data K) (scanSize i : Int) (s : State K) : Option (State K) :=
  loopJ env data i (2 * scanSize + 1).toNat (-scanSize) (newRow i s)

/-- Line 43: `n` rounds of the loop over `i`, the next value being `i`. -/
def loopI (env : Env K) (data : Data K) (scanSize : Int) :
    Nat → Int → State K → Option (State K)
  | 0, _, s => some s
  | n + 1, i, s => (row env data scanSize i s).bind (loopI env data scanSize n (i + 1))

/-- Lines 38-42: the variables before the scan, for an integer `SCAN_SIZE`. -/
def start (scanSize : Int) : State K :=
  { vertexLookup := Function.update (fun _ => none) (-scanSize - 1) (some fun _ => none)
    vertexInd := 0
    geometry := ⟨[], []⟩ }

/-- Lines 38-130: the scan.  A finite `SCAN_SIZE` is an integer (it is a `Math.ceil`) and
the loop over `i` from `-SCAN_SIZE` to `SCAN_SIZE` makes `2 * SCAN_SIZE + 1` rounds, none
when that is negative.  For `SCAN_SIZE = Infinity` the loop never ends: `none`.  For
`NaN` and `-Infinity` the condition `i <= SCAN_SIZE` fails at once. -/
def scan (env : Env K) (data : Data K) : Option (State K) :=
  match SCAN_SIZE data with
  | fin v => loopI env data ⌊v⌋ (2 * ⌊v⌋ + 1).toNat (-⌊v⌋) (start ⌊v⌋)
  | pinf => none
  | _ => some ⟨fun _ => none, 0, ⟨[], []⟩⟩

/-- Lines 16-130 of `init`: the geometry after the scan, before the passes of
`THREE.Geometry` (bounding box, merge, normals), which are not part of the file.
The result is `none` when the scan throws or never ends. -/
def init (env : Env K) (data : Data K) : Option (Geometry K) :=
  (scan env data).map (fun s => s.geometry)

end Scan

/-! ## The words of the specification -/

section Words

variable {K : Type} [LinearOrderedField K] [FloorRing K]

/-- The order of the scan: `p` is visited before `q` (rows by `i`, then by `j`). -/
def before (p q : Int × Int) : Prop := p.1 < q.1 ∨ (p.1 = q.1 ∧ p.2 < q.2)

/-- The `n` lattice points of row `i` from column `j` on. -/
def rowPoints (i : Int) : Nat → Int → List (Int × Int)
  | 0, _ => []
  | n + 1, j => (i, j) :: rowPoints i n (j + 1)

/-- The lattice points of `n` whole rows from row `i` on, for the scan size `scanSize`. -/
def rowsPoints (scanSize : Int) : Nat → Int → List (Int × Int)
  | 0, _ => []
  | n + 1, i => rowPoints i (2 * scanSize + 1).toNat (-scanSize) ++ rowsPoints scanSize n (i + 1)

/-- The lattice points of the scan range `[-scanSize, scanSize]^2`, in the order of the scan. -/
def scanPoints (scanSize : Int) : List (Int × Int) :=
  rowsPoints scanSize (2 * scanSize + 1).toNat (-scanSize)

/-- The lattice points the scan of `data` visits, in order. -/
def scanOrder (data : Data K) : List (Int × Int) :=
  match SCAN_SIZE data with
  | fin v => scanPoints ⌊v⌋
  | _ => []

/-- The materialized points among `pts`, each with its vertex, in order. -/
def materialized (env : Env K) (data : Data K) (pts : List (Int × Int)) :
    List ((Int × Int) × Vector3 K) :=
  pts.filterMap fun p => (position env data p.1 p.2).map fun v => (p, v)

/-- The triangle `(a, p, q)` when both indices `p` and `q` are defined. -/
def triangle (a : Nat) (p q : Option Nat) : List (Nat × Nat × Nat) :=
  match p, q with
  | some b, some c => [(a, b, c)]
  | _, _ => []

/-- The index triples of the triangles A and B of the lattice point `(i, j)`, for the
index table `idx`. -/
def trianglesAt (idx : Int → Int → Option Nat) (i j : Int) : List (Nat × Nat × Nat) :=
  match idx i j with
  | none => []
  | some a =>
    triangle a (idx i (j - 1)) (idx (i - 1) (j - 1)) ++
      triangle a (idx (i - 1) (j - 1)) (idx (i - 1) j)

/-- Whether the vertex of index `k` has a truthy height. -/
def landVertex (vertices : List (Vector3 K)) (k : Nat) : Bool :=
  match vertices[k]? with
  | some v => v.y.truthy
  | none => false

/-- The face of an index triple, in the land color when one of its vertices has a
truthy height and in the sea color otherwise. -/
def paint (data : Data K) (vertices : List (Vector3 K)) (t : Nat × Nat × Nat) : Face3 :=
  ⟨t.1, t.2.1, t.2.2,
    if landVertex vertices t.1 || landVertex vertices t.2.1 || landVertex vertices t.2.2
    then data.color else data.seaColor⟩

/-- The state `s` is the one the scan has built once it has visited the points `pts`. -/
structure Inv (env : Env K) (data : Data K) (pts : List (Int × Int)) (s : State K) : Prop where
  counter : s.vertexInd = (materialized env data pts).length
  vertices : s.geometry.vertices = (materialized env data pts).map Prod.snd
  table : ∀ i j k, s.index i j = some k ↔
    ((materialized env data pts).map Prod.fst)[k]? = some (i, j)
  faces : s.geometry.faces =
    (pts.flatMap fun p => trianglesAt s.index p.1 p.2).map (paint data s.geometry.vertices)

/-- Section 3: `size = round(middleRadius/unitSize)`. -/
def size (data : Data K) : Int := round (data.middleRadius / data.unitSize)

/-- Section 3: `unitSize' = middleRadius/size`. -/
def unitSize' (data : Data K) : K := data.middleRadius / (size data : K)

/-- Section 3: `innerRadius = (size-1)*unitSize' + ε`, with the `ε = 0.0001` of the code. -/
def innerRadius (data : Data K) : K := ((size data : K) - 1) * unitSize' data + 1 / 10000

/-- Section 3: `outerRadius = (size+1)*unitSize' + ε`. -/
def outerRadius (data : Data K) : K := ((size data : K) + 1) * unitSize' data + 1 / 10000

/-- Section 3: `far' = max(far, outerRadius)`. -/
def far' (data : Data K) : K := max data.far (outerRadius data)

/-- Section 3: `plateauEdge = innerRadius/4`. -/
def plateauEdge (data : Data K) : K := innerRadius data / 4

/-- Section 3: `scanSize = ceil(size*1.16)`. -/
def scanSize (data : Data K) : Int := ⌈(size data : K) * (116 / 100)⌉

/-- Section 3: `x = i*(√3/2)*unitSize'`, the root being the one of `env`. -/
def pointX (env : Env K) (data : Data K) (i : Int) : K :=
  (i : K) * (env.sqrt 3 / 2) * unitSize' data

/-- Section 3: `z = (j - i/2)*unitSize'`. -/
def pointZ (data : Data K) (i j : Int) : K := ((j : K) - (i : K) / 2) * unitSize' data

/-- Section 3: the radial distance `r = |(x,z)|` of the lattice point `(i, j)`. -/
def radius (env : Env K) (data : Data K) (i j : Int) : K :=
  env.sqrt (pointX env data i ^ 2 + pointZ data i j ^ 2)

/-- Section 4.2: the qualities of the octaves, the geometric sequence 25, 125, 625, ...
while `q ≤ 1500` (of its first eight terms only the first three are in range). -/
def octaves : List Nat :=
  (List.iterate (fun q => q * 5) 25 8).takeWhile (fun q => decide (q ≤ 1500))

/-- Section 4.2: the accumulated height `10 + Σ noise((x+middleRadius)/q,
(z+middleRadius)/q, seed) * min(q/2, 150)` over the octaves. -/
def accumulated (env : Env K) (data : Data K) (x z : K) : K :=
  10 + (octaves.map fun (q : Nat) =>
    env.noise ((x + data.middleRadius) / (q : K)) ((z + data.middleRadius) / (q : K)) env.SEED *
      min ((q : K) / 2) 150).sum

/-- Section 4.2: the falloff factor `min(innerRadius - r, plateauEdge) / plateauEdge`. -/
def falloff (data : Data K) (r : K) : K :=
  min (innerRadius data - r) (plateauEdge data) / plateauEdge data

/-- Section 4.2: the accumulated height after the radial falloff. -/
def attenuated (env : Env K) (data : Data K) (x z r : K) : K :=
  accumulated env data x z * min (innerRadius data - r) (plateauEdge data) / plateauEdge data

/-- Section 4.2: the fine octave at quality 5 (amplitude 2.5), added when the attenuated
height `h` is positive. -/
def jitter (env : Env K) (data : Data K) (x z h : K) : K :=
  if 0 < h then
    env.noise ((x + data.middleRadius) / 5) ((z + data.middleRadius) / 5) env.SEED * (5 / 2)
  else 0

/-- Section 4.2: the height of a point of the inner band: accumulate, falloff, the
conditional fine octave, clamp. -/
def height (env : Env K) (data : Data K) (x z r : K) : K :=
  max 0 (attenuated env data x z r + jitter env data x z (attenuated env data x z r))

/-- The state of the scan, for the scan size `scanSize`, after `a` whole rows and the first
`b` lattice points of the next row. -/
def partialScan (env : Env K) (data : Data K) (scanSize : Int) (a b : Nat) : Option (State K) :=
  (loopI env data scanSize a (-scanSize) (start scanSize)).bind fun s =>
    loopJ env data (-scanSize + a) b (-scanSize) (newRow (-scanSize + a) s)

/-- The rest of the scan from the state after `a` whole rows and `b` lattice points of the
next row: the other points of that row, then the other rows. -/
def restOfScan (env : Env K) (data : Data K) (scanSize : Int) (a b : Nat) (s : State K) :
    Option (State K) :=
  (loopJ env data (-scanSize + a) ((2 * scanSize + 1).toNat - b) (-scanSize + b) s).bind
    (loopI env data scanSize ((2 * scanSize + 1).toNat - (a + 1)) (-scanSize + a + 1))

/-- The lattice points visited after `a` whole rows and `b` points of the next row. -/
def visited (scanSize : Int) (a b : Nat) : List (Int × Int) :=
  rowsPoints scanSize a (-scanSize) ++ rowPoints (-scanSize + a) b (-scanSize)

/-- Every face of the state references three vertices that are in the vertex list, the
first one after the two others, which differ; and the three are the indices of lattice
points of the table. -/
def FacesValid (s : State K) : Prop :=
  ∀ f ∈ s.geometry.faces,
    f.a < s.geometry.vertices.length ∧ f.b < f.a ∧ f.c < f.a ∧ f.b ≠ f.c ∧
    ∃ p q r : Int × Int, s.index p.1 p.2 = some f.a ∧ s.index q.1 q.2 = some f.b ∧
      s.index r.1 r.2 = some f.c

/-- The table of the state is consistent with its vertex list, `pts` being the lattice
points visited: the counter is the length of the list; the points with an index are the
materialized points visited; distinct points have distinct indices; the indices are
exactly the numbers below the counter; they increase in the order of the scan; and the
vertex stored at the index of a point is the position computed for it. -/
def TableValid (env : Env K) (data : Data K) (pts : List (Int × Int)) (s : State K) : Prop :=
  s.vertexInd = s.geometry.vertices.length ∧
  (∀ i j, (s.index i j).isSome ↔ ((i, j) ∈ pts ∧ (position env data i j).isSome)) ∧
  (∀ i j i2 j2 k, s.index i j = some k → s.index i2 j2 = some k → i = i2 ∧ j = j2) ∧
  (∀ k, k < s.vertexInd ↔ ∃ i j, s.index i j = some k) ∧
  (∀ i j i2 j2 k k2, s.index i j = some k → s.index i2 j2 = some k2 →
    (before (i, j) (i2, j2) ↔ k < k2)) ∧
  (∀ i j k, s.index i j = some k → s.geometry.vertices[k]? = position env data i j)

/-- An environment over the rationals: a square root to three decimals and a smooth
bounded noise. -/
def sampleEnv : Env ℚ :=
  { sqrt := fun a => (Nat.sqrt ⌊a * 1000000⌋.toNat : ℚ) / 1000
    noise := fun x _ z => (x - z) / (1 + |x - z|)
    SEED := 42 }

/-- The defaults of the schema, with a green land and a blue sea. -/
def defaultData : Data ℚ :=
  { middleRadius := 100, unitSize := 1, far := 4000, color := ⟨65280⟩, seaColor := ⟨255⟩,
    log := false }

/-- A configuration of the schema whose `size` rounds to 0. -/
def coarseData : Data ℚ :=
  { middleRadius := 10, unitSize := 1000, far := 4000, color := ⟨65280⟩, seaColor := ⟨255⟩,
    log := false }

/-- Section 3: the Cartesian `(x, z)` of the lattice point `p = (i, j)`, before any
rescale. -/
def latticePoint (env : Env K) (data : Data K) (p : Int × Int) : K × K :=
  (pointX env data p.1, pointZ data p.1 p.2)

/-- The y-component of the cross product `(b - a) × (c - a)` of points `(x, z)` of the
plane: `(b.z - a.z)*(c.x - a.x) - (b.x - a.x)*(c.z - a.z)`. -/
def crossY (a b c : K × K) : K := (b.2 - a.2) * (c.1 - a.1) - (b.1 - a.1) * (c.2 - a.2)

/-- An environment whose noise is constantly `-1/2`, a value in the range `[-1, 1]` of the
noise. -/
def lowNoiseEnv : Env ℚ :=
  { sqrt := sampleEnv.sqrt
    noise := fun _ _ _ => -1 / 2
    SEED := 42 }

/-- The defaults of the schema with `far = 0`. -/
def nearData : Data ℚ :=
  { middleRadius := 100, unitSize := 1, far := 0, color := ⟨65280⟩, seaColor := ⟨255⟩,
    log := false }

/-- A configuration of the schema with `middleRadius = 10` and for `unitSize` the double
of the literal `0.13`. -/
def fineData : Data ℚ :=
  { middleRadius := 10, unitSize := roundToDouble (13 / 100), far := 4000, color := ⟨65280⟩,
    seaColor := ⟨255⟩, log := false }

end Words

/-! ## The scan keeps the table, the vertices and the faces in step -/

section ScanLemmas

variable {K : Type} [LinearOrderedField K] [FloorRing K]

theorem mem_materialized {env : Env K} {data : Data K} {pts : List (Int × Int)}
    {p : Int × Int} {v : Vector3 K} :
    (p, v) ∈ materialized env data pts ↔ p ∈ pts ∧ position env data p.1 p.2 = some v := by
  unfold materialized
  simp only [List.mem_filterMap, Option.map_eq_some']
  constructor
  · rintro ⟨q, hq, w, hw, h⟩
    cases h
    exact ⟨hq, hw⟩
  · rintro ⟨hp, hv⟩
    exact ⟨p, hp, v, hv, rfl⟩

theorem mem_map_fst_materialized {env : Env K} {data : Data K} {pts : List (Int × Int)}
    {p : Int × Int} :
    p ∈ (materialized env data pts).map Prod.fst ↔
      p ∈ pts ∧ (position env data p.1 p.2).isSome := by
  simp only [List.mem_map, Prod.exists, exists_and_right, exists_eq_right, mem_materialized,
    Option.isSome_iff_exists]
  constructor
  · rintro ⟨v, h1, h2⟩
    exact ⟨h1, v, h2⟩
  · rintro ⟨h1, v, h2⟩
    exact ⟨v, h1, h2⟩

theorem materialized_append (env : Env K) (data : Data K) (pts qts : List (Int × Int)) :
    materialized env data (pts ++ qts) = materialized env data pts ++ materialized env data qts := by
  simp [materialized]

theorem materialized_skip {env : Env K} {data : Data K} {p : Int × Int}
    (h : position env data p.1 p.2 = none) : materialized env data [p] = [] := by
  simp [materialized, h]

theorem materialized_keep {env : Env K} {data : Data K} {p : Int × Int} {v : Vector3 K}
    (h : position env data p.1 p.2 = some v) : materialized env data [p] = [(p, v)] := by
  simp [materialized, h]

theorem faceColor_some (data : Data K) (y : JSNum K) (vp vq : Vector3 K) :
    faceColor data y (some vp) (some vq) =
      some (if y.truthy || vp.y.truthy || vq.y.truthy then data.color else data.seaColor) := by
  cases h1 : y.truthy <;> cases h2 : vp.y.truthy <;> cases h3 : vq.y.truthy <;>
    simp [faceColor, h1, h2, h3]

theorem landVertex_append_left {vertices : List (Vector3 K)} {k : Nat} (v : Vector3 K)
    (h : k < vertices.length) : landVertex (vertices ++ [v]) k = landVertex vertices k := by
  unfold landVertex
  rw [List.getElem?_append_left h]

theorem landVertex_of_get {vertices : List (Vector3 K)} {k : Nat} {v : Vector3 K}
    (h : vertices[k]? = some v) : landVertex vertices k = v.y.truthy := by
  unfold landVertex
  rw [h]

theorem paint_append_left (data : Data K) {vertices : List (Vector3 K)} (v : Vector3 K)
    {t : Nat × Nat × Nat} (h1 : t.1 < vertices.length) (h2 : t.2.1 < vertices.length)
    (h3 : t.2.2 < vertices.length) : paint data (vertices ++ [v]) t = paint data vertices t := by
  unfold paint
  rw [landVertex_append_left v h1, landVertex_append_left v h2, landVertex_append_left v h3]

theorem pushFace_spec (data : Data K) (vertices : List (Vector3 K)) (v : Vector3 K) (a : Nat)
    (p q : Option Nat) (faces : List Face3) (ha : vertices[a]? = some v)
    (hp : ∀ k, p = some k → k < vertices.length) (hq : ∀ k, q = some k → k < vertices.length) :
    pushFace data vertices v.y a p q faces =
      some (faces ++ (triangle a p q).map (paint data vertices)) := by
  cases p with
  | none => simp [pushFace, triangle]
  | some b =>
    cases q with
    | none => simp [pushFace, triangle]
    | some c =>
      have hbl : b < vertices.length := hp b rfl
      have hcl : c < vertices.length := hq c rfl
      obtain ⟨vb, hb⟩ : ∃ vb, vertices[b]? = some vb := ⟨vertices[b], List.getElem?_eq_getElem hbl⟩
      obtain ⟨vc, hc⟩ : ∃ vc, vertices[c]? = some vc := ⟨vertices[c], List.getElem?_eq_getElem hcl⟩
      simp only [pushFace, hb, hc, faceColor_some, Option.map_some', paint, triangle,
        List.map_cons, List.map_nil, landVertex_of_get ha, landVertex_of_get hb,
        landVertex_of_get hc]

theorem trianglesAt_congr {idx idx2 : Int → Int → Option Nat} {i j : Int}
    (h0 : idx i j = idx2 i j) (h1 : idx i (j - 1) = idx2 i (j - 1))
    (h2 : idx (i - 1) (j - 1) = idx2 (i - 1) (j - 1)) (h3 : idx (i - 1) j = idx2 (i - 1) j) :
    trianglesAt idx i j = trianglesAt idx2 i j := by
  unfold trianglesAt
  rw [h0, h1, h2, h3]

theorem mem_trianglesAt {idx : Int → Int → Option Nat} {i j : Int} {t : Nat × Nat × Nat} :
    t ∈ trianglesAt idx i j ↔ ∃ a, idx i j = some a ∧
      ((∃ b c, idx i (j - 1) = some b ∧ idx (i - 1) (j - 1) = some c ∧ t = (a, b, c)) ∨
       (∃ c d, idx (i - 1) (j - 1) = some c ∧ idx (i - 1) j = some d ∧ t = (a, c, d))) := by
  unfold trianglesAt triangle
  cases h0 : idx i j <;> cases h1 : idx i (j - 1) <;> cases h2 : idx (i - 1) (j - 1) <;>
    cases h3 : idx (i - 1) j <;> simp

theorem trianglesAt_bound {idx : Int → Int → Option Nat} {i j : Int} {n : Nat}
    (h : ∀ a b k, idx a b = some k → k < n) {t : Nat × Nat × Nat}
    (ht : t ∈ trianglesAt idx i j) : t.1 < n ∧ t.2.1 < n ∧ t.2.2 < n := by
  obtain ⟨a, h0, hab | hab⟩ := mem_trianglesAt.mp ht
  · obtain ⟨b, c, h1, h2, rfl⟩ := hab
    exact ⟨h _ _ _ h0, h _ _ _ h1, h _ _ _ h2⟩
  · obtain ⟨c, d, h2, h3, rfl⟩ := hab
    exact ⟨h _ _ _ h0, h _ _ _ h2, h _ _ _ h3⟩

theorem record_eq (data : Data K) {s : State K} {i j : Int} (v : Vector3 K)
    {row row1 : Int → Option Nat} (hr : s.vertexLookup i = some row)
    (hr1 : s.vertexLookup (i - 1) = some row1) :
    record data i j v s =
      (pushFace data (s.geometry.vertices ++ [v]) v.y s.vertexInd (s.index i (j - 1))
        (s.index (i - 1) (j - 1)) s.geometry.faces).bind fun faces1 =>
      (pushFace data (s.geometry.vertices ++ [v]) v.y s.vertexInd (s.index (i - 1) (j - 1))
        (s.index (i - 1) j) faces1).map fun faces2 =>
        { vertexLookup :=
            Function.update s.vertexLookup i (some (Function.update row j (some s.vertexInd)))
          vertexInd := s.vertexInd + 1
          geometry := ⟨s.geometry.vertices ++ [v], faces2⟩ } := by
  have hi : i - 1 ≠ i := by omega
  have hj : j - 1 ≠ j := by omega
  simp [record, State.read, State.index, hr, hr1, Function.update_same,
    Function.update_noteq hi, Function.update_noteq hj]

theorem index_update (s : State K) {i j : Int} {row : Int → Option Nat}
    (hr : s.vertexLookup i = some row) (n m : Nat) (g : Geometry K) (a b : Int) :
    State.index (K := K)
        ⟨Function.update s.vertexLookup i (some (Function.update row j (some n))), m, g⟩ a b =
      if a = i ∧ b = j then some n else s.index a b := by
  unfold State.index
  by_cases ha : a = i
  · subst ha
    by_cases hb : b = j
    · subst hb
      simp
    · simp [hb, hr, Function.update_noteq hb]
  · simp [ha, Function.update_noteq ha]

theorem Inv.index_lt {env : Env K} {data : Data K} {pts : List (Int × Int)} {s : State K}
    (h : Inv env data pts s) {i j : Int} {k : Nat} (hk : s.index i j = some k) :
    k < s.geometry.vertices.length := by
  have h1 := (h.table i j k).mp hk
  have h2 := (List.getElem?_eq_some.mp h1).1
  rw [h.vertices]
  simpa using h2

theorem Inv.index_mem {env : Env K} {data : Data K} {pts : List (Int × Int)} {s : State K}
    (h : Inv env data pts s) {i j : Int} {k : Nat} (hk : s.index i j = some k) :
    (i, j) ∈ pts ∧ (position env data i j).isSome := by
  have h1 := (h.table i j k).mp hk
  have h2 : (i, j) ∈ (materialized env data pts).map Prod.fst := List.mem_iff_getElem?.mpr ⟨k, h1⟩
  exact mem_map_fst_materialized.mp h2

theorem Inv.index_vertex {env : Env K} {data : Data K} {pts : List (Int × Int)} {s : State K}
    (h : Inv env data pts s) {i j : Int} {k : Nat} (hk : s.index i j = some k) :
    s.geometry.vertices[k]? = position env data i j := by
  have h1 := (h.table i j k).mp hk
  rw [List.getElem?_map] at h1
  rw [h.vertices, List.getElem?_map]
  cases hm : (materialized env data pts)[k]? with
  | none => simp [hm] at h1
  | some pv =>
    obtain ⟨p, w⟩ := pv
    simp only [hm, Option.map_some', Option.some.injEq] at h1
    subst h1
    have hmem : ((i, j), w) ∈ materialized env data pts := List.mem_iff_getElem?.mpr ⟨k, hm⟩
    simp [(mem_materialized.mp hmem).2]

theorem flatMap_congr_mem {α β : Type} {l : List α} {f g : α → List β}
    (h : ∀ a ∈ l, f a = g a) : l.flatMap f = l.flatMap g := by
  induction l with
  | nil => rfl
  | cons a l ih =>
    simp only [List.flatMap_cons]
    rw [h a (List.mem_cons_self _ _), ih (fun b hb => h b (List.mem_cons_of_mem _ hb))]

theorem record_some (data : Data K) {s : State K} {i j : Int} (v : Vector3 K)
    {row : Int → Option Nat} (hr : s.vertexLookup i = some row)
    (hrow1 : (s.vertexLookup (i - 1)).isSome)
    (hlen : s.vertexInd = s.geometry.vertices.length)
    (hlt : ∀ a b k, s.index a b = some k → k < s.geometry.vertices.length) :
    record data i j v s = some
      { vertexLookup :=
          Function.update s.vertexLookup i (some (Function.update row j (some s.vertexInd)))
        vertexInd := s.vertexInd + 1
        geometry := ⟨s.geometry.vertices ++ [v], s.geometry.faces ++
          (trianglesAt (fun a b => if a = i ∧ b = j then some s.vertexInd else s.index a b) i j).map
            (paint data (s.geometry.vertices ++ [v]))⟩ } := by
  obtain ⟨row1, hr1⟩ := Option.isSome_iff_exists.mp hrow1
  have hA : (s.geometry.vertices ++ [v])[s.vertexInd]? = some v := by
    rw [hlen]
    exact List.getElem?_concat_length _ _
  have hbound : ∀ a b k, s.index a b = some k → k < (s.geometry.vertices ++ [v]).length := by
    intro a b k hk
    have := hlt a b k hk
    simp only [List.length_append, List.length_singleton]
    omega
  rw [record_eq data v hr hr1,
    pushFace_spec data _ v _ _ _ _ hA (hbound i (j - 1)) (hbound (i - 1) (j - 1)),
    Option.some_bind,
    pushFace_spec data _ v _ _ _ _ hA (hbound (i - 1) (j - 1)) (hbound (i - 1) j),
    Option.map_some']
  have hi : ¬ (i - 1 = i) := by omega
  have hj : ¬ (j - 1 = j) := by omega
  simp only [trianglesAt, and_self, if_true, hi, hj, false_and, and_false, if_false,
    List.map_append, List.append_assoc]

theorem inv_step {env : Env K} {data : Data K} {pts : List (Int × Int)} {s s2 : State K}
    {i j : Int} {v : Vector3 K} (h : Inv env data pts s) (hb : ∀ q ∈ pts, before q (i, j))
    (hv : position env data i j = some v)
    (hidx : ∀ a b, s2.index a b = if a = i ∧ b = j then some s.vertexInd else s.index a b)
    (hind : s2.vertexInd = s.vertexInd + 1)
    (hvs : s2.geometry.vertices = s.geometry.vertices ++ [v])
    (hfs : s2.geometry.faces = s.geometry.faces ++
      (trianglesAt s2.index i j).map (paint data s2.geometry.vertices)) :
    Inv env data (pts ++ [(i, j)]) s2 := by
  have hnot : ∀ a b, (a, b) ∈ pts → ¬ (a = i ∧ b = j) := by
    rintro a b hab ⟨rfl, rfl⟩
    have := hb _ hab
    simp only [before] at this
    omega
  have hL : ((materialized env data pts).map Prod.fst).length = s.vertexInd := by
    rw [h.counter, List.length_map]
  refine ⟨?_, ?_, ?_, ?_⟩
  · rw [hind, h.counter, materialized_append, materialized_keep (p := (i, j)) hv, List.length_append,
      List.length_singleton]
  · rw [hvs, h.vertices, materialized_append, materialized_keep (p := (i, j)) hv, List.map_append,
      List.map_singleton]
  · intro a b k
    rw [hidx, materialized_append, materialized_keep (p := (i, j)) hv, List.map_append, List.getElem?_append]
    by_cases hab : a = i ∧ b = j
    · obtain ⟨rfl, rfl⟩ := hab
      simp only [and_self, if_true, Option.some.injEq, hL]
      constructor
      · intro hk
        subst hk
        simp
      · intro hk
        by_cases hlt : k < s.vertexInd
        · rw [if_pos hlt] at hk
          have hm : (a, b) ∈ (materialized env data pts).map Prod.fst :=
            List.mem_iff_getElem?.mpr ⟨k, hk⟩
          exact absurd ⟨rfl, rfl⟩ (hnot a b (mem_map_fst_materialized.mp hm).1)
        · rw [if_neg hlt] at hk
          have h3 := (List.getElem?_eq_some.mp hk).1
          simp only [List.map_cons, List.map_nil, List.length_singleton] at h3
          omega
    · rw [if_neg hab, h.table a b k, hL]
      by_cases hlt : k < s.vertexInd
      · rw [if_pos hlt]
      · rw [if_neg hlt]
        constructor
        · intro hk
          have h3 := (List.getElem?_eq_some.mp hk).1
          omega
        · intro hk
          obtain ⟨h3, h4⟩ := List.getElem?_eq_some.mp hk
          simp only [List.map_cons, List.map_nil, List.length_singleton] at h3
          have h5 : k - s.vertexInd = 0 := by omega
          simp only [h5, List.map_cons, List.map_nil, List.getElem_cons_zero, Prod.mk.injEq] at h4
          exact absurd ⟨h4.1.symm, h4.2.symm⟩ hab
  · have hold : (pts.flatMap fun p => trianglesAt s2.index p.1 p.2) =
        pts.flatMap fun p => trianglesAt s.index p.1 p.2 := by
      apply flatMap_congr_mem
      rintro ⟨a, b⟩ hq
      have hq1 := hb _ hq
      simp only [before] at hq1
      apply trianglesAt_congr <;> rw [hidx] <;> rw [if_neg] <;> omega
    have hpaint : (pts.flatMap fun p => trianglesAt s.index p.1 p.2).map
          (paint data (s.geometry.vertices ++ [v])) =
        (pts.flatMap fun p => trianglesAt s.index p.1 p.2).map (paint data s.geometry.vertices) := by
      apply List.map_congr_left
      intro t ht
      obtain ⟨q, _, hq⟩ := List.mem_flatMap.mp ht
      obtain ⟨h1, h2, h3⟩ := trianglesAt_bound (fun a b k hk => h.index_lt hk) hq
      exact paint_append_left data v h1 h2 h3
    rw [List.flatMap_append, List.map_append, hold, hfs, hvs, hpaint, ← h.faces]
    simp only [List.flatMap_cons, List.flatMap_nil, List.append_nil]

theorem record_inv {env : Env K} {data : Data K} {pts : List (Int × Int)} {s : State K}
    {i j : Int} {v : Vector3 K} (h : Inv env data pts s) (hb : ∀ q ∈ pts, before q (i, j))
    (hv : position env data i j = some v) (hrow : (s.vertexLookup i).isSome)
    (hrow1 : (s.vertexLookup (i - 1)).isSome) :
    ∃ s2, record data i j v s = some s2 ∧ Inv env data (pts ++ [(i, j)]) s2 ∧
      ∀ a, (s2.vertexLookup a).isSome = (s.vertexLookup a).isSome := by
  obtain ⟨row, hr⟩ := Option.isSome_iff_exists.mp hrow
  have hlen : s.vertexInd = s.geometry.vertices.length := by
    rw [h.counter, h.vertices, List.length_map]
  refine ⟨_, record_some data v hr hrow1 hlen (fun a b k hk => h.index_lt hk), ?_, ?_⟩
  · apply inv_step h hb hv (index_update s hr _ _ _) rfl rfl
    show _ ++ _ = _ ++ _
    congr 2
    apply trianglesAt_congr <;> rw [index_update s hr]
  · intro a
    by_cases ha : a = i
    · subst ha
      simp [hr]
    · simp [Function.update_noteq ha]

theorem inv_skip {env : Env K} {data : Data K} {pts : List (Int × Int)} {s : State K}
    {i j : Int} (h : Inv env data pts s) (hb : ∀ q ∈ pts, before q (i, j))
    (hv : position env data i j = none) : Inv env data (pts ++ [(i, j)]) s := by
  have hnone : s.index i j = none := by
    cases hk : s.index i j with
    | none => rfl
    | some k =>
      have := hb _ (h.index_mem hk).1
      simp only [before] at this
      omega
  refine ⟨?_, ?_, ?_, ?_⟩
  · rw [h.counter, materialized_append, materialized_skip (p := (i, j)) hv, List.append_nil]
  · rw [h.vertices, materialized_append, materialized_skip (p := (i, j)) hv, List.append_nil]
  · intro a b k
    rw [h.table, materialized_append, materialized_skip (p := (i, j)) hv, List.append_nil]
  · rw [h.faces, List.flatMap_append]
    simp only [List.flatMap_cons, List.flatMap_nil, List.append_nil, trianglesAt, hnone]

theorem visit_inv {env : Env K} {data : Data K} {pts : List (Int × Int)} {s : State K}
    {i j : Int} (h : Inv env data pts s) (hb : ∀ q ∈ pts, before q (i, j))
    (hrow : (s.vertexLookup i).isSome) (hrow1 : (s.vertexLookup (i - 1)).isSome) :
    ∃ s2, visit env data i j s = some s2 ∧ Inv env data (pts ++ [(i, j)]) s2 ∧
      ∀ a, (s2.vertexLookup a).isSome = (s.vertexLookup a).isSome := by
  unfold visit
  cases hv : position env data i j with
  | none => exact ⟨s, rfl, inv_skip h hb hv, fun _ => rfl⟩
  | some v => exact record_inv h hb hv hrow hrow1

theorem mem_rowPoints {i : Int} {n : Nat} {j : Int} {q : Int × Int} :
    q ∈ rowPoints i n j ↔ q.1 = i ∧ j ≤ q.2 ∧ q.2 < j + n := by
  induction n generalizing j with
  | zero =>
    simp only [rowPoints, List.not_mem_nil, false_iff]
    omega
  | succ n ih =>
    obtain ⟨a, b⟩ := q
    simp only [rowPoints, List.mem_cons, ih, Prod.mk.injEq]
    push_cast
    omega

theorem loopJ_inv {env : Env K} {data : Data K} (i : Int) (n : Nat) :
    ∀ (j : Int) (pts : List (Int × Int)) (s : State K), Inv env data pts s →
      (∀ q ∈ pts, before q (i, j)) → (s.vertexLookup i).isSome →
      (s.vertexLookup (i - 1)).isSome →
      ∃ s2, loopJ env data i n j s = some s2 ∧ Inv env data (pts ++ rowPoints i n j) s2 ∧
        ∀ a, (s2.vertexLookup a).isSome = (s.vertexLookup a).isSome := by
  induction n with
  | zero =>
    intro j pts s h _ _ _
    exact ⟨s, rfl, by simpa [rowPoints] using h, fun _ => rfl⟩
  | succ n ih =>
    intro j pts s h hb hrow hrow1
    obtain ⟨s1, hs1, h1, hr1⟩ := visit_inv h hb hrow hrow1
    have hb1 : ∀ q ∈ pts ++ [(i, j)], before q (i, j + 1) := by
      intro q hq
      rcases List.mem_append.mp hq with hq | hq
      · have := hb q hq
        simp only [before] at this ⊢
        omega
      · simp only [List.mem_singleton] at hq
        subst hq
        exact Or.inr ⟨rfl, Int.lt_succ_self j⟩
    obtain ⟨s2, hs2, h2, hr2⟩ := ih (j + 1) (pts ++ [(i, j)]) s1 h1 hb1
      (by rw [hr1]; exact hrow) (by rw [hr1]; exact hrow1)
    refine ⟨s2, ?_, ?_, fun a => by rw [hr2, hr1]⟩
    · simp only [loopJ, hs1, Option.some_bind, hs2]
    · simpa [rowPoints, List.append_assoc] using h2

theorem index_newRow {s : State K} {i : Int} (h : ∀ b, s.index i b = none) :
    State.index (newRow i s) = s.index := by
  funext a b
  unfold State.index newRow
  by_cases ha : a = i
  · subst ha
    have := h b
    unfold State.index at this
    simp [this]
  · simp [Function.update_noteq ha]

theorem newRow_loopJ_inv {env : Env K} {data : Data K} (i : Int) (m : Nat) (j0 : Int)
    (pts : List (Int × Int)) (s : State K) (h : Inv env data pts s) (hb : ∀ q ∈ pts, q.1 < i)
    (hrow1 : (s.vertexLookup (i - 1)).isSome) :
    ∃ s2, loopJ env data i m j0 (newRow i s) = some s2 ∧
      Inv env data (pts ++ rowPoints i m j0) s2 ∧ (s2.vertexLookup i).isSome := by
  have hnone : ∀ b, s.index i b = none := by
    intro b
    cases hk : s.index i b with
    | none => rfl
    | some k =>
      exact absurd (hb _ (h.index_mem hk).1) (lt_irrefl i)
  have hidx := index_newRow hnone
  have h0 : Inv env data pts (newRow i s) := by
    refine ⟨h.counter, h.vertices, ?_, ?_⟩
    · intro a b k
      rw [hidx]
      exact h.table a b k
    · rw [hidx]
      exact h.faces
  have hne : i - 1 ≠ i := by omega
  obtain ⟨s2, hs2, h2, hr2⟩ := loopJ_inv i m j0 pts (newRow i s) h0
    (by
      intro q hq
      have := hb q hq
      simp only [before]
      omega)
    (by simp [newRow])
    (by simpa [newRow, Function.update_noteq hne] using hrow1)
  exact ⟨s2, hs2, h2, by rw [hr2]; simp [newRow]⟩

theorem row_inv {env : Env K} {data : Data K} (scanSize i : Int) (pts : List (Int × Int))
    (s : State K) (h : Inv env data pts s) (hb : ∀ q ∈ pts, q.1 < i)
    (hrow1 : (s.vertexLookup (i - 1)).isSome) :
    ∃ s2, row env data scanSize i s = some s2 ∧
      Inv env data (pts ++ rowPoints i (2 * scanSize + 1).toNat (-scanSize)) s2 ∧
      (s2.vertexLookup i).isSome :=
  newRow_loopJ_inv i _ _ pts s h hb hrow1

theorem loopI_inv {env : Env K} {data : Data K} (scanSize : Int) (n : Nat) :
    ∀ (i : Int) (pts : List (Int × Int)) (s : State K), Inv env data pts s →
      (∀ q ∈ pts, q.1 < i) → (s.vertexLookup (i - 1)).isSome →
      ∃ s2, loopI env data scanSize n i s = some s2 ∧
        Inv env data (pts ++ rowsPoints scanSize n i) s2 ∧
        (s2.vertexLookup (i + n - 1)).isSome := by
  induction n with
  | zero =>
    intro i pts s h _ hrow1
    exact ⟨s, rfl, by simpa [rowsPoints] using h, by simpa using hrow1⟩
  | succ n ih =>
    intro i pts s h hb hrow1
    obtain ⟨s1, hs1, h1, hr1⟩ := row_inv scanSize i pts s h hb hrow1
    have hb1 : ∀ q ∈ pts ++ rowPoints i (2 * scanSize + 1).toNat (-scanSize), q.1 < i + 1 := by
      intro q hq
      rcases List.mem_append.mp hq with hq | hq
      · have := hb q hq
        omega
      · have := (mem_rowPoints.mp hq).1
        omega
    obtain ⟨s2, hs2, h2, hr2⟩ := ih (i + 1) _ s1 h1 hb1 (by simpa using hr1)
    refine ⟨s2, ?_, ?_, ?_⟩
    · simp only [loopI, hs1, Option.some_bind, hs2]
    · simpa [rowsPoints, List.append_assoc] using h2
    · have e : i + 1 + (n : Int) - 1 = i + ((n + 1 : Nat) : Int) - 1 := by
        push_cast
        ring
      rw [← e]
      exact hr2

theorem inv_nil (env : Env K) (data : Data K) {s : State K} (hidx : ∀ a b, s.index a b = none)
    (hind : s.vertexInd = 0) (hg : s.geometry = ⟨[], []⟩) : Inv env data [] s := by
  refine ⟨by simp [hind, materialized], by simp [hg, materialized], ?_, by simp [hg]⟩
  intro a b k
  simp [hidx, materialized]

theorem start_index (scanSize : Int) (a b : Int) :
    (start (K := K) scanSize).index a b = none := by
  unfold State.index start
  by_cases ha : a = -scanSize - 1
  · subst ha
    simp
  · simp [Function.update_noteq ha]

/-- The scan, when `SCAN_SIZE` is not `Infinity`, ends without an exception in a state
that is in step with the whole scan range. -/
theorem scan_inv (env : Env K) (data : Data K) (h : SCAN_SIZE data ≠ pinf) :
    ∃ s, scan env data = some s ∧ Inv env data (scanOrder data) s := by
  unfold scan scanOrder
  cases hs : SCAN_SIZE data with
  | fin v =>
    obtain ⟨s2, hs2, h2, _⟩ := @loopI_inv K _ _ env data ⌊v⌋ (2 * ⌊v⌋ + 1).toNat (-⌊v⌋) []
      (start ⌊v⌋) (inv_nil env data (start_index _) rfl rfl) (by simp)
      (by simp [start])
    exact ⟨s2, hs2, by simpa [scanPoints] using h2⟩
  | pinf => exact absurd hs h
  | ninf => exact ⟨_, rfl, inv_nil env data (fun _ _ => rfl) rfl rfl⟩
  | nan => exact ⟨_, rfl, inv_nil env data (fun _ _ => rfl) rfl rfl⟩

theorem before_irrefl (p : Int × Int) : ¬ before p p := by
  simp only [before]
  omega

theorem before_asymm {p q : Int × Int} (h : before p q) : ¬ before q p := by
  simp only [before] at h ⊢
  omega

theorem pairwise_rowPoints (i : Int) (n : Nat) (j : Int) : (rowPoints i n j).Pairwise before := by
  induction n generalizing j with
  | zero => simp [rowPoints]
  | succ n ih =>
    simp only [rowPoints, List.pairwise_cons]
    refine ⟨?_, ih (j + 1)⟩
    intro q hq
    have := mem_rowPoints.mp hq
    exact Or.inr ⟨this.1.symm, by show j < q.2; omega⟩

theorem mem_rowsPoints {scanSize : Int} {n : Nat} {i : Int} {q : Int × Int} :
    q ∈ rowsPoints scanSize n i ↔
      i ≤ q.1 ∧ q.1 < i + n ∧ -scanSize ≤ q.2 ∧ q.2 ≤ scanSize := by
  induction n generalizing i with
  | zero =>
    simp only [rowsPoints, List.not_mem_nil, false_iff]
    omega
  | succ n ih =>
    simp only [rowsPoints, List.mem_append, mem_rowPoints, ih]
    push_cast
    omega

theorem mem_scanPoints {scanSize : Int} {q : Int × Int} :
    q ∈ scanPoints scanSize ↔
      -scanSize ≤ q.1 ∧ q.1 ≤ scanSize ∧ -scanSize ≤ q.2 ∧ q.2 ≤ scanSize := by
  unfold scanPoints
  rw [mem_rowsPoints]
  omega

theorem pairwise_rowsPoints (scanSize : Int) (n : Nat) (i : Int) :
    (rowsPoints scanSize n i).Pairwise before := by
  induction n generalizing i with
  | zero => simp [rowsPoints]
  | succ n ih =>
    simp only [rowsPoints, List.pairwise_append]
    refine ⟨pairwise_rowPoints _ _ _, ih (i + 1), ?_⟩
    intro p hp q hq
    have h1 := (mem_rowPoints.mp hp).1
    have h2 := (mem_rowsPoints.mp hq).1
    exact Or.inl (by omega)

theorem pairwise_scanPoints (scanSize : Int) : (scanPoints scanSize).Pairwise before :=
  pairwise_rowsPoints _ _ _

theorem materialized_sublist (env : Env K) (data : Data K) (pts : List (Int × Int)) :
    List.Sublist ((materialized env data pts).map Prod.fst) pts := by
  induction pts with
  | nil => simp [materialized]
  | cons p pts ih =>
    have hc : materialized env data (p :: pts) =
        materialized env data [p] ++ materialized env data pts :=
      materialized_append env data [p] pts
    rw [hc, List.map_append]
    cases hv : position env data p.1 p.2 with
    | none =>
      rw [materialized_skip hv]
      exact List.Sublist.cons _ ih
    | some v =>
      rw [materialized_keep hv]
      exact List.Sublist.cons₂ _ ih

theorem Inv.index_inj {env : Env K} {data : Data K} {pts : List (Int × Int)} {s : State K}
    (h : Inv env data pts s) {i j i2 j2 : Int} {k : Nat} (h1 : s.index i j = some k)
    (h2 : s.index i2 j2 = some k) : (i, j) = (i2, j2) := by
  have e1 := (h.table i j k).mp h1
  have e2 := (h.table i2 j2 k).mp h2
  rw [e1] at e2
  exact Option.some.inj e2

theorem Inv.index_surj {env : Env K} {data : Data K} {pts : List (Int × Int)} {s : State K}
    (h : Inv env data pts s) {k : Nat} (hk : k < s.vertexInd) : ∃ i j, s.index i j = some k := by
  have hL : k < ((materialized env data pts).map Prod.fst).length := by
    rw [List.length_map, ← h.counter]
    exact hk
  refine ⟨(((materialized env data pts).map Prod.fst)[k]).1,
    (((materialized env data pts).map Prod.fst)[k]).2, ?_⟩
  rw [h.table]
  exact List.getElem?_eq_getElem hL

theorem Inv.index_isSome {env : Env K} {data : Data K} {pts : List (Int × Int)} {s : State K}
    (h : Inv env data pts s) (i j : Int) :
    (s.index i j).isSome ↔ (i, j) ∈ pts ∧ (position env data i j).isSome := by
  constructor
  · intro hs
    obtain ⟨k, hk⟩ := Option.isSome_iff_exists.mp hs
    exact h.index_mem hk
  · intro hp
    obtain ⟨k, hk⟩ := List.mem_iff_getElem?.mp (mem_map_fst_materialized.mpr hp)
    rw [(h.table i j k).mpr hk]
    rfl

theorem Inv.index_lt_iff {env : Env K} {data : Data K} {pts : List (Int × Int)} {s : State K}
    (h : Inv env data pts s) (hp : pts.Pairwise before) {i j i2 j2 : Int} {k k2 : Nat}
    (h1 : s.index i j = some k) (h2 : s.index i2 j2 = some k2) :
    before (i, j) (i2, j2) ↔ k < k2 := by
  have hL := List.pairwise_iff_getElem.mp (List.Pairwise.sublist (materialized_sublist env data pts) hp)
  obtain ⟨l1, e1⟩ := List.getElem?_eq_some.mp ((h.table i j k).mp h1)
  obtain ⟨l2, e2⟩ := List.getElem?_eq_some.mp ((h.table i2 j2 k2).mp h2)
  constructor
  · intro hb
    by_contra hk
    rcases Nat.lt_or_eq_of_le (not_lt.mp hk) with hlt | heq
    · have := hL k2 k l2 l1 hlt
      rw [e1, e2] at this
      exact before_asymm hb this
    · subst heq
      rw [e1] at e2
      rw [e2] at hb
      exact before_irrefl _ hb
  · intro hk
    have := hL k k2 l1 l2 hk
    rw [e1, e2] at this
    exact this

theorem loopJ_add (env : Env K) (data : Data K) (i : Int) (m n : Nat) :
    ∀ (j : Int) (s : State K),
      loopJ env data i (m + n) j s = (loopJ env data i m j s).bind (loopJ env data i n (j + m)) := by
  induction m with
  | zero =>
    intro j s
    simp [loopJ]
  | succ m ih =>
    intro j s
    have e : m + 1 + n = (m + n) + 1 := by omega
    have e2 : j + 1 + (m : Int) = j + ((m + 1 : Nat) : Int) := by
      push_cast
      ring
    rw [e]
    simp only [loopJ]
    cases visit env data i j s with
    | none => rfl
    | some s1 =>
      simp only [Option.some_bind]
      rw [ih (j + 1) s1, e2]

theorem loopI_add (env : Env K) (data : Data K) (scanSize : Int) (m n : Nat) :
    ∀ (i : Int) (s : State K),
      loopI env data scanSize (m + n) i s =
        (loopI env data scanSize m i s).bind (loopI env data scanSize n (i + m)) := by
  induction m with
  | zero =>
    intro i s
    simp [loopI]
  | succ m ih =>
    intro i s
    have e : m + 1 + n = (m + n) + 1 := by omega
    have e2 : i + 1 + (m : Int) = i + ((m + 1 : Nat) : Int) := by
      push_cast
      ring
    rw [e]
    simp only [loopI]
    cases row env data scanSize i s with
    | none => rfl
    | some s1 =>
      simp only [Option.some_bind]
      rw [ih (i + 1) s1, e2]

/-- Every partial scan is a state the whole scan passes through. -/
theorem scan_through (env : Env K) (data : Data K) (scanSize : Int) {a b : Nat}
    (ha : a < (2 * scanSize + 1).toNat) (hb : b ≤ (2 * scanSize + 1).toNat) :
    loopI env data scanSize (2 * scanSize + 1).toNat (-scanSize) (start scanSize) =
      (partialScan env data scanSize a b).bind (restOfScan env data scanSize a b) := by
  obtain ⟨c, hc⟩ : ∃ c, (2 * scanSize + 1).toNat - (a + 1) = c := ⟨_, rfl⟩
  obtain ⟨d, hd⟩ : ∃ d, (2 * scanSize + 1).toNat - b = d := ⟨_, rfl⟩
  have e1 : (2 * scanSize + 1).toNat = a + (c + 1) := by omega
  have e2 : (2 * scanSize + 1).toNat = b + d := by omega
  unfold partialScan restOfScan
  rw [hc, hd]
  have hI := loopI_add env data scanSize a (c + 1) (-scanSize) (start scanSize)
  rw [← e1] at hI
  rw [hI]
  cases loopI env data scanSize a (-scanSize) (start scanSize) with
  | none => rfl
  | some s1 =>
    simp only [Option.some_bind, loopI, row]
    have hJ := loopJ_add env data (-scanSize + a) b d (-scanSize) (newRow (-scanSize + a) s1)
    rw [← e2] at hJ
    rw [hJ, Option.bind_assoc]

theorem partialScan_inv (env : Env K) (data : Data K) (scanSize : Int) (a b : Nat) :
    ∃ s, partialScan env data scanSize a b = some s ∧
      Inv env data (visited scanSize a b) s := by
  obtain ⟨s1, hs1, h1, hr1⟩ := @loopI_inv K _ _ env data scanSize a (-scanSize) []
    (start scanSize) (inv_nil env data (start_index _) rfl rfl) (by simp) (by simp [start])
  rw [List.nil_append] at h1
  obtain ⟨s2, hs2, h2, _⟩ := newRow_loopJ_inv (-scanSize + a) b (-scanSize) _ s1 h1
    (by
      intro q hq
      have := mem_rowsPoints.mp hq
      omega)
    hr1
  exact ⟨s2, by simp only [partialScan, hs1, Option.some_bind, hs2], h2⟩

theorem pairwise_visited (scanSize : Int) (a b : Nat) : (visited scanSize a b).Pairwise before := by
  unfold visited
  rw [List.pairwise_append]
  refine ⟨pairwise_rowsPoints _ _ _, pairwise_rowPoints _ _ _, ?_⟩
  intro p hp q hq
  have h1 := mem_rowsPoints.mp hp
  have h2 := mem_rowPoints.mp hq
  exact Or.inl (by omega)

end ScanLemmas

/-! ## Finite arithmetic: the code computes the quantities of section 3 -/

section Numbers

variable {K : Type} [LinearOrderedField K] [FloorRing K]

theorem fin_add (a b : K) : (fin a + fin b : JSNum K) = fin (a + b) := rfl

theorem fin_sub (a b : K) : (fin a - fin b : JSNum K) = fin (a - b) := by
  show JSNum.add (fin a) (JSNum.neg (fin b)) = fin (a - b)
  simp [JSNum.add, JSNum.neg, sub_eq_add_neg]

theorem fin_mul (a b : K) : (fin a * fin b : JSNum K) = fin (a * b) := rfl

theorem fin_div {b : K} (a : K) (h : b ≠ 0) : (fin a / fin b : JSNum K) = fin (a / b) := by
  show JSNum.div (fin a) (fin b) = fin (a / b)
  simp [JSNum.div, h]

theorem le_fin (a b : K) : JSNum.le (fin a) (fin b) = decide (a ≤ b) := rfl

theorem lt_fin (a b : K) : JSNum.lt (fin a) (fin b) = decide (a < b) := rfl

theorem gt_fin (a b : K) : JSNum.gt (fin a) (fin b) = decide (b < a) := rfl

theorem mathMin_fin (a b : K) : JSNum.mathMin (fin a) (fin b) = fin (min a b) := by
  by_cases h : a ≤ b
  · simp [JSNum.mathMin, JSNum.le, h]
  · simp [JSNum.mathMin, JSNum.le, h, min_eq_right (le_of_not_le h)]

theorem mathSqrt_fin (f : K → K) {a : K} (h : 0 ≤ a) : JSNum.mathSqrt f (fin a) = fin (f a) := by
  simp [JSNum.mathSqrt, not_lt.mpr h]

theorem SIZE_fin {data : Data K} (h : data.unitSize ≠ 0) : SIZE data = fin (size data : K) := by
  unfold SIZE size
  rw [fin_div _ h, round_eq]
  rfl

theorem SCAN_SIZE_fin {data : Data K} (h : data.unitSize ≠ 0) :
    SCAN_SIZE data = fin (scanSize data : K) := by
  unfold SCAN_SIZE scanSize
  rw [SIZE_fin h, fin_mul]
  rfl

theorem UNIT_SIZE_fin {data : Data K} (h : data.unitSize ≠ 0) (hs : size data ≠ 0) :
    UNIT_SIZE data = fin (unitSize' data) := by
  unfold UNIT_SIZE unitSize'
  rw [SIZE_fin h, fin_div _ (Int.cast_ne_zero.mpr hs)]

theorem INNER_RADIUS_fin {data : Data K} (h : data.unitSize ≠ 0) (hs : size data ≠ 0) :
    INNER_RADIUS data = fin (innerRadius data) := by
  unfold INNER_RADIUS innerRadius
  rw [SIZE_fin h, UNIT_SIZE_fin h hs, fin_sub, fin_mul, fin_add]

theorem OUTER_RADIUS_fin {data : Data K} (h : data.unitSize ≠ 0) (hs : size data ≠ 0) :
    OUTER_RADIUS data = fin (outerRadius data) := by
  unfold OUTER_RADIUS outerRadius
  rw [SIZE_fin h, UNIT_SIZE_fin h hs, fin_add, fin_mul, fin_add]

theorem FAR_fin {data : Data K} (h : data.unitSize ≠ 0) (hs : size data ≠ 0) :
    FAR data = fin (far' data) := by
  unfold FAR far'
  rw [OUTER_RADIUS_fin h hs, gt_fin]
  by_cases hf : outerRadius data < data.far
  · simp [hf, max_eq_left (le_of_lt hf)]
  · simp [hf, max_eq_right (not_lt.mp hf)]

theorem PLATEAU_EDGE_fin {data : Data K} (h : data.unitSize ≠ 0) (hs : size data ≠ 0) :
    PLATEAU_EDGE data = fin (plateauEdge data) := by
  unfold PLATEAU_EDGE plateauEdge
  rw [INNER_RADIUS_fin h hs, fin_div _ (by norm_num)]

theorem SQRT3HALF_fin (env : Env K) : SQRT3HALF env = fin (env.sqrt 3 / 2) := by
  unfold SQRT3HALF
  rw [mathSqrt_fin _ (by norm_num), fin_div _ (by norm_num)]

theorem latticeX_fin (env : Env K) {data : Data K} (h : data.unitSize ≠ 0) (hs : size data ≠ 0)
    (i : Int) : latticeX env data i = fin (pointX env data i) := by
  unfold latticeX pointX
  rw [SQRT3HALF_fin, UNIT_SIZE_fin h hs, fin_mul, fin_mul]

theorem latticeZ_fin {data : Data K} (h : data.unitSize ≠ 0) (hs : size data ≠ 0) (i j : Int) :
    latticeZ data i j = fin (pointZ data i j) := by
  unfold latticeZ pointZ
  rw [UNIT_SIZE_fin h hs, fin_div _ (by norm_num), fin_sub, fin_mul]

theorem latticeR_fin (env : Env K) {data : Data K} (h : data.unitSize ≠ 0) (hs : size data ≠ 0)
    (i j : Int) : latticeR env data i j = fin (radius env data i j) := by
  unfold latticeR radius
  rw [latticeX_fin env h hs, latticeZ_fin h hs, fin_mul, fin_mul, fin_add,
    mathSqrt_fin _ (add_nonneg (mul_self_nonneg _) (mul_self_nonneg _)), pow_two, pow_two]

theorem octaves_eq : octaves = [25, 125, 625] := by
  simp [octaves, List.iterate, List.takeWhile]

theorem noiseLoop_enough (env : Env K) (data : Data K) (x z y : K) (n : Nat) :
    noiseLoop env data (fin x) (fin z) (n + 3) 25 (fin y) =
      fin (y + (octaves.map fun (q : Nat) =>
        env.noise ((x + data.middleRadius) / (q : K)) ((z + data.middleRadius) / (q : K)) env.SEED *
          min ((q : K) / 2) 150).sum) := by
  have h25 : ((25 : Nat) : K) ≠ 0 := by norm_num
  have h125 : ((125 : Nat) : K) ≠ 0 := by norm_num
  have h625 : ((625 : Nat) : K) ≠ 0 := by norm_num
  have h2 : (2 : K) ≠ 0 := by norm_num
  rw [octaves_eq]
  simp only [noiseLoop, fin_add, fin_div _ h25, fin_div _ h125, fin_div _ h625, fin_div _ h2,
    perlinNoise, mathMin_fin, fin_mul, Nat.reduceMul, Nat.reduceLeDiff, if_true, List.map_cons,
    List.map_nil, List.sum_cons, List.sum_nil, add_zero, add_assoc]
  cases n <;> simp [noiseLoop]

theorem noiseLoop_fin (env : Env K) (data : Data K) (x z : K) :
    noiseLoop env data (fin x) (fin z) 1500 25 (fin 10) = fin (accumulated env data x z) :=
  noiseLoop_enough env data x z 10 1497

theorem innerHeight_fin (env : Env K) {data : Data K} (h : data.unitSize ≠ 0)
    (hs : size data ≠ 0) (hp : plateauEdge data ≠ 0) (x z r : K) :
    innerHeight env data (fin x) (fin z) (fin r) = fin (height env data x z r) := by
  have h5 : (5 : K) ≠ 0 := by norm_num
  have h2 : (2 : K) ≠ 0 := by norm_num
  have hatt : accumulated env data x z *
      (min (innerRadius data - r) (plateauEdge data) / plateauEdge data) =
      attenuated env data x z r := by
    unfold attenuated
    rw [mul_div_assoc]
  unfold innerHeight height jitter
  simp only [noiseLoop_fin, INNER_RADIUS_fin h hs, PLATEAU_EDGE_fin h hs, fin_sub, mathMin_fin,
    fin_div _ hp, fin_mul, gt_fin, lt_fin, perlinNoise, fin_add, fin_div _ h5, fin_div _ h2,
    mul_div_assoc, hatt, decide_eq_true_eq]
  by_cases hpos : 0 < attenuated env data x z r
  · simp only [hpos, if_true, lt_fin, decide_eq_true_eq]
    split_ifs with h1
    · rw [max_eq_left (le_of_lt h1)]
    · rw [max_eq_right (not_lt.mp h1)]
  · simp only [hpos, if_false, lt_fin, add_zero, decide_eq_true_eq]
    split_ifs with h1
    · rw [max_eq_left (le_of_lt h1)]
    · rw [max_eq_right (not_lt.mp h1)]

theorem unitSize'_mul_pos {data : Data K} (hm : 0 < data.middleRadius) (hs : size data ≠ 0) :
    0 ≤ ((size data : K) - 1) * unitSize' data := by
  unfold unitSize'
  rcases lt_or_gt_of_ne hs with hneg | hpos
  · have h1 : ((size data : Int) : K) < 0 := Int.cast_lt_zero.mpr hneg
    have h2 : data.middleRadius / (size data : K) < 0 := div_neg_of_pos_of_neg hm h1
    exact le_of_lt (mul_pos_of_neg_of_neg (by linarith) h2)
  · have h1 : (1 : K) ≤ ((size data : Int) : K) := by exact_mod_cast hpos
    have h2 : 0 < data.middleRadius / (size data : K) := div_pos hm (by linarith)
    exact mul_nonneg (by linarith) (le_of_lt h2)

theorem innerRadius_pos {data : Data K} (hm : 0 < data.middleRadius) (hs : size data ≠ 0) :
    0 < innerRadius data := by
  have := unitSize'_mul_pos hm hs
  unfold innerRadius
  linarith [show (0 : K) < 1 / 10000 by norm_num]

theorem plateauEdge_pos {data : Data K} (hm : 0 < data.middleRadius) (hs : size data ≠ 0) :
    0 < plateauEdge data := by
  unfold plateauEdge
  exact div_pos (innerRadius_pos hm hs) (by norm_num)

/-- With a positive `middleRadius` and a `size` that is not zero, every quantity of the
body is finite and `position` is the case analysis of section 4.2. -/
theorem position_fin (env : Env K) {data : Data K} (h : data.unitSize ≠ 0)
    (hs : size data ≠ 0) (hm : 0 < data.middleRadius) (i j : Int) :
    position env data i j =
      if radius env data i j ≤ outerRadius data then
        if radius env data i j ≤ innerRadius data then
          some ⟨fin (pointX env data i),
            fin (height env data (pointX env data i) (pointZ data i j) (radius env data i j)),
            fin (pointZ data i j)⟩
        else if radius env data i j ≤ data.middleRadius then
          some ⟨fin (pointX env data i), fin 0, fin (pointZ data i j)⟩
        else
          some ⟨fin (pointX env data i * (far' data / radius env data i j)), fin 0,
            fin (pointZ data i j * (far' data / radius env data i j))⟩
      else none := by
  unfold position
  simp only [latticeX_fin env h hs, latticeZ_fin h hs, latticeR_fin env h hs,
    OUTER_RADIUS_fin h hs, INNER_RADIUS_fin h hs, FAR_fin h hs, le_fin, decide_eq_true_eq,
    innerHeight_fin env h hs (ne_of_gt (plateauEdge_pos hm hs))]
  split_ifs with h1 h2 h3
  · rfl
  · rfl
  · have hr : radius env data i j ≠ 0 := ne_of_gt (lt_trans hm (not_le.mp h3))
    rw [fin_div _ hr, fin_mul, fin_mul]
  · rfl

theorem add_def (a b : JSNum K) : a + b = JSNum.add a b := rfl

theorem sub_def (a b : JSNum K) : a - b = JSNum.add a (JSNum.neg b) := rfl

theorem mul_def (a b : JSNum K) : a * b = JSNum.mul a b := rfl

theorem div_def (a b : JSNum K) : a / b = JSNum.div a b := rfl

theorem le_nan (a : JSNum K) : JSNum.le a nan = false := by
  cases a <;> rfl

theorem le_mathSqrt_ninf (f : K → K) (a : JSNum K) :
    JSNum.le (JSNum.mathSqrt f a) ninf = false := by
  cases a with
  | fin v =>
    simp only [JSNum.mathSqrt]
    split_ifs <;> rfl
  | pinf => rfl
  | ninf => rfl
  | nan => rfl

theorem INNER_RADIUS_unitSize_zero {data : Data K} (hm : 0 < data.middleRadius)
    (hu : data.unitSize = 0) : INNER_RADIUS data = nan := by
  simp [INNER_RADIUS, UNIT_SIZE, SIZE, hu, add_def, sub_def, mul_def, div_def, JSNum.add,
    JSNum.neg, JSNum.mul, JSNum.div, JSNum.timesInf, JSNum.mathRound, hm]

theorem INNER_RADIUS_size_zero {data : Data K} (hm : 0 < data.middleRadius)
    (hu : data.unitSize ≠ 0) (hs : size data = 0) : INNER_RADIUS data = ninf := by
  unfold INNER_RADIUS UNIT_SIZE
  rw [SIZE_fin hu, hs]
  have h1 : ¬ (1 : K) < 0 := by norm_num
  simp [add_def, sub_def, mul_def, div_def, JSNum.add, JSNum.neg, JSNum.mul, JSNum.div,
    JSNum.timesInf, hm, h1]

theorem position_cases {env : Env K} {data : Data K} {i j : Int} {v : Vector3 K}
    (h : position env data i j = some v) :
    v.y = fin 0 ∨ (JSNum.le (latticeR env data i j) (INNER_RADIUS data) = true ∧
      v.y = innerHeight env data (latticeX env data i) (latticeZ data i j)
        (latticeR env data i j)) := by
  unfold position at h
  simp only at h
  split_ifs at h with h1 h2 h3
  · right
    exact ⟨h2, by rw [← Option.some.inj h]⟩
  · left
    rw [← Option.some.inj h]
  · left
    rw [← Option.some.inj h]

theorem height_nonneg (env : Env K) (data : Data K) (x z r : K) : 0 ≤ height env data x z r :=
  le_max_left _ _

/-- With a positive `middleRadius`, the height of every vertex is a finite number that
is not negative. -/
theorem position_y_nonneg {env : Env K} {data : Data K} (hm : 0 < data.middleRadius)
    {i j : Int} {v : Vector3 K} (h : position env data i j = some v) :
    ∃ y : K, v.y = fin y ∧ 0 ≤ y := by
  by_cases hu : data.unitSize = 0
  · rcases position_cases h with h0 | ⟨h1, _⟩
    · exact ⟨0, h0, le_refl _⟩
    · rw [INNER_RADIUS_unitSize_zero hm hu, le_nan] at h1
      exact absurd h1 (by simp)
  · by_cases hs : size data = 0
    · rcases position_cases h with h0 | ⟨h1, _⟩
      · exact ⟨0, h0, le_refl _⟩
      · rw [INNER_RADIUS_size_zero hm hu hs] at h1
        unfold latticeR at h1
        rw [le_mathSqrt_ninf] at h1
        exact absurd h1 (by simp)
    · rw [position_fin env hu hs hm] at h
      split_ifs at h with h1 h2 h3
      · rw [← Option.some.inj h]
        exact ⟨_, rfl, height_nonneg _ _ _ _ _⟩
      · rw [← Option.some.inj h]
        exact ⟨0, rfl, le_refl _⟩
      · rw [← Option.some.inj h]
        exact ⟨0, rfl, le_refl _⟩

theorem scanOrder_eq {data : Data K} (hu : data.unitSize ≠ 0) :
    scanOrder data = scanPoints (scanSize data) := by
  unfold scanOrder
  rw [SCAN_SIZE_fin hu]
  simp only [Int.floor_intCast]

/-- For a `unitSize` that is not zero the scan ends, without an exception, in a state in
step with the scan range `[-scanSize, scanSize]^2`. -/
theorem scan_run (env : Env K) (data : Data K) (hu : data.unitSize ≠ 0) :
    ∃ s, scan env data = some s ∧ Inv env data (scanPoints (scanSize data)) s := by
  have h := scan_inv env data (by rw [SCAN_SIZE_fin hu]; simp)
  rw [scanOrder_eq hu] at h
  exact h

theorem unitSize_ne_zero {data : Data K} (hs : size data ≠ 0) : data.unitSize ≠ 0 := by
  intro h
  apply hs
  unfold size
  rw [h, div_zero, round_zero]

theorem unitSize'_pos {data : Data K} (hm : 0 < data.middleRadius) (hs : 1 ≤ size data) :
    0 < unitSize' data := by
  have h1 : (1 : K) ≤ ((size data : Int) : K) := by exact_mod_cast hs
  exact div_pos hm (by linarith)

theorem innerRadius_le_outerRadius {data : Data K} (hm : 0 < data.middleRadius)
    (hs : 1 ≤ size data) : innerRadius data ≤ outerRadius data := by
  have := unitSize'_pos hm hs
  unfold innerRadius outerRadius
  nlinarith

theorem position_isSome_iff (env : Env K) (data : Data K) (i j : Int) :
    (position env data i j).isSome ↔
      JSNum.le (latticeR env data i j) (OUTER_RADIUS data) = true := by
  unfold position
  simp only
  split_ifs <;> simp_all

theorem lt_le_false {a b : JSNum K} (h : JSNum.lt a b = true) : JSNum.le b a = false := by
  cases a <;> cases b <;> simp_all [JSNum.lt, JSNum.le]

theorem mem_vertices {env : Env K} {data : Data K} {pts : List (Int × Int)} {s : State K}
    (h : Inv env data pts s) {v : Vector3 K} (hv : v ∈ s.geometry.vertices) :
    ∃ p ∈ pts, position env data p.1 p.2 = some v := by
  rw [h.vertices, List.mem_map] at hv
  obtain ⟨⟨p, w⟩, hpw, rfl⟩ := hv
  exact ⟨p, (mem_materialized.mp hpw).1, (mem_materialized.mp hpw).2⟩

theorem size_le {data : Data K} : (size data : K) ≤ data.middleRadius / data.unitSize + 1 / 2 := by
  unfold size
  rw [round_eq]
  exact Int.floor_le _

/-- In the ranges of the schema the lattice spacing is larger than the `ε` of the radii,
so the inner radius is below the middle radius. -/
theorem innerRadius_lt_middleRadius {data : Data K} (hm : 0 < data.middleRadius)
    (hus : 1 / 10 ≤ data.unitSize) (hs : 1 ≤ size data) :
    innerRadius data < data.middleRadius := by
  have h1 : (1 : K) ≤ ((size data : Int) : K) := by exact_mod_cast hs
  have hn : (0 : K) < ((size data : Int) : K) := by linarith
  have hup : (0 : K) < data.unitSize := by linarith
  have h2 := @size_le K _ _ data
  have h3 : data.middleRadius / data.unitSize ≤ 10 * data.middleRadius := by
    rw [div_le_iff₀ hup]
    nlinarith
  have h4 : (size data : K) * (1 / 10000) < data.middleRadius := by nlinarith
  have hu : (1 : K) / 10000 < unitSize' data := by
    unfold unitSize'
    rw [lt_div_iff₀ hn]
    linarith
  have he : ((size data : K) - 1) * unitSize' data = data.middleRadius - unitSize' data := by
    unfold unitSize'
    field_simp
    ring
  unfold innerRadius
  rw [he]
  linarith

theorem sqrt_mul_self {f : K → K} (hf : ∀ a : K, 0 ≤ a → 0 ≤ f a ∧ f a * f a = a) {b : K}
    (hb : 0 ≤ b) : f (b * b) = b :=
  (mul_self_inj_of_nonneg (hf _ (mul_self_nonneg b)).1 hb).mp (hf _ (mul_self_nonneg b)).2

theorem scan_eq (env : Env K) {data : Data K} (hu : data.unitSize ≠ 0) :
    scan env data = loopI env data (scanSize data) (2 * scanSize data + 1).toNat
      (-scanSize data) (start (scanSize data)) := by
  unfold scan
  rw [SCAN_SIZE_fin hu]
  simp only [Int.floor_intCast]

theorem Inv.triangle_order {env : Env K} {data : Data K} {pts : List (Int × Int)} {s : State K}
    (h : Inv env data pts s) (hp : pts.Pairwise before) {i j : Int} {t : Nat × Nat × Nat}
    (ht : t ∈ trianglesAt s.index i j) :
    s.index i j = some t.1 ∧ t.1 < s.geometry.vertices.length ∧ t.2.1 < t.1 ∧ t.2.2 < t.1 ∧
      t.2.1 ≠ t.2.2 ∧
      ∃ q r : Int × Int, s.index q.1 q.2 = some t.2.1 ∧ s.index r.1 r.2 = some t.2.2 := by
  obtain ⟨a, h0, hab | hab⟩ := mem_trianglesAt.mp ht
  · obtain ⟨b, c, h1, h2, rfl⟩ := hab
    refine ⟨h0, h.index_lt h0, ?_, ?_, ?_, (i, j - 1), (i - 1, j - 1), h1, h2⟩
    · exact (h.index_lt_iff hp h1 h0).mp (Or.inr ⟨rfl, by show j - 1 < j; omega⟩)
    · exact (h.index_lt_iff hp h2 h0).mp (Or.inl (by show i - 1 < i; omega))
    · intro e
      have e2 : b = c := e
      subst e2
      have := h.index_inj h1 h2
      simp only [Prod.mk.injEq] at this
      omega
  · obtain ⟨c, d, h2, h3, rfl⟩ := hab
    refine ⟨h0, h.index_lt h0, ?_, ?_, ?_, (i - 1, j - 1), (i - 1, j), h2, h3⟩
    · exact (h.index_lt_iff hp h2 h0).mp (Or.inl (by show i - 1 < i; omega))
    · exact (h.index_lt_iff hp h3 h0).mp (Or.inl (by show i - 1 < i; omega))
    · intro e
      have e2 : c = d := e
      subst e2
      have := h.index_inj h2 h3
      simp only [Prod.mk.injEq] at this
      omega

theorem pushFace_new (data : Data K) {vertices : List (Vector3 K)} {y : JSNum K} {a : Nat}
    {p q : Option Nat} {faces faces2 : List Face3}
    (h : pushFace data vertices y a p q faces = some faces2) :
    ∃ new, faces2 = faces ++ new ∧ ∀ f ∈ new, f.a = a := by
  unfold pushFace at h
  cases p with
  | none =>
    simp only [Option.some.injEq] at h
    exact ⟨[], by simp [h], by simp⟩
  | some b =>
    cases q with
    | none =>
      simp only [Option.some.injEq] at h
      exact ⟨[], by simp [h], by simp⟩
    | some c =>
      simp only [Option.map_eq_some'] at h
      obtain ⟨color, _, rfl⟩ := h
      exact ⟨[⟨a, b, c, color⟩], rfl, by simp⟩

/-- What one run of lines 77-127 adds: the vertex, and faces whose first index is the
value the counter had, which is the index of that vertex. -/
theorem record_new (data : Data K) {i j : Int} {v : Vector3 K} {s s2 : State K}
    (h : record data i j v s = some s2) :
    s2.geometry.vertices = s.geometry.vertices ++ [v] ∧ s2.vertexInd = s.vertexInd + 1 ∧
      ∃ new, s2.geometry.faces = s.geometry.faces ++ new ∧ ∀ f ∈ new, f.a = s.vertexInd := by
  unfold record at h
  simp only [Option.bind_eq_some, Option.map_eq_some'] at h
  obtain ⟨row, _, pB, _, pC, _, pD, _, faces1, h1, faces2, h2, rfl⟩ := h
  obtain ⟨new1, e1, hn1⟩ := pushFace_new data h1
  obtain ⟨new2, e2, hn2⟩ := pushFace_new data h2
  refine ⟨rfl, rfl, new1 ++ new2, ?_, ?_⟩
  · show faces2 = _
    rw [e2, e1, List.append_assoc]
  · intro f hf
    rcases List.mem_append.mp hf with hf | hf
    · simpa using hn1 f hf
    · simpa using hn2 f hf

theorem Inv.mem_faces {env : Env K} {data : Data K} {pts : List (Int × Int)} {s : State K}
    (h : Inv env data pts s) {f : Face3} (hf : f ∈ s.geometry.faces) :
    ∃ p ∈ pts, ∃ t ∈ trianglesAt s.index p.1 p.2, f = paint data s.geometry.vertices t := by
  rw [h.faces, List.mem_map] at hf
  obtain ⟨t, ht, rfl⟩ := hf
  obtain ⟨p, hp, htp⟩ := List.mem_flatMap.mp ht
  exact ⟨p, hp, t, htp, rfl⟩

theorem Inv.facesValid {env : Env K} {data : Data K} {pts : List (Int × Int)} {s : State K}
    (h : Inv env data pts s) (hp : pts.Pairwise before) : FacesValid s := by
  intro f hf
  obtain ⟨p, _, t, ht, rfl⟩ := h.mem_faces hf
  obtain ⟨h0, h1, h2, h3, h4, q, r, hq, hr⟩ := h.triangle_order hp ht
  exact ⟨h1, h2, h3, h4, p, q, r, h0, hq, hr⟩

theorem Inv.tableValid {env : Env K} {data : Data K} {pts : List (Int × Int)} {s : State K}
    (h : Inv env data pts s) (hp : pts.Pairwise before) : TableValid env data pts s := by
  have hlen : s.vertexInd = s.geometry.vertices.length := by
    rw [h.counter, h.vertices, List.length_map]
  refine ⟨hlen, h.index_isSome, ?_, ?_, ?_, ?_⟩
  · intro i j i2 j2 k h1 h2
    have := h.index_inj h1 h2
    simp only [Prod.mk.injEq] at this
    exact this
  · intro k
    constructor
    · exact h.index_surj
    · rintro ⟨i, j, hk⟩
      rw [hlen]
      exact h.index_lt hk
  · intro i j i2 j2 k k2 h1 h2
    exact h.index_lt_iff hp h1 h2
  · intro i j k hk
    exact h.index_vertex hk

theorem truthy_fin_iff {a : JSNum K} {y : K} (h : a = fin y) :
    a.truthy = true ↔ a ≠ fin 0 := by
  subst h
  simp [JSNum.truthy]

theorem triple_paint (data : Data K) (vertices : List (Vector3 K)) (t : Nat × Nat × Nat) :
    ((paint data vertices t).a, (paint data vertices t).b, (paint data vertices t).c) = t := rfl

theorem triangle_length_le (a : Nat) (p q : Option Nat) : (triangle a p q).length ≤ 1 := by
  cases p <;> cases q <;> simp [triangle]

theorem trianglesAt_length_le (idx : Int → Int → Option Nat) (i j : Int) :
    (trianglesAt idx i j).length ≤ 2 := by
  unfold trianglesAt
  cases idx i j with
  | none => simp
  | some a =>
    have h1 := triangle_length_le a (idx i (j - 1)) (idx (i - 1) (j - 1))
    have h2 := triangle_length_le a (idx (i - 1) (j - 1)) (idx (i - 1) j)
    simp only [List.length_append]
    omega

theorem Inv.triangles_distinct {env : Env K} {data : Data K} {pts : List (Int × Int)}
    {s : State K} (h : Inv env data pts s) (hp : pts.Pairwise before) :
    (pts.flatMap fun p => trianglesAt s.index p.1 p.2).Pairwise
      (fun t u => ({t.1, t.2.1, t.2.2} : Finset Nat) ≠ {u.1, u.2.1, u.2.2}) := by
  rw [List.pairwise_flatMap]
  constructor
  · rintro ⟨i, j⟩ _
    show (trianglesAt s.index i j).Pairwise _
    unfold trianglesAt
    cases h0 : s.index i j with
    | none => simp
    | some a =>
      simp only
      cases h1 : s.index i (j - 1) with
      | none => cases s.index (i - 1) (j - 1) <;> cases s.index (i - 1) j <;> simp [triangle]
      | some b =>
        cases h2 : s.index (i - 1) (j - 1) with
        | none => simp [triangle]
        | some c =>
          cases h3 : s.index (i - 1) j with
          | none => simp [triangle]
          | some d =>
            simp only [triangle, List.singleton_append, List.pairwise_cons, List.mem_singleton,
              forall_eq, List.not_mem_nil, false_implies, implies_true, List.Pairwise.nil,
              and_true]
            intro e
            have hb : b ∈ ({a, c, d} : Finset Nat) := by
              rw [← e]
              simp
            simp only [Finset.mem_insert, Finset.mem_singleton] at hb
            have hba : b < a :=
              (h.index_lt_iff hp h1 h0).mp (Or.inr ⟨rfl, by show j - 1 < j; omega⟩)
            rcases hb with hb | hb | hb
            · omega
            · subst hb
              have := h.index_inj h1 h2
              simp only [Prod.mk.injEq] at this
              omega
            · subst hb
              have := h.index_inj h1 h3
              simp only [Prod.mk.injEq] at this
              omega
  · refine List.Pairwise.imp_of_mem ?_ hp
    intro p q _ _ hpq t ht u hu e
    obtain ⟨t0, _, t1, t2, _, _⟩ := h.triangle_order hp ht
    obtain ⟨u0, _, _, _, _, _⟩ := h.triangle_order hp hu
    have hlt : t.1 < u.1 := (h.index_lt_iff hp t0 u0).mp hpq
    have hu1 : u.1 ∈ ({t.1, t.2.1, t.2.2} : Finset Nat) := by
      rw [e]
      simp
    simp only [Finset.mem_insert, Finset.mem_singleton] at hu1
    omega

theorem size_eq_zero {data : Data K} (h0 : 0 ≤ data.middleRadius / data.unitSize)
    (h1 : data.middleRadius / data.unitSize < 1 / 2) : size data = 0 := by
  unfold size
  rw [round_eq, Int.floor_eq_iff]
  constructor
  · simp only [Int.cast_zero]
    linarith
  · simp only [Int.cast_zero]
    linarith

theorem nan_add (b : JSNum K) : (nan + b : JSNum K) = nan := by
  cases b <;> rfl

theorem UNIT_SIZE_size_zero {data : Data K} (hm : 0 < data.middleRadius)
    (hu : data.unitSize ≠ 0) (hs : size data = 0) : UNIT_SIZE data = pinf := by
  unfold UNIT_SIZE
  rw [SIZE_fin hu, hs]
  simp [div_def, JSNum.div, hm]

/-- With `size = 0` the lattice coordinates of the point `(0, 0)` are `0 * Infinity`,
which is `NaN`, and the point is skipped. -/
theorem position_size_zero (env : Env K) {data : Data K} (hm : 0 < data.middleRadius)
    (hu : data.unitSize ≠ 0) (hs : size data = 0) : position env data 0 0 = none := by
  have hx : latticeX env data 0 = nan := by
    unfold latticeX
    rw [SQRT3HALF_fin, UNIT_SIZE_size_zero hm hu hs]
    simp [mul_def, JSNum.mul, JSNum.timesInf]
  have hr : latticeR env data 0 0 = nan := by
    unfold latticeR
    rw [hx, show (nan * nan : JSNum K) = nan from rfl, nan_add]
    rfl
  unfold position
  simp only [hr]
  rfl

theorem scanSize_size_zero {data : Data K} (hs : size data = 0) : scanSize data = 0 := by
  unfold scanSize
  rw [hs]
  simp

/-- With `size = 0` the scan visits the one lattice point `(0, 0)`, skips it, and leaves
the geometry empty. -/
theorem init_size_zero (env : Env K) {data : Data K} (hm : 0 < data.middleRadius)
    (hu : data.unitSize ≠ 0) (hs : size data = 0) : init env data = some ⟨[], []⟩ := by
  unfold init
  rw [scan_eq env hu, scanSize_size_zero hs]
  simp [loopI, row, loopJ, visit, position_size_zero env hm hu hs, newRow, start]

/-- The loop of lines 54-56 adds one octave for each value of `loopQualities`. -/
theorem noiseLoop_eq_foldl (env : Env K) (data : Data K) (x z : JSNum K) (fuel : Nat) :
    ∀ (quality : Nat) (y : JSNum K),
      noiseLoop env data x z fuel quality y =
        (loopQualities fuel quality).foldl (fun acc q => acc + octave env data x z q) y := by
  induction fuel with
  | zero =>
    intro quality y
    rfl
  | succ fuel ih =>
    intro quality y
    simp only [noiseLoop, loopQualities]
    split_ifs with h
    · rw [ih, List.foldl_cons]
      rfl
    · rfl

theorem loopQualities_enough (n : Nat) : loopQualities (n + 3) 25 = [25, 125, 625] := by
  simp only [loopQualities, Nat.reduceMul, Nat.reduceLeDiff, if_true]
  cases n <;> simp [loopQualities]

theorem loopQualities_eq : loopQualities 1500 25 = [25, 125, 625] :=
  loopQualities_enough 1497

theorem unitSize'_mul_size {data : Data K} (hs : size data ≠ 0) :
    unitSize' data * (size data : K) = data.middleRadius := by
  unfold unitSize'
  exact div_mul_cancel₀ _ (Int.cast_ne_zero.mpr hs)

theorem middleRadius_lt_outerRadius {data : Data K} (hm : 0 < data.middleRadius)
    (hs : 1 ≤ size data) : data.middleRadius < outerRadius data := by
  have hs0 : size data ≠ 0 := by omega
  have h1 := unitSize'_mul_size hs0
  have h2 := unitSize'_pos hm hs
  unfold outerRadius
  nlinarith

theorem attenuated_eq (env : Env K) (data : Data K) (x z r : K) :
    attenuated env data x z r = accumulated env data x z * falloff data r := by
  unfold attenuated falloff
  rw [mul_div_assoc]

theorem falloff_bounds {data : Data K} (hm : 0 < data.middleRadius) (hs : size data ≠ 0)
    {r : K} (hr : r ≤ innerRadius data) :
    0 ≤ falloff data r ∧ falloff data r ≤ 1 ∧
      (r ≤ innerRadius data - plateauEdge data → falloff data r = 1) ∧
      (r = innerRadius data → falloff data r = 0) := by
  have hp := plateauEdge_pos hm hs
  unfold falloff
  refine ⟨div_nonneg (le_min (by linarith) (le_of_lt hp)) (le_of_lt hp), ?_, ?_, ?_⟩
  · rw [div_le_one hp]
    exact min_le_right _ _
  · intro h
    rw [min_eq_right (by linarith), div_self (ne_of_gt hp)]
  · intro h
    rw [h, sub_self, min_eq_left (le_of_lt hp), zero_div]

theorem noise_mul_le {n a : K} (hn : |n| ≤ 1) (ha : 0 ≤ a) : n * a ≤ a := by
  have := (abs_le.mp hn).2
  nlinarith

theorem accumulated_le (env : Env K) (data : Data K)
    (hn : ∀ a b c : K, |env.noise a b c| ≤ 1) (x z : K) : accumulated env data x z ≤ 235 := by
  unfold accumulated
  rw [octaves_eq]
  simp only [List.map_cons, List.map_nil, List.sum_cons, List.sum_nil, add_zero]
  have h1 := noise_mul_le (hn ((x + data.middleRadius) / ((25 : Nat) : K))
    ((z + data.middleRadius) / ((25 : Nat) : K)) env.SEED)
    (le_min (by positivity) (by norm_num) : (0 : K) ≤ min (((25 : Nat) : K) / 2) 150)
  have h2 := noise_mul_le (hn ((x + data.middleRadius) / ((125 : Nat) : K))
    ((z + data.middleRadius) / ((125 : Nat) : K)) env.SEED)
    (le_min (by positivity) (by norm_num) : (0 : K) ≤ min (((125 : Nat) : K) / 2) 150)
  have h3 := noise_mul_le (hn ((x + data.middleRadius) / ((625 : Nat) : K))
    ((z + data.middleRadius) / ((625 : Nat) : K)) env.SEED)
    (le_min (by positivity) (by norm_num) : (0 : K) ≤ min (((625 : Nat) : K) / 2) 150)
  have e1 : min (((25 : Nat) : K) / 2) 150 ≤ 25 / 2 := by
    refine le_trans (min_le_left _ _) ?_
    norm_num
  have e2 : min (((125 : Nat) : K) / 2) 150 ≤ 125 / 2 := by
    refine le_trans (min_le_left _ _) ?_
    norm_num
  have e3 : min (((625 : Nat) : K) / 2) 150 ≤ 150 := min_le_right _ _
  linarith

theorem jitter_le (env : Env K) (data : Data K) (hn : ∀ a b c : K, |env.noise a b c| ≤ 1)
    (x z h : K) : jitter env data x z h ≤ 5 / 2 := by
  unfold jitter
  split_ifs
  · exact noise_mul_le (hn _ _ _) (by norm_num)
  · norm_num

theorem height_le (env : Env K) {data : Data K} (hm : 0 < data.middleRadius)
    (hs : size data ≠ 0) (hn : ∀ a b c : K, |env.noise a b c| ≤ 1) (x z : K) {r : K}
    (hr : r ≤ innerRadius data) :
    height env data x z r ≤ 235 * falloff data r + 5 / 2 := by
  have hf := (falloff_bounds hm hs hr).1
  have ha := accumulated_le env data hn x z
  have hj := jitter_le env data hn x z (attenuated env data x z r)
  unfold height
  rw [attenuated_eq] at hj ⊢
  refine max_le (by nlinarith) ?_
  nlinarith

theorem height_at_innerRadius (env : Env K) {data : Data K} (hm : 0 < data.middleRadius)
    (hs : size data ≠ 0) (x z : K) : height env data x z (innerRadius data) = 0 := by
  have hf := (falloff_bounds hm hs (le_refl (innerRadius data))).2.2.2 rfl
  unfold height jitter
  rw [attenuated_eq, hf, mul_zero]
  simp

theorem sampleEnv_noise_le (a b c : ℚ) : |sampleEnv.noise a b c| ≤ 1 := by
  show |(a - c) / (1 + |a - c|)| ≤ 1
  have h : (0 : ℚ) < 1 + |a - c| := by positivity
  rw [abs_div, abs_of_pos h, div_le_one h]
  linarith

theorem length_rowPoints (i : Int) (n : Nat) (j : Int) : (rowPoints i n j).length = n := by
  induction n generalizing j with
  | zero => rfl
  | succ n ih => simp [rowPoints, ih]

theorem length_rowsPoints (scanSize : Int) (n : Nat) (i : Int) :
    (rowsPoints scanSize n i).length = n * (2 * scanSize + 1).toNat := by
  induction n generalizing i with
  | zero => simp [rowsPoints]
  | succ n ih =>
    simp only [rowsPoints, List.length_append, length_rowPoints, ih]
    ring

theorem length_scanPoints {scanSize : Int} (h : 0 ≤ scanSize) :
    ((scanPoints scanSize).length : Int) = (2 * scanSize + 1) ^ 2 := by
  unfold scanPoints
  rw [length_rowsPoints]
  push_cast
  rw [Int.toNat_of_nonneg (by omega)]
  ring

theorem map_snd_materialized (env : Env K) (data : Data K) (pts : List (Int × Int)) :
    (materialized env data pts).map Prod.snd =
      pts.filterMap fun p => position env data p.1 p.2 := by
  unfold materialized
  rw [List.map_filterMap]
  congr 1
  funext p
  cases position env data p.1 p.2 <;> rfl

theorem length_materialized_le (env : Env K) (data : Data K) (pts : List (Int × Int)) :
    (materialized env data pts).length ≤ pts.length :=
  List.length_filterMap_le _ _

theorem length_triangles_le {env : Env K} {data : Data K} {idx : Int → Int → Option Nat}
    (l : List (Int × Int))
    (h : ∀ p ∈ l, (idx p.1 p.2).isSome → (position env data p.1 p.2).isSome) :
    (l.flatMap fun p => trianglesAt idx p.1 p.2).length ≤ 2 * (materialized env data l).length := by
  induction l with
  | nil => simp [materialized]
  | cons p l ih =>
    have hc : materialized env data (p :: l) =
        materialized env data [p] ++ materialized env data l :=
      materialized_append env data [p] l
    have ih2 := ih (fun q hq => h q (List.mem_cons_of_mem _ hq))
    rw [hc, List.flatMap_cons, List.length_append, List.length_append]
    cases hv : position env data p.1 p.2 with
    | none =>
      have hnone : idx p.1 p.2 = none := by
        cases hi : idx p.1 p.2 with
        | none => rfl
        | some k =>
          have := h p (List.mem_cons_self _ _) (by rw [hi]; rfl)
          rw [hv] at this
          exact absurd this (by simp)
      have ht : trianglesAt idx p.1 p.2 = [] := by
        simp only [trianglesAt, hnone]
      rw [materialized_skip hv, ht]
      simp only [List.length_nil]
      omega
    | some v =>
      rw [materialized_keep hv]
      have := trianglesAt_length_le idx p.1 p.2
      simp only [List.length_singleton]
      omega

theorem scanSize_nonneg {data : Data K} (hs : 0 ≤ size data) : 0 ≤ scanSize data := by
  unfold scanSize
  apply Int.ceil_nonneg
  have : (0 : K) ≤ (size data : K) := by exact_mod_cast hs
  positivity

theorem crossY_triangleA (env : Env K) (data : Data K) (i j : Int) :
    crossY (latticePoint env data (i, j)) (latticePoint env data (i, j - 1))
        (latticePoint env data (i - 1, j - 1)) =
      env.sqrt 3 / 2 * unitSize' data ^ 2 := by
  simp only [crossY, latticePoint, pointX, pointZ]
  push_cast
  ring

theorem crossY_triangleB (env : Env K) (data : Data K) (i j : Int) :
    crossY (latticePoint env data (i, j)) (latticePoint env data (i - 1, j - 1))
        (latticePoint env data (i - 1, j)) =
      env.sqrt 3 / 2 * unitSize' data ^ 2 := by
  simp only [crossY, latticePoint, pointX, pointZ]
  push_cast
  ring

theorem sampleEnv_sqrt_three_pos : 0 < sampleEnv.sqrt 3 := by
  show (0 : ℚ) < (Nat.sqrt ⌊(3 : ℚ) * 1000000⌋.toNat : ℚ) / 1000
  have h : ⌊(3 : ℚ) * 1000000⌋.toNat = 3000000 := by
    rw [show (3 : ℚ) * 1000000 = ((3000000 : Int) : ℚ) by norm_num, Int.floor_intCast]
    rfl
  rw [h]
  have : 0 < Nat.sqrt 3000000 := Nat.sqrt_pos.mpr (by norm_num)
  positivity

theorem map_fst_materialized (env : Env K) (data : Data K) (pts : List (Int × Int)) :
    (materialized env data pts).map Prod.fst =
      pts.filter fun p => (position env data p.1 p.2).isSome := by
  induction pts with
  | nil => simp [materialized]
  | cons p pts ih =>
    have hc : materialized env data (p :: pts) =
        materialized env data [p] ++ materialized env data pts :=
      materialized_append env data [p] pts
    rw [hc, List.map_append, ih]
    cases hv : position env data p.1 p.2 with
    | none => simp [materialized_skip hv, List.filter_cons, hv]
    | some v => simp [materialized_keep hv, List.filter_cons, hv]

theorem option_ext_some {α : Type} {a b : Option α} (h : ∀ k, a = some k ↔ b = some k) :
    a = b := by
  cases a with
  | none =>
    cases b with
    | none => rfl
    | some k => exact absurd ((h k).mpr rfl) (by simp)
  | some k => exact ((h k).mp rfl).symm

/-- The noise and the seed have no part in the test `r <= OUTER_RADIUS`, in `x` and `z`,
or in the height outside the inner band. -/
theorem position_noise_free (sq : K → K) (noise1 noise2 : K → K → K → K) (seed1 seed2 : K)
    (data : Data K) (i j : Int) :
    (position ⟨sq, noise1, seed1⟩ data i j).isSome =
        (position ⟨sq, noise2, seed2⟩ data i j).isSome ∧
    ∀ v1 v2 : Vector3 K, position ⟨sq, noise1, seed1⟩ data i j = some v1 →
      position ⟨sq, noise2, seed2⟩ data i j = some v2 →
      v1.x = v2.x ∧ v1.z = v2.z ∧
      (JSNum.le (latticeR ⟨sq, noise1, seed1⟩ data i j) (INNER_RADIUS data) = false →
        v1.y = fin 0 ∧ v2.y = fin 0) := by
  have hx : latticeX ⟨sq, noise2, seed2⟩ data i = latticeX ⟨sq, noise1, seed1⟩ data i := by
    simp only [latticeX, SQRT3HALF]
  have hr : latticeR ⟨sq, noise2, seed2⟩ data i j = latticeR ⟨sq, noise1, seed1⟩ data i j := by
    simp only [latticeR, hx]
  unfold position
  simp only [hx, hr]
  split_ifs with h1 h2 h3
  · refine ⟨by simp only [Option.isSome_some], ?_⟩
    intro v1 v2 e1 e2
    rw [← Option.some.inj e1, ← Option.some.inj e2]
    refine ⟨rfl, rfl, ?_⟩
    intro h
    rw [h2] at h
    exact absurd h (by simp)
  · refine ⟨by simp only [Option.isSome_some], ?_⟩
    intro v1 v2 e1 e2
    rw [← Option.some.inj e1, ← Option.some.inj e2]
    exact ⟨rfl, rfl, fun _ => ⟨rfl, rfl⟩⟩
  · refine ⟨by simp only [Option.isSome_some], ?_⟩
    intro v1 v2 e1 e2
    rw [← Option.some.inj e1, ← Option.some.inj e2]
    exact ⟨rfl, rfl, fun _ => ⟨rfl, rfl⟩⟩
  · refine ⟨rfl, ?_⟩
    intro v1 v2 e1
    exact absurd e1 (by simp)

theorem sqrt_le_of_le_sq {f : K → K} (hf : ∀ a : K, 0 ≤ a → 0 ≤ f a ∧ f a * f a = a) {a b : K}
    (ha : 0 ≤ a) (hb : 0 ≤ b) (h : a ≤ b * b) : f a ≤ b := by
  obtain ⟨h0, h1⟩ := hf a ha
  by_contra hlt
  have hlt2 : b < f a := not_le.mp hlt
  nlinarith

theorem lt_sqrt_of_sq_lt {f : K → K} (hf : ∀ a : K, 0 ≤ a → 0 ≤ f a ∧ f a * f a = a) {a b : K}
    (ha : 0 ≤ a) (hb : 0 ≤ b) (h : b * b < a) : b < f a := by
  obtain ⟨h0, h1⟩ := hf a ha
  by_contra hle
  have hle2 : f a ≤ b := not_lt.mp hle
  nlinarith

theorem scanSize_eq {data : Data K} {n m : Int} (hs : size data = n)
    (h1 : (m : K) - 1 < (n : K) * (116 / 100)) (h2 : (n : K) * (116 / 100) ≤ (m : K)) :
    scanSize data = m := by
  unfold scanSize
  rw [hs, Int.ceil_eq_iff]
  exact ⟨h1, h2⟩

/-- For `middleRadius = 60`, `unitSize = 10` and an exact square root, the lattice point
`(8, 4)` passes the test `r <= OUTER_RADIUS` (`r = 40√3 < 70.0001`) but is outside the
scan range (`SCAN_SIZE = 7`), so the scan gives it no vertex. -/
theorem scan_misses_point (env : Env K) (data : Data K)
    (hsqrt : ∀ a : K, 0 ≤ a → 0 ≤ env.sqrt a ∧ env.sqrt a * env.sqrt a = a)
    (hm : data.middleRadius = 60) (hu : data.unitSize = 10) :
    size data = 6 ∧ scanSize data = 7 ∧ radius env data 8 4 ≤ outerRadius data ∧
      (position env data 8 4).isSome ∧
      ∃ s, scan env data = some s ∧ s.index 8 4 = none ∧
        s.geometry.vertices.length < (materialized env data
          ((8, 4) :: scanPoints (scanSize data))).length := by
  have hs : size data = 6 := by
    unfold size
    rw [hm, hu]
    norm_num
  have hsc : scanSize data = 7 := scanSize_eq hs (by norm_num) (by norm_num)
  have hs0 : size data ≠ 0 := by omega
  have hu0 : data.unitSize ≠ 0 := by
    rw [hu]
    norm_num
  have hun : unitSize' data = 10 := by
    unfold unitSize'
    rw [hs, hm]
    norm_num
  have hout : outerRadius data = 70 + 1 / 10000 := by
    unfold outerRadius
    rw [hs, hun]
    norm_num
  have h3 := (hsqrt 3 (by norm_num)).2
  have hr : radius env data 8 4 ≤ outerRadius data := by
    rw [hout]
    unfold radius pointX pointZ
    rw [hun]
    apply sqrt_le_of_le_sq hsqrt (by positivity) (by norm_num)
    push_cast
    nlinarith
  have hpos : (position env data 8 4).isSome := by
    rw [position_isSome_iff, latticeR_fin env hu0 hs0, OUTER_RADIUS_fin hu0 hs0, le_fin,
      decide_eq_true_eq]
    exact hr
  refine ⟨hs, hsc, hr, hpos, ?_⟩
  obtain ⟨s, hscan, hinv⟩ := scan_run env data hu0
  have hnone : s.index 8 4 = none := by
    cases hk : s.index 8 4 with
    | none => rfl
    | some k =>
      have := mem_scanPoints.mp (hinv.index_mem hk).1
      rw [hsc] at this
      norm_num at this
  refine ⟨s, hscan, hnone, ?_⟩
  obtain ⟨v, hv⟩ := Option.isSome_iff_exists.mp hpos
  have hc : materialized env data ((8, 4) :: scanPoints (scanSize data)) =
      materialized env data [(8, 4)] ++ materialized env data (scanPoints (scanSize data)) :=
    materialized_append env data [(8, 4)] _
  rw [hc, materialized_keep (p := (8, 4)) hv, hinv.vertices, List.length_map]
  simp

theorem Inv.triangleA_mem {env : Env K} {data : Data K} {pts : List (Int × Int)} {s : State K}
    (h : Inv env data pts s) {i j : Int} {a b c : Nat} (hp : (i, j) ∈ pts)
    (h0 : s.index i j = some a) (h1 : s.index i (j - 1) = some b)
    (h2 : s.index (i - 1) (j - 1) = some c) :
    paint data s.geometry.vertices (a, b, c) ∈ s.geometry.faces := by
  rw [h.faces]
  apply List.mem_map_of_mem
  rw [List.mem_flatMap]
  exact ⟨(i, j), hp, mem_trianglesAt.mpr ⟨a, h0, Or.inl ⟨b, c, h1, h2, rfl⟩⟩⟩

theorem truthy_zero : JSNum.truthy (fin (0 : K)) = false := by
  simp [JSNum.truthy]

theorem paint_color_sea (data : Data K) {vertices : List (Vector3 K)} {a b c : Nat}
    {va vb vc : Vector3 K} (ha : vertices[a]? = some va) (hb : vertices[b]? = some vb)
    (hc : vertices[c]? = some vc) (ya : va.y = fin 0) (yb : vb.y = fin 0) (yc : vc.y = fin 0) :
    (paint data vertices (a, b, c)).color = data.seaColor := by
  simp [paint, landVertex_of_get ha, landVertex_of_get hb, landVertex_of_get hc, ya, yb, yc,
    truthy_zero]

theorem paint_color_land (data : Data K) {vertices : List (Vector3 K)} {a b c : Nat}
    {va : Vector3 K} {y : K} (ha : vertices[a]? = some va) (ya : va.y = fin y) (hy : y ≠ 0) :
    (paint data vertices (a, b, c)).color = data.color := by
  have ht : va.y.truthy = true := by
    rw [ya]
    simp [JSNum.truthy, hy]
  simp [paint, landVertex_of_get ha, ht]

/-- A lattice point beyond the inner radius, within the outer one, has a vertex of
height 0. -/
theorem position_flat (env : Env K) {data : Data K} (hu : data.unitSize ≠ 0)
    (hs : size data ≠ 0) (hm : 0 < data.middleRadius) {i j : Int}
    (h1 : innerRadius data < radius env data i j) (h2 : radius env data i j ≤ outerRadius data) :
    ∃ v, position env data i j = some v ∧ v.y = fin 0 := by
  rw [position_fin env hu hs hm, if_pos h2, if_neg (not_le.mpr h1)]
  split_ifs
  · exact ⟨_, rfl, rfl⟩
  · exact ⟨_, rfl, rfl⟩

/-- In the final state a lattice point of the scan range with a position has an index,
and its vertex is stored there. -/
theorem Inv.index_of_position {env : Env K} {data : Data K} {pts : List (Int × Int)}
    {s : State K} (h : Inv env data pts s) {i j : Int} {v : Vector3 K} (hp : (i, j) ∈ pts)
    (hv : position env data i j = some v) :
    ∃ k, s.index i j = some k ∧ s.geometry.vertices[k]? = some v := by
  have h1 : (s.index i j).isSome := (h.index_isSome i j).mpr ⟨hp, by rw [hv]; rfl⟩
  obtain ⟨k, hk⟩ := Option.isSome_iff_exists.mp h1
  exact ⟨k, hk, by rw [h.index_vertex hk, hv]⟩

theorem sqrt_zero_of_exact {f : K → K} (hf : ∀ a : K, 0 ≤ a → 0 ≤ f a ∧ f a * f a = a) :
    f 0 = 0 := by
  have := sqrt_mul_self hf (le_refl (0 : K))
  rwa [mul_zero] at this

/-- The derived values of the configuration `middleRadius = 100`, `unitSize = 1`. -/
theorem default_values {data : Data K} (hm : data.middleRadius = 100) (hu : data.unitSize = 1) :
    size data = 100 ∧ unitSize' data = 1 ∧ innerRadius data = 99 + 1 / 10000 ∧
      outerRadius data = 101 + 1 / 10000 ∧ scanSize data = 116 := by
  have hs : size data = 100 := by
    unfold size
    rw [hm, hu]
    norm_num
  have hun : unitSize' data = 1 := by
    unfold unitSize'
    rw [hs, hm]
    norm_num
  refine ⟨hs, hun, ?_, ?_, scanSize_eq hs (by norm_num) (by norm_num)⟩
  · unfold innerRadius
    rw [hs, hun]
    norm_num
  · unfold outerRadius
    rw [hs, hun]
    norm_num

theorem default_radius_axis {env : Env K} {data : Data K}
    (hsqrt : ∀ a : K, 0 ≤ a → 0 ≤ env.sqrt a ∧ env.sqrt a * env.sqrt a = a)
    (hun : unitSize' data = 1) (j : Int) : radius env data 0 j = |(j : K)| := by
  unfold radius pointX pointZ
  rw [hun]
  have e : ((0 : Int) : K) * (env.sqrt 3 / 2) * 1 = 0 := by
    push_cast
    ring
  have e2 : (((j : K) - ((0 : Int) : K) / 2) * 1) = (j : K) := by
    push_cast
    ring
  rw [e, e2, show (0 : K) ^ 2 + (j : K) ^ 2 = |(j : K)| * |(j : K)| by rw [abs_mul_abs_self]; ring]
  exact sqrt_mul_self hsqrt (abs_nonneg _)

theorem default_radius_side {env : Env K} {data : Data K}
    (hsqrt : ∀ a : K, 0 ≤ a → 0 ≤ env.sqrt a ∧ env.sqrt a * env.sqrt a = a)
    (hun : unitSize' data = 1) :
    100 < radius env data (-1) 100 ∧ radius env data (-1) 100 ≤ 101 := by
  have h3 := (hsqrt 3 (by norm_num)).2
  have e : pointX env data (-1) ^ 2 + pointZ data (-1) 100 ^ 2 = 10101 := by
    unfold pointX pointZ
    rw [hun]
    push_cast
    have : (-1 * (env.sqrt 3 / 2) * 1) ^ 2 + ((100 - -1 / 2) * 1) ^ 2 =
        env.sqrt 3 * env.sqrt 3 / 4 + 40401 / 4 := by ring
    rw [this, h3]
    norm_num
  unfold radius
  rw [e]
  exact ⟨lt_sqrt_of_sq_lt hsqrt (by norm_num) (by norm_num) (by norm_num),
    sqrt_le_of_le_sq hsqrt (by norm_num) (by norm_num) (by norm_num)⟩

theorem default_radius_near {env : Env K} {data : Data K}
    (hsqrt : ∀ a : K, 0 ≤ a → 0 ≤ env.sqrt a ∧ env.sqrt a * env.sqrt a = a)
    (hun : unitSize' data = 1) : radius env data (-1) (-1) = 1 := by
  have h3 := (hsqrt 3 (by norm_num)).2
  have e : pointX env data (-1) ^ 2 + pointZ data (-1) (-1) ^ 2 = 1 * 1 := by
    unfold pointX pointZ
    rw [hun]
    push_cast
    have : (-1 * (env.sqrt 3 / 2) * 1) ^ 2 + ((-1 - -1 / 2) * 1) ^ 2 =
        env.sqrt 3 * env.sqrt 3 / 4 + 1 / 4 := by ring
    rw [this, h3]
    norm_num
  unfold radius
  rw [e]
  exact sqrt_mul_self hsqrt (by norm_num)

/-- For `middleRadius = 100`, `unitSize = 1` and an exact square root, triangle A of the
lattice point `(0, 101)` has its three vertices beyond the inner radius: a face in the
sea color. -/
theorem default_sea_face {env : Env K} {data : Data K}
    (hsqrt : ∀ a : K, 0 ≤ a → 0 ≤ env.sqrt a ∧ env.sqrt a * env.sqrt a = a)
    (hm : data.middleRadius = 100) (hu : data.unitSize = 1) {s : State K}
    (hinv : Inv env data (scanPoints (scanSize data)) s) :
    ∃ f ∈ s.geometry.faces, f.color = data.seaColor := by
  obtain ⟨hs, hun, hin, hout, hsc⟩ := default_values hm hu
  have hs0 : size data ≠ 0 := by omega
  have hu0 : data.unitSize ≠ 0 := by
    rw [hu]
    norm_num
  have hm0 : 0 < data.middleRadius := by
    rw [hm]
    norm_num
  have r1 : radius env data 0 101 = 101 := by
    rw [default_radius_axis hsqrt hun]
    norm_num
  have r2 : radius env data 0 100 = 100 := by
    rw [default_radius_axis hsqrt hun]
    norm_num
  obtain ⟨r3a, r3b⟩ := default_radius_side hsqrt hun
  obtain ⟨v1, p1, y1⟩ := position_flat env hu0 hs0 hm0 (i := 0) (j := 101)
    (by rw [hin, r1]; norm_num) (by rw [hout, r1]; norm_num)
  obtain ⟨v2, p2, y2⟩ := position_flat env hu0 hs0 hm0 (i := 0) (j := 100)
    (by rw [hin, r2]; norm_num) (by rw [hout, r2]; norm_num)
  obtain ⟨v3, p3, y3⟩ := position_flat env hu0 hs0 hm0 (i := -1) (j := 100)
    (by rw [hin]; linarith) (by rw [hout]; linarith)
  have m1 : ((0 : Int), (101 : Int)) ∈ scanPoints (scanSize data) := by
    rw [hsc, mem_scanPoints]
    norm_num
  have m2 : ((0 : Int), (100 : Int)) ∈ scanPoints (scanSize data) := by
    rw [hsc, mem_scanPoints]
    norm_num
  have m3 : ((-1 : Int), (100 : Int)) ∈ scanPoints (scanSize data) := by
    rw [hsc, mem_scanPoints]
    norm_num
  obtain ⟨a, ia, ga⟩ := hinv.index_of_position m1 p1
  obtain ⟨b, ib, gb⟩ := hinv.index_of_position m2 p2
  obtain ⟨c, ic, gc⟩ := hinv.index_of_position m3 p3
  exact ⟨_, hinv.triangleA_mem m1 ia ib ic, paint_color_sea data ga gb gc y1 y2 y3⟩

/-- For `middleRadius = 100`, `unitSize = 1` and an exact square root, triangle A of the
centre `(0, 0)` is in the land color when the height of the centre is positive. -/
theorem default_land_face {env : Env K} {data : Data K}
    (hsqrt : ∀ a : K, 0 ≤ a → 0 ≤ env.sqrt a ∧ env.sqrt a * env.sqrt a = a)
    (hm : data.middleRadius = 100) (hu : data.unitSize = 1) {s : State K}
    (hinv : Inv env data (scanPoints (scanSize data)) s) (hpos : 0 < height env data 0 0 0) :
    ∃ f ∈ s.geometry.faces, f.color = data.color := by
  obtain ⟨hs, hun, hin, hout, hsc⟩ := default_values hm hu
  have hs0 : size data ≠ 0 := by omega
  have hs1 : 1 ≤ size data := by omega
  have hu0 : data.unitSize ≠ 0 := by
    rw [hu]
    norm_num
  have hm0 : 0 < data.middleRadius := by
    rw [hm]
    norm_num
  have hio := innerRadius_le_outerRadius hm0 hs1
  have r0 : radius env data 0 0 = 0 := by
    rw [default_radius_axis hsqrt hun]
    norm_num
  have r1 : radius env data 0 (-1) = 1 := by
    rw [default_radius_axis hsqrt hun]
    norm_num
  have r2 := default_radius_near hsqrt hun
  have x0 : pointX env data 0 = 0 := by
    unfold pointX
    push_cast
    ring
  have z0 : pointZ data 0 0 = 0 := by
    unfold pointZ
    push_cast
    ring
  have p0 := position_fin env hu0 hs0 hm0 0 0
  rw [if_pos (by rw [r0]; linarith [innerRadius_pos hm0 hs0]),
    if_pos (by rw [r0]; exact le_of_lt (innerRadius_pos hm0 hs0)), r0, x0, z0] at p0
  have p1 := position_fin env hu0 hs0 hm0 0 (-1)
  rw [if_pos (by rw [r1, hout]; norm_num), if_pos (by rw [r1, hin]; norm_num)] at p1
  have p2 := position_fin env hu0 hs0 hm0 (-1) (-1)
  rw [if_pos (by rw [r2, hout]; norm_num), if_pos (by rw [r2, hin]; norm_num)] at p2
  have m0 : ((0 : Int), (0 : Int)) ∈ scanPoints (scanSize data) := by
    rw [hsc, mem_scanPoints]
    norm_num
  have m1 : ((0 : Int), (-1 : Int)) ∈ scanPoints (scanSize data) := by
    rw [hsc, mem_scanPoints]
    norm_num
  have m2 : ((-1 : Int), (-1 : Int)) ∈ scanPoints (scanSize data) := by
    rw [hsc, mem_scanPoints]
    norm_num
  obtain ⟨a, ia, ga⟩ := hinv.index_of_position m0 p0
  obtain ⟨b, ib, _⟩ := hinv.index_of_position m1 p1
  obtain ⟨c, ic, _⟩ := hinv.index_of_position m2 p2
  exact ⟨_, hinv.triangleA_mem m0 ia ib ic, paint_color_land data ga rfl (ne_of_gt hpos)⟩

/-- When no accumulated height is positive, every vertex has height 0. -/
theorem position_y_zero {env : Env K} {data : Data K} (hm : 0 < data.middleRadius)
    (hacc : ∀ x z : K, accumulated env data x z ≤ 0) {i j : Int} {v : Vector3 K}
    (h : position env data i j = some v) : v.y = fin 0 := by
  by_cases hu : data.unitSize = 0
  · rcases position_cases h with h0 | ⟨h1, _⟩
    · exact h0
    · rw [INNER_RADIUS_unitSize_zero hm hu, le_nan] at h1
      exact absurd h1 (by simp)
  · by_cases hs : size data = 0
    · rcases position_cases h with h0 | ⟨h1, _⟩
      · exact h0
      · rw [INNER_RADIUS_size_zero hm hu hs] at h1
        unfold latticeR at h1
        rw [le_mathSqrt_ninf] at h1
        exact absurd h1 (by simp)
    · rw [position_fin env hu hs hm] at h
      split_ifs at h with h1 h2 h3
      · rw [← Option.some.inj h]
        have hf := (falloff_bounds hm hs h2).1
        have ha := hacc (pointX env data i) (pointZ data i j)
        have hatt : attenuated env data (pointX env data i) (pointZ data i j)
            (radius env data i j) ≤ 0 := by
          rw [attenuated_eq]
          exact mul_nonpos_of_nonpos_of_nonneg ha hf
        show fin (height env data _ _ _) = fin 0
        unfold height jitter
        rw [if_neg (not_lt.mpr hatt), add_zero, max_eq_left hatt]
      · rw [← Option.some.inj h]
      · rw [← Option.some.inj h]

/-- When every vertex has height 0, every face is in the sea color. -/
theorem Inv.faces_sea {env : Env K} {data : Data K} {pts : List (Int × Int)} {s : State K}
    (h : Inv env data pts s) (hp : pts.Pairwise before)
    (hy : ∀ v ∈ s.geometry.vertices, v.y = fin 0) :
    ∀ f ∈ s.geometry.faces, f.color = data.seaColor := by
  intro f hf
  obtain ⟨p, _, t, ht, rfl⟩ := h.mem_faces hf
  obtain ⟨_, h1, h2, h3, _, _⟩ := h.triangle_order hp ht
  have hb : t.2.1 < s.geometry.vertices.length := lt_trans h2 h1
  have hc : t.2.2 < s.geometry.vertices.length := lt_trans h3 h1
  exact paint_color_sea data (List.getElem?_eq_getElem h1) (List.getElem?_eq_getElem hb)
    (List.getElem?_eq_getElem hc) (hy _ (List.getElem_mem h1)) (hy _ (List.getElem_mem hb))
    (hy _ (List.getElem_mem hc))

theorem lowNoiseEnv_accumulated (x z : ℚ) : accumulated lowNoiseEnv defaultData x z ≤ 0 := by
  unfold accumulated
  rw [octaves_eq]
  simp only [lowNoiseEnv, List.map_cons, List.map_nil, List.sum_cons, List.sum_nil, add_zero]
  have e1 : min (((25 : Nat) : ℚ) / 2) 150 = 25 / 2 := by
    rw [min_eq_left]
    · norm_num
    · norm_num
  have e2 : min (((125 : Nat) : ℚ) / 2) 150 = 125 / 2 := by
    rw [min_eq_left]
    · norm_num
    · norm_num
  have e3 : min (((625 : Nat) : ℚ) / 2) 150 = 150 := by
    rw [min_eq_right]
    norm_num
  rw [e1, e2, e3]
  norm_num

/-- With the noise constantly `-1/2` the whole island of the default configuration is
flat: every face is in the sea color. -/
theorem lowNoiseEnv_all_sea :
    ∃ g, init lowNoiseEnv defaultData = some g ∧ ∀ f ∈ g.faces, f.color = defaultData.seaColor := by
  obtain ⟨s, hscan, hinv⟩ := scan_run lowNoiseEnv defaultData (by norm_num [defaultData])
  refine ⟨s.geometry, by simp [init, hscan], ?_⟩
  apply hinv.faces_sea (pairwise_scanPoints _)
  intro v hv
  obtain ⟨p, _, hp⟩ := mem_vertices hinv hv
  exact position_y_zero (by norm_num [defaultData]) lowNoiseEnv_accumulated hp

theorem roundHalfEven_eq {x : ℚ} {m : Int} (h : |x - m| < 1 / 2) : roundHalfEven x = m := by
  rw [abs_lt] at h
  unfold roundHalfEven
  by_cases hx : (m : ℚ) ≤ x
  · have hf : ⌊x⌋ = m := by
      rw [Int.floor_eq_iff]
      constructor <;> linarith
    rw [hf, if_pos (by linarith)]
  · have hf : ⌊x⌋ = m - 1 := by
      rw [Int.floor_eq_iff]
      push_cast
      constructor <;> linarith
    rw [hf]
    push_cast
    rw [if_neg (by linarith), if_pos (by linarith)]
    ring

/-- Rounding to the nearest integer moves a number by at most one half. -/
theorem roundHalfEven_error (x : ℚ) : |(roundHalfEven x : ℚ) - x| ≤ 1 / 2 := by
  have h1 := Int.floor_le x
  have h2 := Int.lt_floor_add_one x
  unfold roundHalfEven
  rw [abs_le]
  split_ifs <;> push_cast <;> constructor <;> linarith

theorem log_two_eq {q : ℚ} {e : Int} (h1 : (2 : ℚ) ^ e ≤ q) (h2 : q < (2 : ℚ) ^ (e + 1)) :
    Int.log 2 q = e := by
  have hq : 0 < q := lt_of_lt_of_le (by positivity) h1
  have a : e ≤ Int.log 2 q :=
    (Int.zpow_le_iff_le_log (by norm_num) hq).mp (by exact_mod_cast h1)
  have b : Int.log 2 q < e + 1 :=
    (Int.lt_zpow_iff_log_lt (by norm_num) hq).mp (by exact_mod_cast h2)
  omega

/-- The double nearest to `q` is `m * 2^(e-52)` when `2^e ≤ |q| < 2^(e+1)` and `m` is within
one half of `q / 2^(e-52)`. -/
theorem roundToDouble_eq {q : ℚ} (e m : Int) (h1 : (2 : ℚ) ^ e ≤ |q|)
    (h2 : |q| < (2 : ℚ) ^ (e + 1)) (h : |q / 2 ^ (e - 52) - m| < 1 / 2) :
    roundToDouble q = m * 2 ^ (e - 52) := by
  unfold roundToDouble
  rw [log_two_eq h1 h2, roundHalfEven_eq h]

/-- The relative error of the rounding to a double is at most `2^-53`. -/
theorem roundToDouble_error (q : ℚ) : |roundToDouble q - q| ≤ 1 / 2 ^ 53 * |q| := by
  by_cases hq : q = 0
  · subst hq
    simp [roundToDouble, roundHalfEven]
  · have hpos : 0 < |q| := abs_pos.mpr hq
    have hl := Int.zpow_log_le_self (b := 2) (by norm_num) hpos
    have hs : (0 : ℚ) < 2 ^ (Int.log 2 |q| - 52) := by positivity
    have he := roundHalfEven_error (q / 2 ^ (Int.log 2 |q| - 52))
    unfold roundToDouble
    have e1 : (roundHalfEven (q / 2 ^ (Int.log 2 |q| - 52)) : ℚ) * 2 ^ (Int.log 2 |q| - 52) - q =
        ((roundHalfEven (q / 2 ^ (Int.log 2 |q| - 52)) : ℚ) - q / 2 ^ (Int.log 2 |q| - 52)) *
          2 ^ (Int.log 2 |q| - 52) := by
      field_simp
    rw [e1, abs_mul, abs_of_pos hs]
    have e2 : (2 : ℚ) ^ (Int.log 2 |q| - 52) = 2 ^ Int.log 2 |q| / 2 ^ 52 := by
      rw [zpow_sub₀ (by norm_num)]
      norm_num
    have hl2 : ((2 : ℕ) : ℚ) ^ Int.log 2 |q| = (2 : ℚ) ^ Int.log 2 |q| := by norm_num
    rw [hl2] at hl
    calc |(roundHalfEven (q / 2 ^ (Int.log 2 |q| - 52)) : ℚ) - q / 2 ^ (Int.log 2 |q| - 52)| *
          2 ^ (Int.log 2 |q| - 52)
        ≤ 1 / 2 * 2 ^ (Int.log 2 |q| - 52) := mul_le_mul_of_nonneg_right he (le_of_lt hs)
      _ = 1 / 2 ^ 53 * 2 ^ Int.log 2 |q| := by rw [e2]; ring
      _ ≤ 1 / 2 ^ 53 * |q| := mul_le_mul_of_nonneg_left hl (by positivity)

/-- The double of the literal `0.13`. -/
theorem fine_unitSize : fineData.unitSize = 4683743612465316 / 2 ^ 55 := by
  show roundToDouble (13 / 100) = _
  rw [roundToDouble_eq (-3) 4683743612465316 (by norm_num [abs_of_pos])
    (by norm_num [abs_of_pos]) (by norm_num [abs_lt])]
  norm_num

/-- The double `10 / 0.13 = 76.92307692307692`. -/
theorem fine_quotient :
    roundToDouble (fineData.middleRadius / fineData.unitSize) = 5412980321358769 / 2 ^ 46 := by
  rw [fine_unitSize]
  show roundToDouble (10 / _) = _
  rw [roundToDouble_eq 6 5412980321358769 (by norm_num [abs_of_pos])
    (by norm_num [abs_of_pos]) (by norm_num [abs_lt])]
  norm_num

theorem fine_doubleSIZE : doubleSIZE fineData = 77 := by
  unfold doubleSIZE
  rw [fine_quotient, Int.floor_eq_iff]
  norm_num

theorem fine_size : size fineData = 77 := by
  unfold size
  rw [fine_unitSize]
  show round ((10 : ℚ) / _) = _
  rw [round_eq, Int.floor_eq_iff]
  norm_num

/-- The double `10 / 77 = 0.12987012987012986`. -/
theorem fine_doubleUNIT_SIZE : doubleUNIT_SIZE fineData = 4679064547917398 / 2 ^ 55 := by
  unfold doubleUNIT_SIZE
  rw [fine_doubleSIZE]
  show roundToDouble (10 / _) = _
  rw [roundToDouble_eq (-3) 4679064547917398 (by norm_num [abs_of_pos])
    (by norm_num [abs_of_pos]) (by norm_num [abs_lt])]
  norm_num

/-- The double `10 / 77 * 77 = 9.999999999999998`, one unit in the last place below 10. -/
theorem fine_product :
    roundToDouble (doubleUNIT_SIZE fineData * (doubleSIZE fineData : ℚ)) = 10 - 1 / 2 ^ 49 := by
  rw [fine_doubleUNIT_SIZE, fine_doubleSIZE]
  rw [roundToDouble_eq 3 5629499534213119 (by norm_num [abs_of_pos])
    (by norm_num [abs_of_pos]) (by norm_num [abs_lt])]
  norm_num

/-- The value of the root of `sampleEnv`: the integer root of the argument in millionths,
in thousandths. -/
theorem sampleEnv_sqrt_eq {a : ℚ} (n m : Nat) (h1 : (n : ℚ) ≤ a * 1000000)
    (h2 : a * 1000000 < (n : ℚ) + 1) (h3 : m * m ≤ n) (h4 : n < (m + 1) * (m + 1)) :
    sampleEnv.sqrt a = (m : ℚ) / 1000 := by
  show (Nat.sqrt ⌊a * 1000000⌋.toNat : ℚ) / 1000 = (m : ℚ) / 1000
  have hf : ⌊a * 1000000⌋ = (n : Int) := by
    rw [Int.floor_eq_iff]
    exact ⟨by exact_mod_cast h1, by exact_mod_cast h2⟩
  rw [hf, Int.toNat_natCast, ← Nat.eq_sqrt.mpr ⟨h3, h4⟩]

theorem sampleEnv_sqrt_three : sampleEnv.sqrt 3 = 1732 / 1000 := by
  rw [sampleEnv_sqrt_eq (a := 3) 3000000 1732 (by norm_num) (by norm_num) (by norm_num)
    (by norm_num)]
  norm_num

theorem near_values :
    size nearData = 100 ∧ unitSize' nearData = 1 ∧ innerRadius nearData = 99 + 1 / 10000 ∧
      outerRadius nearData = 101 + 1 / 10000 ∧ scanSize nearData = 116 :=
  default_values (by norm_num [nearData]) (by norm_num [nearData])

theorem near_pointX : pointX sampleEnv nearData (-7) = -(6062 / 1000) := by
  unfold pointX
  rw [near_values.2.1, sampleEnv_sqrt_three]
  norm_num

theorem near_pointZ : pointZ nearData (-7) 97 = 201 / 2 := by
  unfold pointZ
  rw [near_values.2.1]
  norm_num

/-- With the root of `sampleEnv` the lattice point `(-7, 97)` of `nearData` has
`r = 100.682`, below the root `100.68266...` of `x² + z² = 10136.997844`. -/
theorem near_radius : radius sampleEnv nearData (-7) 97 = 100682 / 1000 := by
  unfold radius
  rw [near_pointX, near_pointZ,
    sampleEnv_sqrt_eq (a := (-(6062 / 1000)) ^ 2 + (201 / 2) ^ 2) 10136997844 100682
      (by norm_num) (by norm_num) (by norm_num) (by norm_num)]
  norm_num

end Numbers

/-! ## Properties of the build -/

section Claims

variable {K : Type} [LinearOrderedField K] [FloorRing K]

/-- C1: for a positive `middleRadius` and `size ≥ 1` the scan ends, and every lattice point
of the scan range with `r ≤ innerRadius` is materialized with the height
`max(0, h + e)`: `h` is the accumulated sum of the octaves 25, 125, 625 times the falloff
and `e` the fine octave times 2.5 when `h > 0`, zero otherwise (`height`), in that order. -/
theorem inner_height_order (env : Env K) (data : Data K) (hm : 0 < data.middleRadius)
    (hs : 1 ≤ size data) :
    ∃ s, scan env data = some s ∧
      ∀ i j : Int, -scanSize data ≤ i → i ≤ scanSize data → -scanSize data ≤ j →
        j ≤ scanSize data → radius env data i j ≤ innerRadius data →
        ∃ k, s.index i j = some k ∧
          s.geometry.vertices[k]? = some
            ⟨fin (pointX env data i),
              fin (max 0 (attenuated env data (pointX env data i) (pointZ data i j)
                  (radius env data i j) +
                jitter env data (pointX env data i) (pointZ data i j)
                  (attenuated env data (pointX env data i) (pointZ data i j)
                    (radius env data i j)))),
              fin (pointZ data i j)⟩ := by
  have hs0 : size data ≠ 0 := by omega
  have hu := unitSize_ne_zero hs0
  obtain ⟨s, hscan, hinv⟩ := scan_run env data hu
  refine ⟨s, hscan, ?_⟩
  intro i j hi1 hi2 hj1 hj2 hr
  have hpos := position_fin env hu hs0 hm i j
  rw [if_pos (le_trans hr (innerRadius_le_outerRadius hm hs)), if_pos hr] at hpos
  have hsome : (s.index i j).isSome :=
    (hinv.index_isSome i j).mpr ⟨mem_scanPoints.mpr ⟨hi1, hi2, hj1, hj2⟩, by rw [hpos]; rfl⟩
  obtain ⟨k, hk⟩ := Option.isSome_iff_exists.mp hsome
  exact ⟨k, hk, by rw [hinv.index_vertex hk, hpos]; rfl⟩

theorem inner_height_order_witness :
    (0 : ℚ) < defaultData.middleRadius ∧ 1 ≤ size defaultData ∧
    ∃ s, scan sampleEnv defaultData = some s ∧
      ∀ i j : Int, -scanSize defaultData ≤ i → i ≤ scanSize defaultData →
        -scanSize defaultData ≤ j → j ≤ scanSize defaultData →
        radius sampleEnv defaultData i j ≤ innerRadius defaultData →
        ∃ k, s.index i j = some k ∧
          s.geometry.vertices[k]? = some
            ⟨fin (pointX sampleEnv defaultData i),
              fin (max 0 (attenuated sampleEnv defaultData (pointX sampleEnv defaultData i)
                  (pointZ defaultData i j) (radius sampleEnv defaultData i j) +
                jitter sampleEnv defaultData (pointX sampleEnv defaultData i)
                  (pointZ defaultData i j)
                  (attenuated sampleEnv defaultData (pointX sampleEnv defaultData i)
                    (pointZ defaultData i j) (radius sampleEnv defaultData i j)))),
              fin (pointZ defaultData i j)⟩ :=
  ⟨by norm_num [defaultData], by norm_num [size, defaultData],
    inner_height_order sampleEnv defaultData (by norm_num [defaultData])
      (by norm_num [size, defaultData])⟩

/-- C2: for a positive `middleRadius` (and a `unitSize` that is not zero, so that the scan
ends) no vertex of the geometry has a negative `y`: every height is a finite number
`≥ 0`, whatever the noise. -/
theorem height_never_negative (env : Env K) (data : Data K) (hm : 0 < data.middleRadius)
    (hu : data.unitSize ≠ 0) :
    ∃ g, init env data = some g ∧ ∀ v ∈ g.vertices, ∃ y : K, v.y = fin y ∧ 0 ≤ y := by
  obtain ⟨s, hscan, hinv⟩ := scan_run env data hu
  refine ⟨s.geometry, by simp [init, hscan], ?_⟩
  intro v hv
  obtain ⟨p, _, hp⟩ := mem_vertices hinv hv
  exact position_y_nonneg hm hp

theorem height_never_negative_witness :
    (0 : ℚ) < defaultData.middleRadius ∧ defaultData.unitSize ≠ 0 ∧
    ∃ g, init sampleEnv defaultData = some g ∧
      ∀ v ∈ g.vertices, ∃ y : ℚ, v.y = fin y ∧ 0 ≤ y :=
  ⟨by norm_num [defaultData], by norm_num [defaultData],
    height_never_negative sampleEnv defaultData (by norm_num [defaultData])
      (by norm_num [defaultData])⟩

/-- C3: every vertex materialized from a lattice point of the middle band
(`INNER_RADIUS < r <= middleRadius`) has `y` exactly 0 and the lattice coordinates `x`, `z`
unchanged; the noise and the seed do not occur in it. -/
theorem middle_band_flat (env : Env K) (data : Data K) (hu : data.unitSize ≠ 0) :
    ∃ s, scan env data = some s ∧
      ∀ (i j : Int) (k : Nat), s.index i j = some k →
        JSNum.lt (INNER_RADIUS data) (latticeR env data i j) = true →
        JSNum.le (latticeR env data i j) (fin data.middleRadius) = true →
        s.geometry.vertices[k]? = some ⟨latticeX env data i, fin 0, latticeZ data i j⟩ := by
  obtain ⟨s, hscan, hinv⟩ := scan_run env data hu
  refine ⟨s, hscan, ?_⟩
  intro i j k hk h1 h2
  rw [hinv.index_vertex hk]
  have hsome := (hinv.index_mem hk).2
  have h3 := (position_isSome_iff env data i j).mp hsome
  unfold position
  simp only [h3, lt_le_false h1, h2, if_true, Bool.false_eq_true, if_false]

theorem middle_band_flat_witness :
    defaultData.unitSize ≠ 0 ∧
    ∃ s, scan sampleEnv defaultData = some s ∧
      ∀ (i j : Int) (k : Nat), s.index i j = some k →
        JSNum.lt (INNER_RADIUS defaultData) (latticeR sampleEnv defaultData i j) = true →
        JSNum.le (latticeR sampleEnv defaultData i j) (fin defaultData.middleRadius) = true →
        s.geometry.vertices[k]? =
          some ⟨latticeX sampleEnv defaultData i, fin 0, latticeZ defaultData i j⟩ :=
  ⟨by norm_num [defaultData], middle_band_flat sampleEnv defaultData (by norm_num [defaultData])⟩

/-- C4, the claim as stated fails: with `far = 0`, `middleRadius = 100`, `unitSize = 1` and
a square root that rounds (the root to three decimals of `sampleEnv`), the lattice point
`(-7, 97)` is in the outer band (`100 < r = 100.682 ≤ 101.0001`) and gets a vertex
`(x, 0, z)` with `x² + z² ≠ far'²`: it is not at distance exactly `far'`. -/
theorem rounded_root_off_far :
    0 < nearData.middleRadius ∧ 1 ≤ size nearData ∧ far' nearData = outerRadius nearData ∧
    nearData.middleRadius < radius sampleEnv nearData (-7) 97 ∧
    radius sampleEnv nearData (-7) 97 ≤ outerRadius nearData ∧
    ∃ s, scan sampleEnv nearData = some s ∧
      ∃ (k : Nat) (x z : ℚ), s.index (-7) 97 = some k ∧
        s.geometry.vertices[k]? = some ⟨fin x, fin 0, fin z⟩ ∧
        x ^ 2 + z ^ 2 ≠ far' nearData ^ 2 := by
  obtain ⟨hs, hun, hin, hout, hsc⟩ := near_values
  have hs0 : size nearData ≠ 0 := by omega
  have hu0 : nearData.unitSize ≠ 0 := by norm_num [nearData]
  have hm0 : 0 < nearData.middleRadius := by norm_num [nearData]
  have hfar : far' nearData = 101 + 1 / 10000 := by
    unfold far'
    rw [hout]
    norm_num [nearData]
  have hpos := position_fin sampleEnv hu0 hs0 hm0 (-7) 97
  rw [near_radius, hin, hout, hfar, near_pointX, near_pointZ] at hpos
  rw [if_pos (by norm_num), if_neg (by norm_num), if_neg (by norm_num [nearData])] at hpos
  obtain ⟨s, hscan, hinv⟩ := scan_run sampleEnv nearData hu0
  have hmem : ((-7 : Int), (97 : Int)) ∈ scanPoints (scanSize nearData) := by
    rw [hsc, mem_scanPoints]
    norm_num
  obtain ⟨k, hk, hv⟩ := hinv.index_of_position hmem hpos
  refine ⟨hm0, by omega, by rw [hfar, hout], by rw [near_radius]; norm_num [nearData],
    by rw [near_radius, hout]; norm_num, s, hscan, k, _, _, hk, hv, ?_⟩
  rw [hfar]
  norm_num

/-- C4, amended: for a configuration of the schema (`middleRadius > 0`, `unitSize ≥ 0.1`)
with `size ≥ 1`, `FAR` is `max(far, outerRadius)`, which is `outerRadius > 0` when
`far ≤ outerRadius`; every vertex materialized from a lattice point `(x, z)` with
`r > middleRadius` has `r ≤ outerRadius` and is `(x * (far'/r), 0, z * (far'/r))` with
`far'/r > 0`: `y = 0` and the direction is the one of the lattice point.  Its distance from
the origin is that of the lattice point times `far'/r`: `(x'² + z'²) * r² = far'² * (x² +
z²)`, which is `far'` exactly when `r` is the exact root of `x² + z²` and the arithmetic is
exact, and `far'` only up to the rounding of the root otherwise. -/
theorem outer_band_rescaled (env : Env K) (data : Data K) (hm : 0 < data.middleRadius)
    (hus : 1 / 10 ≤ data.unitSize) (hs : 1 ≤ size data) :
    FAR data = fin (max data.far (outerRadius data)) ∧ 0 < outerRadius data ∧
    (data.far ≤ outerRadius data → far' data = outerRadius data) ∧
    ∃ s, scan env data = some s ∧
      ∀ (i j : Int) (k : Nat), s.index i j = some k → data.middleRadius < radius env data i j →
        radius env data i j ≤ outerRadius data ∧ 0 < far' data / radius env data i j ∧
        s.geometry.vertices[k]? =
          some ⟨fin (pointX env data i * (far' data / radius env data i j)), fin 0,
            fin (pointZ data i j * (far' data / radius env data i j))⟩ ∧
        ((pointX env data i * (far' data / radius env data i j)) ^ 2 +
            (pointZ data i j * (far' data / radius env data i j)) ^ 2) *
            (radius env data i j * radius env data i j) =
          far' data ^ 2 * (pointX env data i ^ 2 + pointZ data i j ^ 2) ∧
        (radius env data i j * radius env data i j =
            pointX env data i ^ 2 + pointZ data i j ^ 2 →
          (pointX env data i * (far' data / radius env data i j)) ^ 2 +
            (pointZ data i j * (far' data / radius env data i j)) ^ 2 = far' data ^ 2) := by
  have hs0 : size data ≠ 0 := by omega
  have hu := unitSize_ne_zero hs0
  have hout : 0 < outerRadius data :=
    lt_of_lt_of_le (innerRadius_pos hm hs0) (innerRadius_le_outerRadius hm hs)
  have hfar : 0 < far' data := lt_of_lt_of_le hout (le_max_right _ _)
  refine ⟨FAR_fin hu hs0, hout, fun h => max_eq_right h, ?_⟩
  obtain ⟨s, hscan, hinv⟩ := scan_run env data hu
  refine ⟨s, hscan, ?_⟩
  intro i j k hk hr
  have hsome := (hinv.index_mem hk).2
  have hpos := position_fin env hu hs0 hm i j
  have hlt := innerRadius_lt_middleRadius hm hus hs
  have hrpos : 0 < radius env data i j := lt_trans hm hr
  by_cases hro : radius env data i j ≤ outerRadius data
  · rw [if_pos hro, if_neg (not_le.mpr (lt_trans hlt hr)), if_neg (not_le.mpr hr)] at hpos
    have hne : radius env data i j ≠ 0 := ne_of_gt hrpos
    have e : ((pointX env data i * (far' data / radius env data i j)) ^ 2 +
        (pointZ data i j * (far' data / radius env data i j)) ^ 2) *
          (radius env data i j * radius env data i j) =
        far' data ^ 2 * (pointX env data i ^ 2 + pointZ data i j ^ 2) := by
      field_simp
      ring
    refine ⟨hro, div_pos hfar hrpos, by rw [hinv.index_vertex hk, hpos], e, ?_⟩
    intro hrr
    rw [← hrr] at e
    exact mul_right_cancel₀ (mul_ne_zero hne hne) e
  · rw [hpos, if_neg hro] at hsome
    exact absurd hsome (by simp)

theorem outer_band_rescaled_witness :
    (0 : ℚ) < nearData.middleRadius ∧ 1 / 10 ≤ nearData.unitSize ∧ 1 ≤ size nearData ∧
    (FAR nearData = fin (max nearData.far (outerRadius nearData)) ∧ 0 < outerRadius nearData ∧
    (nearData.far ≤ outerRadius nearData → far' nearData = outerRadius nearData) ∧
    ∃ s, scan sampleEnv nearData = some s ∧
      ∀ (i j : Int) (k : Nat), s.index i j = some k →
        nearData.middleRadius < radius sampleEnv nearData i j →
        radius sampleEnv nearData i j ≤ outerRadius nearData ∧
        0 < far' nearData / radius sampleEnv nearData i j ∧
        s.geometry.vertices[k]? =
          some ⟨fin (pointX sampleEnv nearData i *
              (far' nearData / radius sampleEnv nearData i j)), fin 0,
            fin (pointZ nearData i j * (far' nearData / radius sampleEnv nearData i j))⟩ ∧
        ((pointX sampleEnv nearData i * (far' nearData / radius sampleEnv nearData i j)) ^ 2 +
            (pointZ nearData i j * (far' nearData / radius sampleEnv nearData i j)) ^ 2) *
            (radius sampleEnv nearData i j * radius sampleEnv nearData i j) =
          far' nearData ^ 2 * (pointX sampleEnv nearData i ^ 2 + pointZ nearData i j ^ 2) ∧
        (radius sampleEnv nearData i j * radius sampleEnv nearData i j =
            pointX sampleEnv nearData i ^ 2 + pointZ nearData i j ^ 2 →
          (pointX sampleEnv nearData i * (far' nearData / radius sampleEnv nearData i j)) ^ 2 +
            (pointZ nearData i j * (far' nearData / radius sampleEnv nearData i j)) ^ 2 =
            far' nearData ^ 2)) :=
  ⟨by norm_num [nearData], by norm_num [nearData], by norm_num [size, nearData],
    outer_band_rescaled sampleEnv nearData (by norm_num [nearData]) (by norm_num [nearData])
      (by norm_num [size, nearData])⟩

/-- C5: a lattice point of the scan range gets an index and a vertex exactly when the
test `r <= OUTER_RADIUS` of the code holds for it; every vertex of the geometry comes from
a lattice point that passes the test; a point that fails it leaves the whole state
unchanged.  With a positive `middleRadius` and a `size` that is not zero the test is
`radius ≤ outerRadius` on the quantities of section 3. -/
theorem disk_membership (env : Env K) (data : Data K) (hu : data.unitSize ≠ 0) :
    (∀ (i j : Int) (s : State K),
      JSNum.le (latticeR env data i j) (OUTER_RADIUS data) = false →
        visit env data i j s = some s) ∧
    (0 < data.middleRadius → size data ≠ 0 → ∀ i j : Int,
      (JSNum.le (latticeR env data i j) (OUTER_RADIUS data) = true ↔
        radius env data i j ≤ outerRadius data)) ∧
    ∃ s, scan env data = some s ∧
      (∀ i j : Int, -scanSize data ≤ i → i ≤ scanSize data → -scanSize data ≤ j →
        j ≤ scanSize data →
        ((∃ k v, s.index i j = some k ∧ s.geometry.vertices[k]? = some v) ↔
          JSNum.le (latticeR env data i j) (OUTER_RADIUS data) = true)) ∧
      (∀ v ∈ s.geometry.vertices, ∃ (i j : Int) (k : Nat),
        JSNum.le (latticeR env data i j) (OUTER_RADIUS data) = true ∧
        s.index i j = some k ∧ s.geometry.vertices[k]? = some v) := by
  refine ⟨?_, ?_, ?_⟩
  · intro i j s hle
    have hnone : position env data i j = none := by
      cases hp : position env data i j with
      | none => rfl
      | some v =>
        have := (position_isSome_iff env data i j).mp (by rw [hp]; rfl)
        rw [hle] at this
        exact absurd this (by simp)
    simp only [visit, hnone]
  · intro hm hs i j
    rw [latticeR_fin env hu hs, OUTER_RADIUS_fin hu hs, le_fin, decide_eq_true_eq]
  · obtain ⟨s, hscan, hinv⟩ := scan_run env data hu
    refine ⟨s, hscan, ?_, ?_⟩
    · intro i j hi1 hi2 hj1 hj2
      rw [← position_isSome_iff]
      constructor
      · rintro ⟨k, v, hk, _⟩
        exact (hinv.index_mem hk).2
      · intro hsome
        have h1 : (s.index i j).isSome :=
          (hinv.index_isSome i j).mpr ⟨mem_scanPoints.mpr ⟨hi1, hi2, hj1, hj2⟩, hsome⟩
        obtain ⟨k, hk⟩ := Option.isSome_iff_exists.mp h1
        obtain ⟨v, hv⟩ := Option.isSome_iff_exists.mp hsome
        exact ⟨k, v, hk, by rw [hinv.index_vertex hk, hv]⟩
    · intro v hv
      obtain ⟨p, hp, hpv⟩ := mem_vertices hinv hv
      have hsome : (position env data p.1 p.2).isSome := by rw [hpv]; rfl
      have h1 : (s.index p.1 p.2).isSome := (hinv.index_isSome p.1 p.2).mpr ⟨hp, hsome⟩
      obtain ⟨k, hk⟩ := Option.isSome_iff_exists.mp h1
      exact ⟨p.1, p.2, k, (position_isSome_iff env data p.1 p.2).mp hsome, hk,
        by rw [hinv.index_vertex hk, hpv]⟩

theorem disk_membership_witness :
    defaultData.unitSize ≠ 0 ∧
    ((∀ (i j : Int) (s : State ℚ),
      JSNum.le (latticeR sampleEnv defaultData i j) (OUTER_RADIUS defaultData) = false →
        visit sampleEnv defaultData i j s = some s) ∧
    (0 < defaultData.middleRadius → size defaultData ≠ 0 → ∀ i j : Int,
      (JSNum.le (latticeR sampleEnv defaultData i j) (OUTER_RADIUS defaultData) = true ↔
        radius sampleEnv defaultData i j ≤ outerRadius defaultData)) ∧
    ∃ s, scan sampleEnv defaultData = some s ∧
      (∀ i j : Int, -scanSize defaultData ≤ i → i ≤ scanSize defaultData →
        -scanSize defaultData ≤ j → j ≤ scanSize defaultData →
        ((∃ k v, s.index i j = some k ∧ s.geometry.vertices[k]? = some v) ↔
          JSNum.le (latticeR sampleEnv defaultData i j) (OUTER_RADIUS defaultData) = true)) ∧
      (∀ v ∈ s.geometry.vertices, ∃ (i j : Int) (k : Nat),
        JSNum.le (latticeR sampleEnv defaultData i j) (OUTER_RADIUS defaultData) = true ∧
        s.index i j = some k ∧ s.geometry.vertices[k]? = some v)) :=
  ⟨by norm_num [defaultData], disk_membership sampleEnv defaultData (by norm_num [defaultData])⟩

/-- C6: at the end of the scan and in every state the scan passes through (after `a`
whole rows and `b` points of the next row) every face references three vertices of the
vertex list as it is then: the first index is in the list, the two others are strictly
smaller and differ, and all three are indices of lattice points of the table.  The first
index of a face is the index of the vertex pushed just before it. -/
theorem faces_reference_earlier_vertices (env : Env K) (data : Data K)
    (hu : data.unitSize ≠ 0) :
    (∀ (i j : Int) (v : Vector3 K) (s s2 : State K), record data i j v s = some s2 →
      s2.geometry.vertices = s.geometry.vertices ++ [v] ∧ s2.vertexInd = s.vertexInd + 1 ∧
      ∃ new, s2.geometry.faces = s.geometry.faces ++ new ∧ ∀ f ∈ new, f.a = s.vertexInd) ∧
    (∃ s, scan env data = some s ∧ FacesValid s) ∧
    ∀ a b : Nat, a < (2 * scanSize data + 1).toNat → b ≤ (2 * scanSize data + 1).toNat →
      ∃ s, partialScan env data (scanSize data) a b = some s ∧
        scan env data = restOfScan env data (scanSize data) a b s ∧ FacesValid s := by
  refine ⟨fun i j v s s2 h => record_new data h, ?_, ?_⟩
  · obtain ⟨s, hscan, hinv⟩ := scan_run env data hu
    exact ⟨s, hscan, hinv.facesValid (pairwise_scanPoints _)⟩
  · intro a b ha hb
    obtain ⟨s, hs, hinv⟩ := partialScan_inv env data (scanSize data) a b
    refine ⟨s, hs, ?_, hinv.facesValid (pairwise_visited _ _ _)⟩
    rw [scan_eq env hu, scan_through env data (scanSize data) ha hb, hs, Option.some_bind]

theorem faces_reference_earlier_vertices_witness :
    defaultData.unitSize ≠ 0 ∧
    ((∀ (i j : Int) (v : Vector3 ℚ) (s s2 : State ℚ), record defaultData i j v s = some s2 →
      s2.geometry.vertices = s.geometry.vertices ++ [v] ∧ s2.vertexInd = s.vertexInd + 1 ∧
      ∃ new, s2.geometry.faces = s.geometry.faces ++ new ∧ ∀ f ∈ new, f.a = s.vertexInd) ∧
    (∃ s, scan sampleEnv defaultData = some s ∧ FacesValid s) ∧
    ∀ a b : Nat, a < (2 * scanSize defaultData + 1).toNat →
      b ≤ (2 * scanSize defaultData + 1).toNat →
      ∃ s, partialScan sampleEnv defaultData (scanSize defaultData) a b = some s ∧
        scan sampleEnv defaultData = restOfScan sampleEnv defaultData (scanSize defaultData) a b s ∧
        FacesValid s) :=
  ⟨by norm_num [defaultData],
    faces_reference_earlier_vertices sampleEnv defaultData (by norm_num [defaultData])⟩

/-- C7: for a positive `middleRadius`, every face of the geometry has the land color
`data.color` when one of its three vertices has `y ≠ 0`, and the sea color
`data.seaColor` when all three have `y = 0`; when the two colors differ these are
equivalences. -/
theorem face_color_rule (env : Env K) (data : Data K) (hm : 0 < data.middleRadius)
    (hu : data.unitSize ≠ 0) :
    ∃ g, init env data = some g ∧ ∀ f ∈ g.faces, ∃ va vb vc : Vector3 K,
      g.vertices[f.a]? = some va ∧ g.vertices[f.b]? = some vb ∧ g.vertices[f.c]? = some vc ∧
      ((va.y ≠ fin 0 ∨ vb.y ≠ fin 0 ∨ vc.y ≠ fin 0) → f.color = data.color) ∧
      ((va.y = fin 0 ∧ vb.y = fin 0 ∧ vc.y = fin 0) → f.color = data.seaColor) ∧
      (data.color ≠ data.seaColor →
        (f.color = data.color ↔ (va.y ≠ fin 0 ∨ vb.y ≠ fin 0 ∨ vc.y ≠ fin 0)) ∧
        (f.color = data.seaColor ↔ (va.y = fin 0 ∧ vb.y = fin 0 ∧ vc.y = fin 0))) := by
  obtain ⟨s, hscan, hinv⟩ := scan_run env data hu
  refine ⟨s.geometry, by simp [init, hscan], ?_⟩
  intro f hf
  obtain ⟨p, _, t, ht, rfl⟩ := hinv.mem_faces hf
  obtain ⟨_, h1, h2, h3, _, _⟩ := hinv.triangle_order (pairwise_scanPoints _) ht
  have hfin : ∀ k (hk : k < s.geometry.vertices.length),
      ∃ y : K, (s.geometry.vertices[k]).y = fin y := by
    intro k hk
    obtain ⟨q, _, hq⟩ := mem_vertices hinv (List.getElem_mem hk)
    obtain ⟨y, hy, _⟩ := position_y_nonneg hm hq
    exact ⟨y, hy⟩
  have hb : t.2.1 < s.geometry.vertices.length := lt_trans h2 h1
  have hc : t.2.2 < s.geometry.vertices.length := lt_trans h3 h1
  obtain ⟨ya, hya⟩ := hfin _ h1
  obtain ⟨yb, hyb⟩ := hfin _ hb
  obtain ⟨yc, hyc⟩ := hfin _ hc
  have ea := List.getElem?_eq_getElem h1
  have eb := List.getElem?_eq_getElem hb
  have ec := List.getElem?_eq_getElem hc
  have hcol : (paint data s.geometry.vertices t).color =
      if (s.geometry.vertices[t.1]).y ≠ fin 0 ∨ (s.geometry.vertices[t.2.1]).y ≠ fin 0 ∨
        (s.geometry.vertices[t.2.2]).y ≠ fin 0 then data.color else data.seaColor := by
    simp only [paint, landVertex_of_get ea, landVertex_of_get eb, landVertex_of_get ec,
      Bool.or_eq_true, truthy_fin_iff hya, truthy_fin_iff hyb, truthy_fin_iff hyc, or_assoc]
  refine ⟨_, _, _, ea, eb, ec, ?_, ?_, ?_⟩
  · intro h
    rw [hcol, if_pos h]
  · intro h
    rw [hcol, if_neg (by rw [h.1, h.2.1, h.2.2]; simp)]
  · intro hne
    rw [hcol]
    by_cases h : (s.geometry.vertices[t.1]).y ≠ fin 0 ∨ (s.geometry.vertices[t.2.1]).y ≠ fin 0 ∨
        (s.geometry.vertices[t.2.2]).y ≠ fin 0
    · rw [if_pos h]
      refine ⟨⟨fun _ => h, fun _ => rfl⟩, ⟨fun e => absurd e hne, fun h0 => ?_⟩⟩
      rcases h with h | h | h
      · exact absurd h0.1 h
      · exact absurd h0.2.1 h
      · exact absurd h0.2.2 h
    · rw [if_neg h]
      have h0 : (s.geometry.vertices[t.1]).y = fin 0 ∧ (s.geometry.vertices[t.2.1]).y = fin 0 ∧
          (s.geometry.vertices[t.2.2]).y = fin 0 := by
        simp only [not_or, not_not] at h
        exact h
      exact ⟨⟨fun e => absurd e.symm hne, fun h1 => absurd h1 h⟩, ⟨fun _ => h0, fun _ => rfl⟩⟩

theorem face_color_rule_witness :
    (0 : ℚ) < defaultData.middleRadius ∧ defaultData.unitSize ≠ 0 ∧
    ∃ g, init sampleEnv defaultData = some g ∧ ∀ f ∈ g.faces, ∃ va vb vc : Vector3 ℚ,
      g.vertices[f.a]? = some va ∧ g.vertices[f.b]? = some vb ∧ g.vertices[f.c]? = some vc ∧
      ((va.y ≠ fin 0 ∨ vb.y ≠ fin 0 ∨ vc.y ≠ fin 0) → f.color = defaultData.color) ∧
      ((va.y = fin 0 ∧ vb.y = fin 0 ∧ vc.y = fin 0) → f.color = defaultData.seaColor) ∧
      (defaultData.color ≠ defaultData.seaColor →
        (f.color = defaultData.color ↔ (va.y ≠ fin 0 ∨ vb.y ≠ fin 0 ∨ vc.y ≠ fin 0)) ∧
        (f.color = defaultData.seaColor ↔ (va.y = fin 0 ∧ vb.y = fin 0 ∧ vc.y = fin 0))) :=
  ⟨by norm_num [defaultData], by norm_num [defaultData],
    face_color_rule sampleEnv defaultData (by norm_num [defaultData])
      (by norm_num [defaultData])⟩

/-- C8: the face list is exactly the triangles of the lattice points of the scan range,
in the order of the scan: for a point with an index, triangle A
`(index(i,j), index(i,j-1), index(i-1,j-1))` when both neighbours have an index, then
triangle B `(index(i,j), index(i-1,j-1), index(i-1,j))` when both have one
(`trianglesAt`); at most two per point, none for a point without an index, and the points
with an index are the materialized points of the range. -/
theorem faces_are_the_triangles (env : Env K) (data : Data K) (hu : data.unitSize ≠ 0) :
    ∃ s, scan env data = some s ∧
      s.geometry.faces.map (fun f => (f.a, f.b, f.c)) =
        (scanPoints (scanSize data)).flatMap (fun p => trianglesAt s.index p.1 p.2) ∧
      (∀ i j, (trianglesAt s.index i j).length ≤ 2) ∧
      (∀ i j, s.index i j = none → trianglesAt s.index i j = []) ∧
      (∀ i j, (s.index i j).isSome ↔
        ((-scanSize data ≤ i ∧ i ≤ scanSize data ∧ -scanSize data ≤ j ∧ j ≤ scanSize data) ∧
          (position env data i j).isSome)) := by
  obtain ⟨s, hscan, hinv⟩ := scan_run env data hu
  refine ⟨s, hscan, ?_, fun i j => trianglesAt_length_le _ i j, ?_, ?_⟩
  · rw [hinv.faces, List.map_map]
    have : ((fun f : Face3 => (f.a, f.b, f.c)) ∘ paint data s.geometry.vertices) = id := by
      funext t
      exact triple_paint data _ t
    rw [this, List.map_id]
  · intro i j h
    simp only [trianglesAt, h]
  · intro i j
    rw [hinv.index_isSome i j, mem_scanPoints]

theorem faces_are_the_triangles_witness :
    defaultData.unitSize ≠ 0 ∧
    ∃ s, scan sampleEnv defaultData = some s ∧
      s.geometry.faces.map (fun f => (f.a, f.b, f.c)) =
        (scanPoints (scanSize defaultData)).flatMap (fun p => trianglesAt s.index p.1 p.2) ∧
      (∀ i j, (trianglesAt s.index i j).length ≤ 2) ∧
      (∀ i j, s.index i j = none → trianglesAt s.index i j = []) ∧
      (∀ i j, (s.index i j).isSome ↔
        ((-scanSize defaultData ≤ i ∧ i ≤ scanSize defaultData ∧ -scanSize defaultData ≤ j ∧
            j ≤ scanSize defaultData) ∧
          (position sampleEnv defaultData i j).isSome)) :=
  ⟨by norm_num [defaultData],
    faces_are_the_triangles sampleEnv defaultData (by norm_num [defaultData])⟩

/-- C9: no triangle is emitted twice: two entries of the face list at different places
have different sets of three vertex indices. -/
theorem no_triangle_twice (env : Env K) (data : Data K) (hu : data.unitSize ≠ 0) :
    ∃ g, init env data = some g ∧
      g.faces.Pairwise (fun f h => ({f.a, f.b, f.c} : Finset Nat) ≠ {h.a, h.b, h.c}) := by
  obtain ⟨s, hscan, hinv⟩ := scan_run env data hu
  refine ⟨s.geometry, by simp [init, hscan], ?_⟩
  rw [hinv.faces, List.pairwise_map]
  exact hinv.triangles_distinct (pairwise_scanPoints _)

theorem no_triangle_twice_witness :
    defaultData.unitSize ≠ 0 ∧
    ∃ g, init sampleEnv defaultData = some g ∧
      g.faces.Pairwise (fun f h => ({f.a, f.b, f.c} : Finset Nat) ≠ {h.a, h.b, h.c}) :=
  ⟨by norm_num [defaultData], no_triangle_twice sampleEnv defaultData (by norm_num [defaultData])⟩

/-- C10: at the end of the scan and in every state the scan passes through (after `a`
whole rows and `b` points of the next row) the table is consistent with the vertex list
(`TableValid`): the counter is the length of the list, the materialized points visited
are the points with an index, the indices are injective, are exactly `0 .. n-1`, increase
in the order of the scan, and the vertex at the index of a point is its position. -/
theorem table_consistent (env : Env K) (data : Data K) (hu : data.unitSize ≠ 0) :
    (∃ s, scan env data = some s ∧ TableValid env data (scanPoints (scanSize data)) s) ∧
    ∀ a b : Nat, a < (2 * scanSize data + 1).toNat → b ≤ (2 * scanSize data + 1).toNat →
      ∃ s, partialScan env data (scanSize data) a b = some s ∧
        scan env data = restOfScan env data (scanSize data) a b s ∧
        TableValid env data (visited (scanSize data) a b) s := by
  constructor
  · obtain ⟨s, hscan, hinv⟩ := scan_run env data hu
    exact ⟨s, hscan, hinv.tableValid (pairwise_scanPoints _)⟩
  · intro a b ha hb
    obtain ⟨s, hs, hinv⟩ := partialScan_inv env data (scanSize data) a b
    refine ⟨s, hs, ?_, hinv.tableValid (pairwise_visited _ _ _)⟩
    rw [scan_eq env hu, scan_through env data (scanSize data) ha hb, hs, Option.some_bind]

theorem table_consistent_witness :
    defaultData.unitSize ≠ 0 ∧
    ((∃ s, scan sampleEnv defaultData = some s ∧
        TableValid sampleEnv defaultData (scanPoints (scanSize defaultData)) s) ∧
    ∀ a b : Nat, a < (2 * scanSize defaultData + 1).toNat →
      b ≤ (2 * scanSize defaultData + 1).toNat →
      ∃ s, partialScan sampleEnv defaultData (scanSize defaultData) a b = some s ∧
        scan sampleEnv defaultData =
          restOfScan sampleEnv defaultData (scanSize defaultData) a b s ∧
        TableValid sampleEnv defaultData (visited (scanSize defaultData) a b) s) :=
  ⟨by norm_num [defaultData], table_consistent sampleEnv defaultData (by norm_num [defaultData])⟩

/-- C11 (as amended): for a configuration whose `size` rounds to 0
(`0 < middleRadius`, `0 < unitSize`, `middleRadius / unitSize < 1/2`) the build ends
without an exception and the mesh is empty: no vertex and no face, the coordinates of
the one lattice point visited being `NaN`. -/
theorem size_zero_empty_mesh (env : Env K) (data : Data K) (hm : 0 < data.middleRadius)
    (hu : 0 < data.unitSize) (hr : data.middleRadius / data.unitSize < 1 / 2) :
    size data = 0 ∧ scanSize data = 0 ∧ position env data 0 0 = none ∧
      init env data = some ⟨[], []⟩ := by
  have hs : size data = 0 := size_eq_zero (le_of_lt (div_pos hm hu)) hr
  exact ⟨hs, scanSize_size_zero hs, position_size_zero env hm (ne_of_gt hu) hs,
    init_size_zero env hm (ne_of_gt hu) hs⟩

theorem size_zero_empty_mesh_witness :
    (0 : ℚ) < coarseData.middleRadius ∧ 0 < coarseData.unitSize ∧
    coarseData.middleRadius / coarseData.unitSize < 1 / 2 ∧
    (size coarseData = 0 ∧ scanSize coarseData = 0 ∧ position sampleEnv coarseData 0 0 = none ∧
      init sampleEnv coarseData = some ⟨[], []⟩) :=
  ⟨by norm_num [coarseData], by norm_num [coarseData], by norm_num [coarseData],
    size_zero_empty_mesh sampleEnv coarseData (by norm_num [coarseData])
      (by norm_num [coarseData]) (by norm_num [coarseData])⟩

/-- C11 (as stated) fails: for `middleRadius = 10`, `unitSize = 1000` the build does not
yield a mesh of exactly one vertex. -/
theorem size_zero_not_single_point :
    ¬ ∃ g, init sampleEnv coarseData = some g ∧ g.vertices.length = 1 ∧ g.faces.length = 0 := by
  have hs : size coarseData = 0 :=
    size_eq_zero (by norm_num [coarseData]) (by norm_num [coarseData])
  rw [init_size_zero sampleEnv (by norm_num [coarseData]) (by norm_num [coarseData]) hs]
  rintro ⟨g, hg, h1, _⟩
  rw [← Option.some.inj hg] at h1
  simp at h1

/-- C14 (as amended): the accumulation loop, with `quality` from 25 times 5 while
`quality <= 1500`, runs for the qualities 25, 125, 625 and sums exactly 3 octaves (the
next quality, 3125, is out of range); so does the sequence of section 4.2. -/
theorem three_octaves (env : Env K) (data : Data K) (x z y : JSNum K) :
    loopQualities 1500 25 = [25, 125, 625] ∧ (loopQualities 1500 25).length = 3 ∧
    octaves = [25, 125, 625] ∧ ¬ (625 * 5 ≤ 1500) ∧
    noiseLoop env data x z 1500 25 y =
      y + octave env data x z 25 + octave env data x z 125 + octave env data x z 625 := by
  refine ⟨loopQualities_eq, by rw [loopQualities_eq]; rfl, octaves_eq, by norm_num, ?_⟩
  rw [noiseLoop_eq_foldl, loopQualities_eq]
  rfl

/-- C14 (as stated) fails: the loop does not sum 4 octaves. -/
theorem not_four_octaves : (loopQualities 1500 25).length ≠ 4 := by
  rw [loopQualities_eq]
  decide

/-- C13: for a positive `middleRadius`, `size ≥ 1` and a noise with `|noise| ≤ 1`, at every
lattice point of the inner band the falloff factor is in `[0, 1]`, is 1 for
`r ≤ innerRadius - plateauEdge` and 0 at `r = innerRadius`, and the height of the vertex is
between 0 and `235 * falloff + 2.5`, and is 0 at `r = innerRadius`. -/
theorem boundary_continuity (env : Env K) (data : Data K) (hm : 0 < data.middleRadius)
    (hs : 1 ≤ size data) (hn : ∀ a b c : K, |env.noise a b c| ≤ 1) :
    ∀ i j : Int, radius env data i j ≤ innerRadius data →
      0 ≤ falloff data (radius env data i j) ∧ falloff data (radius env data i j) ≤ 1 ∧
      (radius env data i j ≤ innerRadius data - plateauEdge data →
        falloff data (radius env data i j) = 1) ∧
      (radius env data i j = innerRadius data → falloff data (radius env data i j) = 0) ∧
      position env data i j = some
        ⟨fin (pointX env data i),
          fin (height env data (pointX env data i) (pointZ data i j) (radius env data i j)),
          fin (pointZ data i j)⟩ ∧
      0 ≤ height env data (pointX env data i) (pointZ data i j) (radius env data i j) ∧
      height env data (pointX env data i) (pointZ data i j) (radius env data i j) ≤
        235 * falloff data (radius env data i j) + 5 / 2 ∧
      (radius env data i j = innerRadius data →
        height env data (pointX env data i) (pointZ data i j) (radius env data i j) = 0) := by
  intro i j hr
  have hs0 : size data ≠ 0 := by omega
  have hu := unitSize_ne_zero hs0
  obtain ⟨f0, f1, f2, f3⟩ := falloff_bounds hm hs0 hr
  have hpos := position_fin env hu hs0 hm i j
  rw [if_pos (le_trans hr (innerRadius_le_outerRadius hm hs)), if_pos hr] at hpos
  refine ⟨f0, f1, f2, f3, hpos, height_nonneg _ _ _ _ _, height_le env hm hs0 hn _ _ hr, ?_⟩
  intro h
  rw [h]
  exact height_at_innerRadius env hm hs0 _ _

theorem boundary_continuity_witness :
    (0 : ℚ) < defaultData.middleRadius ∧ 1 ≤ size defaultData ∧
    (∀ a b c : ℚ, |sampleEnv.noise a b c| ≤ 1) ∧
    ∀ i j : Int, radius sampleEnv defaultData i j ≤ innerRadius defaultData →
      0 ≤ falloff defaultData (radius sampleEnv defaultData i j) ∧
      falloff defaultData (radius sampleEnv defaultData i j) ≤ 1 ∧
      (radius sampleEnv defaultData i j ≤ innerRadius defaultData - plateauEdge defaultData →
        falloff defaultData (radius sampleEnv defaultData i j) = 1) ∧
      (radius sampleEnv defaultData i j = innerRadius defaultData →
        falloff defaultData (radius sampleEnv defaultData i j) = 0) ∧
      position sampleEnv defaultData i j = some
        ⟨fin (pointX sampleEnv defaultData i),
          fin (height sampleEnv defaultData (pointX sampleEnv defaultData i)
            (pointZ defaultData i j) (radius sampleEnv defaultData i j)),
          fin (pointZ defaultData i j)⟩ ∧
      0 ≤ height sampleEnv defaultData (pointX sampleEnv defaultData i) (pointZ defaultData i j)
        (radius sampleEnv defaultData i j) ∧
      height sampleEnv defaultData (pointX sampleEnv defaultData i) (pointZ defaultData i j)
          (radius sampleEnv defaultData i j) ≤
        235 * falloff defaultData (radius sampleEnv defaultData i j) + 5 / 2 ∧
      (radius sampleEnv defaultData i j = innerRadius defaultData →
        height sampleEnv defaultData (pointX sampleEnv defaultData i) (pointZ defaultData i j)
          (radius sampleEnv defaultData i j) = 0) :=
  ⟨by norm_num [defaultData], by norm_num [size, defaultData], sampleEnv_noise_le,
    boundary_continuity sampleEnv defaultData (by norm_num [defaultData])
      (by norm_num [size, defaultData]) sampleEnv_noise_le⟩

/-- C15: for a positive `middleRadius` and `size ≥ 1` no division of the build is by zero:
`unitSize` and `SIZE` are not zero, `PLATEAU_EDGE` is positive, a point that reaches the
rescale of the outer band has `r > middleRadius > 0`, the point with `r = 0` is in the
inner band and is not rescaled, and every coordinate of every vertex is finite (the other
divisors are the constants 2, 4, 5, 25, 125 and 625). -/
theorem no_division_by_zero (env : Env K) (data : Data K) (hm : 0 < data.middleRadius)
    (hs : 1 ≤ size data) :
    data.unitSize ≠ 0 ∧ SIZE data = fin (size data : K) ∧ (size data : K) ≠ 0 ∧
    PLATEAU_EDGE data = fin (plateauEdge data) ∧ 0 < plateauEdge data ∧
    (∀ i j : Int, latticeR env data i j = fin (radius env data i j)) ∧
    (∀ i j : Int, radius env data i j ≤ outerRadius data →
      ¬ radius env data i j ≤ innerRadius data → ¬ radius env data i j ≤ data.middleRadius →
      data.middleRadius < radius env data i j ∧ 0 < radius env data i j ∧
      position env data i j = some
        ⟨fin (pointX env data i * (far' data / radius env data i j)), fin 0,
          fin (pointZ data i j * (far' data / radius env data i j))⟩) ∧
    (∀ i j : Int, radius env data i j = 0 →
      position env data i j = some
        ⟨fin (pointX env data i),
          fin (height env data (pointX env data i) (pointZ data i j) (radius env data i j)),
          fin (pointZ data i j)⟩) ∧
    (∀ (i j : Int) (v : Vector3 K), position env data i j = some v →
      ∃ x y z : K, v = ⟨fin x, fin y, fin z⟩) := by
  have hs0 : size data ≠ 0 := by omega
  have hu := unitSize_ne_zero hs0
  have hin := innerRadius_pos hm hs0
  refine ⟨hu, SIZE_fin hu, Int.cast_ne_zero.mpr hs0, PLATEAU_EDGE_fin hu hs0,
    plateauEdge_pos hm hs0, fun i j => latticeR_fin env hu hs0 i j, ?_, ?_, ?_⟩
  · intro i j h1 h2 h3
    have hpos := position_fin env hu hs0 hm i j
    rw [if_pos h1, if_neg h2, if_neg h3] at hpos
    exact ⟨not_le.mp h3, lt_trans hm (not_le.mp h3), hpos⟩
  · intro i j h0
    have hpos := position_fin env hu hs0 hm i j
    have h1 : radius env data i j ≤ innerRadius data := by
      rw [h0]
      exact le_of_lt hin
    rw [if_pos (le_trans h1 (innerRadius_le_outerRadius hm hs)), if_pos h1] at hpos
    exact hpos
  · intro i j v hv
    rw [position_fin env hu hs0 hm i j] at hv
    split_ifs at hv with h1 h2 h3
    · exact ⟨_, _, _, (Option.some.inj hv).symm⟩
    · exact ⟨_, _, _, (Option.some.inj hv).symm⟩
    · exact ⟨_, _, _, (Option.some.inj hv).symm⟩

theorem no_division_by_zero_witness :
    (0 : ℚ) < defaultData.middleRadius ∧ 1 ≤ size defaultData ∧
    (defaultData.unitSize ≠ 0 ∧ SIZE defaultData = fin (size defaultData : ℚ) ∧
    (size defaultData : ℚ) ≠ 0 ∧
    PLATEAU_EDGE defaultData = fin (plateauEdge defaultData) ∧ 0 < plateauEdge defaultData ∧
    (∀ i j : Int, latticeR sampleEnv defaultData i j = fin (radius sampleEnv defaultData i j)) ∧
    (∀ i j : Int, radius sampleEnv defaultData i j ≤ outerRadius defaultData →
      ¬ radius sampleEnv defaultData i j ≤ innerRadius defaultData →
      ¬ radius sampleEnv defaultData i j ≤ defaultData.middleRadius →
      defaultData.middleRadius < radius sampleEnv defaultData i j ∧
      0 < radius sampleEnv defaultData i j ∧
      position sampleEnv defaultData i j = some
        ⟨fin (pointX sampleEnv defaultData i *
            (far' defaultData / radius sampleEnv defaultData i j)), fin 0,
          fin (pointZ defaultData i j * (far' defaultData / radius sampleEnv defaultData i j))⟩) ∧
    (∀ i j : Int, radius sampleEnv defaultData i j = 0 →
      position sampleEnv defaultData i j = some
        ⟨fin (pointX sampleEnv defaultData i),
          fin (height sampleEnv defaultData (pointX sampleEnv defaultData i)
            (pointZ defaultData i j) (radius sampleEnv defaultData i j)),
          fin (pointZ defaultData i j)⟩) ∧
    (∀ (i j : Int) (v : Vector3 ℚ), position sampleEnv defaultData i j = some v →
      ∃ x y z : ℚ, v = ⟨fin x, fin y, fin z⟩)) :=
  ⟨by norm_num [defaultData], by norm_num [size, defaultData],
    no_division_by_zero sampleEnv defaultData (by norm_num [defaultData])
      (by norm_num [size, defaultData])⟩

/-- C16, the claim as stated fails in the arithmetic of doubles: for `middleRadius = 10`
and `unitSize = 0.13`, in the ranges of the schema, `size = 77` (also as the code rounds
it) and `UNIT_SIZE = 10/77` is the double `0.12987012987012986`; its product with `77` is
not `10`, neither exactly nor rounded to a double (`9.999999999999998`). -/
theorem double_spacing_inexact :
    (10 : ℚ) ≤ fineData.middleRadius ∧ 1 / 10 ≤ fineData.unitSize ∧ fineData.unitSize ≤ 1000 ∧
    size fineData = 77 ∧ doubleSIZE fineData = 77 ∧
    doubleUNIT_SIZE fineData * (doubleSIZE fineData : ℚ) ≠ fineData.middleRadius ∧
    roundToDouble (doubleUNIT_SIZE fineData * (doubleSIZE fineData : ℚ)) = 10 - 1 / 2 ^ 49 ∧
    roundToDouble (doubleUNIT_SIZE fineData * (doubleSIZE fineData : ℚ)) ≠
      fineData.middleRadius := by
  refine ⟨by norm_num [fineData], by rw [fine_unitSize]; norm_num,
    by rw [fine_unitSize]; norm_num, fine_size, fine_doubleSIZE, ?_, fine_product, ?_⟩
  · rw [fine_doubleUNIT_SIZE, fine_doubleSIZE]
    norm_num [fineData]
  · rw [fine_product]
    norm_num [fineData]

/-- C16, amended: in the ranges of the schema (`middleRadius ≥ 10`, `0.1 ≤ unitSize ≤ 1000`)
with `size ≥ 1`, the radii are strictly ordered, `0 < innerRadius < middleRadius <
outerRadius ≤ far'`, and so are the constants of the code, by its own comparisons; the
order holds for every integer `n` with `1 ≤ n ≤ middleRadius/unitSize + 1` in the place of
`size`, whichever way the quotient is rounded; and `unitSize' * size = middleRadius` up to
rounding: with a rounding `fl` of relative error at most `u` (`2^-53` for doubles,
`roundToDouble_error`; `0` for exact arithmetic) the product computed for a size `n ≥ 1`,
`fl(fl(middleRadius/n) * n)`, is within `((1+u)² - 1) * middleRadius` of `middleRadius`. -/
theorem radii_ordered_under_rounding (data : Data K) (hm : 10 ≤ data.middleRadius)
    (hu1 : 1 / 10 ≤ data.unitSize) (hu2 : data.unitSize ≤ 1000) (hs : 1 ≤ size data) :
    (0 < innerRadius data ∧ innerRadius data < data.middleRadius ∧
      data.middleRadius < outerRadius data ∧ outerRadius data ≤ far' data) ∧
    (JSNum.lt (fin 0) (INNER_RADIUS data) = true ∧
      JSNum.lt (INNER_RADIUS data) (fin data.middleRadius) = true ∧
      JSNum.lt (fin data.middleRadius) (OUTER_RADIUS data) = true ∧
      JSNum.le (OUTER_RADIUS data) (FAR data) = true) ∧
    (∀ n : Int, 1 ≤ n → (n : K) ≤ data.middleRadius / data.unitSize + 1 →
      0 < ((n : K) - 1) * (data.middleRadius / n) + 1 / 10000 ∧
      ((n : K) - 1) * (data.middleRadius / n) + 1 / 10000 < data.middleRadius ∧
      data.middleRadius < ((n : K) + 1) * (data.middleRadius / n) + 1 / 10000) ∧
    (∀ (n : Int) (fl : K → K) (u : K), 1 ≤ n → (∀ x : K, |fl x - x| ≤ u * |x|) →
      |fl (fl (data.middleRadius / n) * n) - data.middleRadius| ≤
        ((1 + u) ^ 2 - 1) * data.middleRadius) := by
  have hm0 : 0 < data.middleRadius := by linarith
  have hs0 : size data ≠ 0 := by omega
  have hu := unitSize_ne_zero hs0
  have _h := hu2
  have hus : 0 < data.unitSize := by linarith
  have o1 := innerRadius_pos hm0 hs0
  have o2 := innerRadius_lt_middleRadius hm0 hu1 hs
  have o3 := middleRadius_lt_outerRadius hm0 hs
  have o4 : outerRadius data ≤ far' data := le_max_right _ _
  refine ⟨⟨o1, o2, o3, o4⟩, ?_, ?_, ?_⟩
  · rw [INNER_RADIUS_fin hu hs0, OUTER_RADIUS_fin hu hs0, FAR_fin hu hs0]
    simp only [lt_fin, le_fin, decide_eq_true_eq]
    exact ⟨o1, o2, o3, o4⟩
  · intro n hn1 hn2
    have hn : (1 : K) ≤ (n : K) := by exact_mod_cast hn1
    have hnpos : (0 : K) < (n : K) := by linarith
    have hq : 0 < data.middleRadius / n := div_pos hm0 hnpos
    have hle : data.middleRadius / data.unitSize ≤ 10 * data.middleRadius := by
      rw [div_le_iff₀ hus]
      nlinarith
    have e1 : ((n : K) - 1) * (data.middleRadius / n) =
        data.middleRadius - data.middleRadius / n := by
      field_simp
      ring
    have e2 : ((n : K) + 1) * (data.middleRadius / n) =
        data.middleRadius + data.middleRadius / n := by
      field_simp
      ring
    have hbig : (1 : K) / 10000 < data.middleRadius / n := by
      rw [lt_div_iff₀ hnpos]
      linarith
    refine ⟨?_, ?_, ?_⟩
    · have : 0 ≤ ((n : K) - 1) * (data.middleRadius / n) :=
        mul_nonneg (by linarith) (le_of_lt hq)
      linarith
    · rw [e1]
      linarith
    · rw [e2]
      linarith
  · intro n fl u hn1 hfl
    have hn : (1 : K) ≤ (n : K) := by exact_mod_cast hn1
    have hnpos : (0 : K) < (n : K) := by linarith
    have hu0 : 0 ≤ u := by
      have := hfl 1
      rw [abs_one, mul_one] at this
      exact le_trans (abs_nonneg _) this
    have ha := hfl (data.middleRadius / n)
    have hb := hfl (fl (data.middleRadius / n) * n)
    have hq : 0 < data.middleRadius / n := div_pos hm0 hnpos
    rw [abs_of_pos hq] at ha
    have e : fl (data.middleRadius / n) * n - data.middleRadius =
        (fl (data.middleRadius / n) - data.middleRadius / n) * n := by
      field_simp
    have h1 : |fl (data.middleRadius / n) * n - data.middleRadius| ≤ u * data.middleRadius := by
      rw [e, abs_mul, abs_of_pos hnpos]
      calc |fl (data.middleRadius / n) - data.middleRadius / n| * n
          ≤ u * (data.middleRadius / n) * n := mul_le_mul_of_nonneg_right ha (le_of_lt hnpos)
        _ = u * data.middleRadius := by field_simp
    have h2 : |fl (data.middleRadius / n) * n| ≤ (1 + u) * data.middleRadius := by
      have := abs_sub_abs_le_abs_sub (fl (data.middleRadius / n) * n) data.middleRadius
      rw [abs_of_pos hm0] at this
      linarith
    have h3 : |fl (fl (data.middleRadius / n) * n) - fl (data.middleRadius / n) * n| ≤
        u * ((1 + u) * data.middleRadius) :=
      le_trans hb (mul_le_mul_of_nonneg_left h2 hu0)
    have h4 := abs_sub_le (fl (fl (data.middleRadius / n) * n))
      (fl (data.middleRadius / n) * n) data.middleRadius
    calc |fl (fl (data.middleRadius / n) * n) - data.middleRadius|
        ≤ u * ((1 + u) * data.middleRadius) + u * data.middleRadius := by linarith
      _ = ((1 + u) ^ 2 - 1) * data.middleRadius := by ring

theorem radii_ordered_under_rounding_witness :
    (10 : ℚ) ≤ fineData.middleRadius ∧ 1 / 10 ≤ fineData.unitSize ∧
    fineData.unitSize ≤ 1000 ∧ 1 ≤ size fineData ∧
    ((0 < innerRadius fineData ∧ innerRadius fineData < fineData.middleRadius ∧
      fineData.middleRadius < outerRadius fineData ∧ outerRadius fineData ≤ far' fineData) ∧
    (JSNum.lt (fin 0) (INNER_RADIUS fineData) = true ∧
      JSNum.lt (INNER_RADIUS fineData) (fin fineData.middleRadius) = true ∧
      JSNum.lt (fin fineData.middleRadius) (OUTER_RADIUS fineData) = true ∧
      JSNum.le (OUTER_RADIUS fineData) (FAR fineData) = true) ∧
    (∀ n : Int, 1 ≤ n → (n : ℚ) ≤ fineData.middleRadius / fineData.unitSize + 1 →
      0 < ((n : ℚ) - 1) * (fineData.middleRadius / n) + 1 / 10000 ∧
      ((n : ℚ) - 1) * (fineData.middleRadius / n) + 1 / 10000 < fineData.middleRadius ∧
      fineData.middleRadius < ((n : ℚ) + 1) * (fineData.middleRadius / n) + 1 / 10000) ∧
    (∀ (n : Int) (fl : ℚ → ℚ) (u : ℚ), 1 ≤ n → (∀ x : ℚ, |fl x - x| ≤ u * |x|) →
      |fl (fl (fineData.middleRadius / n) * n) - fineData.middleRadius| ≤
        ((1 + u) ^ 2 - 1) * fineData.middleRadius)) :=
  ⟨by norm_num [fineData], by rw [fine_unitSize]; norm_num, by rw [fine_unitSize]; norm_num,
    by rw [fine_size]; norm_num,
    radii_ordered_under_rounding fineData (by norm_num [fineData])
      (by rw [fine_unitSize]; norm_num) (by rw [fine_unitSize]; norm_num)
      (by rw [fine_size]; norm_num)⟩

/-- C17: for a `unitSize` that is not zero (a finite `size`) and `size ≥ 0` the scan ends;
its range has exactly `(2*scanSize+1)^2` lattice points, each visited once, in order (the
vertex list is the list of their positions, the skipped ones left out); so there are at
most `(2*scanSize+1)^2` vertices, and at most twice as many faces as vertices. -/
theorem bounded_work (env : Env K) (data : Data K) (hu : data.unitSize ≠ 0)
    (hs : 0 ≤ size data) :
    0 ≤ scanSize data ∧
    ((scanPoints (scanSize data)).length : Int) = (2 * scanSize data + 1) ^ 2 ∧
    ∃ s, scan env data = some s ∧
      s.geometry.vertices =
        (scanPoints (scanSize data)).filterMap (fun p => position env data p.1 p.2) ∧
      (s.geometry.vertices.length : Int) ≤ (2 * scanSize data + 1) ^ 2 ∧
      s.geometry.faces.length ≤ 2 * s.geometry.vertices.length := by
  have h0 := scanSize_nonneg hs
  obtain ⟨s, hscan, hinv⟩ := scan_run env data hu
  refine ⟨h0, length_scanPoints h0, s, hscan, ?_, ?_, ?_⟩
  · rw [hinv.vertices, map_snd_materialized]
  · rw [← length_scanPoints h0, hinv.vertices, List.length_map]
    exact_mod_cast length_materialized_le env data _
  · rw [hinv.faces, hinv.vertices, List.length_map, List.length_map]
    exact length_triangles_le _ (fun p _ hp => by
      obtain ⟨k, hk⟩ := Option.isSome_iff_exists.mp hp
      exact (hinv.index_mem hk).2)

theorem bounded_work_witness :
    defaultData.unitSize ≠ 0 ∧ 0 ≤ size defaultData ∧
    (0 ≤ scanSize defaultData ∧
    ((scanPoints (scanSize defaultData)).length : Int) = (2 * scanSize defaultData + 1) ^ 2 ∧
    ∃ s, scan sampleEnv defaultData = some s ∧
      s.geometry.vertices =
        (scanPoints (scanSize defaultData)).filterMap
          (fun p => position sampleEnv defaultData p.1 p.2) ∧
      (s.geometry.vertices.length : Int) ≤ (2 * scanSize defaultData + 1) ^ 2 ∧
      s.geometry.faces.length ≤ 2 * s.geometry.vertices.length) :=
  ⟨by norm_num [defaultData], by norm_num [size, defaultData],
    bounded_work sampleEnv defaultData (by norm_num [defaultData])
      (by norm_num [size, defaultData])⟩

/-- C19: for a positive `middleRadius`, `size ≥ 1` and a positive `Math.sqrt(3)`, every
face `(a, b, c)` of the geometry is the face of three lattice points whose lattice
coordinates give the cross product y-component `(√3/2) * unitSize'^2 > 0`: the triangle
is not degenerate, has the area `(√3/4) * unitSize'^2`, and all faces wind the same
way. -/
theorem faces_same_winding (env : Env K) (data : Data K) (hm : 0 < data.middleRadius)
    (hs : 1 ≤ size data) (h3 : 0 < env.sqrt 3) :
    0 < env.sqrt 3 / 2 * unitSize' data ^ 2 ∧
    ∃ s, scan env data = some s ∧ ∀ f ∈ s.geometry.faces, ∃ p q r : Int × Int,
      s.index p.1 p.2 = some f.a ∧ s.index q.1 q.2 = some f.b ∧ s.index r.1 r.2 = some f.c ∧
      crossY (latticePoint env data p) (latticePoint env data q) (latticePoint env data r) =
        env.sqrt 3 / 2 * unitSize' data ^ 2 ∧
      crossY (latticePoint env data p) (latticePoint env data q) (latticePoint env data r) / 2 =
        env.sqrt 3 / 4 * unitSize' data ^ 2 := by
  have hs0 : size data ≠ 0 := by omega
  have hu := unitSize_ne_zero hs0
  have hup := unitSize'_pos hm hs
  refine ⟨by positivity, ?_⟩
  obtain ⟨s, hscan, hinv⟩ := scan_run env data hu
  refine ⟨s, hscan, ?_⟩
  intro f hf
  obtain ⟨p, _, t, ht, rfl⟩ := hinv.mem_faces hf
  obtain ⟨a, h0, hab | hab⟩ := mem_trianglesAt.mp ht
  · obtain ⟨b, c, h1, h2, rfl⟩ := hab
    refine ⟨(p.1, p.2), (p.1, p.2 - 1), (p.1 - 1, p.2 - 1), h0, h1, h2, ?_, ?_⟩
    · exact crossY_triangleA env data p.1 p.2
    · rw [crossY_triangleA env data p.1 p.2]
      ring
  · obtain ⟨c, d, h2, h3, rfl⟩ := hab
    refine ⟨(p.1, p.2), (p.1 - 1, p.2 - 1), (p.1 - 1, p.2), h0, h2, h3, ?_, ?_⟩
    · exact crossY_triangleB env data p.1 p.2
    · rw [crossY_triangleB env data p.1 p.2]
      ring

theorem faces_same_winding_witness :
    (0 : ℚ) < defaultData.middleRadius ∧ 1 ≤ size defaultData ∧ 0 < sampleEnv.sqrt 3 ∧
    (0 < sampleEnv.sqrt 3 / 2 * unitSize' defaultData ^ 2 ∧
    ∃ s, scan sampleEnv defaultData = some s ∧ ∀ f ∈ s.geometry.faces, ∃ p q r : Int × Int,
      s.index p.1 p.2 = some f.a ∧ s.index q.1 q.2 = some f.b ∧ s.index r.1 r.2 = some f.c ∧
      crossY (latticePoint sampleEnv defaultData p) (latticePoint sampleEnv defaultData q)
          (latticePoint sampleEnv defaultData r) =
        sampleEnv.sqrt 3 / 2 * unitSize' defaultData ^ 2 ∧
      crossY (latticePoint sampleEnv defaultData p) (latticePoint sampleEnv defaultData q)
          (latticePoint sampleEnv defaultData r) / 2 =
        sampleEnv.sqrt 3 / 4 * unitSize' defaultData ^ 2) :=
  ⟨by norm_num [defaultData], by norm_num [size, defaultData], sampleEnv_sqrt_three_pos,
    faces_same_winding sampleEnv defaultData (by norm_num [defaultData])
      (by norm_num [size, defaultData]) sampleEnv_sqrt_three_pos⟩

/-- C20: two builds of the same `data` with the same `Math.sqrt` and any two noise
functions and seeds end with the same index table, the same number of vertices, the same
`x` and `z` of every vertex, `y = 0` in both at every vertex of a lattice point outside
the inner band, and the same list of face index triples in the same order. -/
theorem topology_independent_of_noise (sq : K → K) (noise1 noise2 : K → K → K → K)
    (seed1 seed2 : K) (data : Data K) (hu : data.unitSize ≠ 0) :
    ∃ s1 s2, scan ⟨sq, noise1, seed1⟩ data = some s1 ∧ scan ⟨sq, noise2, seed2⟩ data = some s2 ∧
      s1.geometry.vertices.length = s2.geometry.vertices.length ∧
      (∀ i j, s1.index i j = s2.index i j) ∧
      (∀ (k : Nat) (v1 v2 : Vector3 K), s1.geometry.vertices[k]? = some v1 →
        s2.geometry.vertices[k]? = some v2 → v1.x = v2.x ∧ v1.z = v2.z) ∧
      (∀ (i j : Int) (k : Nat) (v1 v2 : Vector3 K), s1.index i j = some k →
        s1.geometry.vertices[k]? = some v1 →
        s2.geometry.vertices[k]? = some v2 →
        JSNum.le (latticeR ⟨sq, noise1, seed1⟩ data i j) (INNER_RADIUS data) = false →
        v1.y = fin 0 ∧ v2.y = fin 0) ∧
      s1.geometry.faces.map (fun f => (f.a, f.b, f.c)) =
        s2.geometry.faces.map (fun f => (f.a, f.b, f.c)) := by
  obtain ⟨s1, hscan1, hinv1⟩ := scan_run ⟨sq, noise1, seed1⟩ data hu
  obtain ⟨s2, hscan2, hinv2⟩ := scan_run ⟨sq, noise2, seed2⟩ data hu
  have hfst : (materialized ⟨sq, noise1, seed1⟩ data (scanPoints (scanSize data))).map Prod.fst =
      (materialized ⟨sq, noise2, seed2⟩ data (scanPoints (scanSize data))).map Prod.fst := by
    have hf : (fun p : Int × Int => (position ⟨sq, noise1, seed1⟩ data p.1 p.2).isSome) =
        fun p : Int × Int => (position ⟨sq, noise2, seed2⟩ data p.1 p.2).isSome := by
      funext p
      exact (position_noise_free sq noise1 noise2 seed1 seed2 data p.1 p.2).1
    rw [map_fst_materialized, map_fst_materialized, hf]
  have hidx : ∀ i j, s1.index i j = s2.index i j := by
    intro i j
    apply option_ext_some
    intro k
    rw [hinv1.table, hinv2.table, hfst]
  have hlen : s1.geometry.vertices.length = s2.geometry.vertices.length := by
    rw [hinv1.vertices, hinv2.vertices, List.length_map, List.length_map,
      ← List.length_map _ Prod.fst, hfst, List.length_map]
  have hpair : ∀ (i j : Int) (k : Nat) (v1 v2 : Vector3 K), s1.index i j = some k →
      s1.geometry.vertices[k]? = some v1 →
      s2.geometry.vertices[k]? = some v2 →
      v1.x = v2.x ∧ v1.z = v2.z ∧
      (JSNum.le (latticeR ⟨sq, noise1, seed1⟩ data i j) (INNER_RADIUS data) = false →
        v1.y = fin 0 ∧ v2.y = fin 0) := by
    intro i j k v1 v2 hk e1 e2
    have hk2 : s2.index i j = some k := by rw [← hidx]; exact hk
    rw [hinv1.index_vertex hk] at e1
    rw [hinv2.index_vertex hk2] at e2
    exact (position_noise_free sq noise1 noise2 seed1 seed2 data i j).2 v1 v2 e1 e2
  refine ⟨s1, s2, hscan1, hscan2, hlen, hidx, ?_, ?_, ?_⟩
  · intro k v1 v2 e1 e2
    have hk : k < s1.vertexInd := by
      rw [hinv1.counter, ← List.length_map _ Prod.snd, ← hinv1.vertices]
      exact (List.getElem?_eq_some.mp e1).1
    obtain ⟨i, j, hij⟩ := hinv1.index_surj hk
    obtain ⟨h1, h2, _⟩ := hpair i j k v1 v2 hij e1 e2
    exact ⟨h1, h2⟩
  · intro i j k v1 v2 hk e1 e2 hle
    exact (hpair i j k v1 v2 hk e1 e2).2.2 hle
  · have hfun : s1.index = s2.index := by
      funext i j
      exact hidx i j
    rw [hinv1.faces, hinv2.faces, List.map_map, List.map_map, hfun]
    rfl

theorem topology_independent_of_noise_witness :
    defaultData.unitSize ≠ 0 ∧
    ∃ s1 s2, scan ⟨sampleEnv.sqrt, sampleEnv.noise, 42⟩ defaultData = some s1 ∧
      scan ⟨sampleEnv.sqrt, fun _ _ _ => 0, 7⟩ defaultData = some s2 ∧
      s1.geometry.vertices.length = s2.geometry.vertices.length ∧
      (∀ i j, s1.index i j = s2.index i j) ∧
      (∀ (k : Nat) (v1 v2 : Vector3 ℚ), s1.geometry.vertices[k]? = some v1 →
        s2.geometry.vertices[k]? = some v2 → v1.x = v2.x ∧ v1.z = v2.z) ∧
      (∀ (i j : Int) (k : Nat) (v1 v2 : Vector3 ℚ), s1.index i j = some k →
        s1.geometry.vertices[k]? = some v1 →
        s2.geometry.vertices[k]? = some v2 →
        JSNum.le (latticeR ⟨sampleEnv.sqrt, sampleEnv.noise, 42⟩ defaultData i j)
          (INNER_RADIUS defaultData) = false →
        v1.y = fin 0 ∧ v2.y = fin 0) ∧
      s1.geometry.faces.map (fun f => (f.a, f.b, f.c)) =
        s2.geometry.faces.map (fun f => (f.a, f.b, f.c)) :=
  ⟨by norm_num [defaultData],
    topology_independent_of_noise sampleEnv.sqrt sampleEnv.noise (fun _ _ _ => 0) 42 7
      defaultData (by norm_num [defaultData])⟩

/-- C18 fails on the code: for `middleRadius = 60`, `unitSize = 10` (`size = 6`) and the real
square root, the lattice point `(8, 4)` has `r ≤ outerRadius` but `scanSize = 7 < 8`; the
scan never visits it and it gets no vertex. -/
theorem scan_square_misses_disk_point :
    size (⟨60, 10, 4000, ⟨65280⟩, ⟨255⟩, false⟩ : Data ℝ) = 6 ∧
    scanSize (⟨60, 10, 4000, ⟨65280⟩, ⟨255⟩, false⟩ : Data ℝ) = 7 ∧
    radius (⟨Real.sqrt, fun _ _ _ => 0, 0⟩ : Env ℝ)
        (⟨60, 10, 4000, ⟨65280⟩, ⟨255⟩, false⟩ : Data ℝ) 8 4 ≤
      outerRadius (⟨60, 10, 4000, ⟨65280⟩, ⟨255⟩, false⟩ : Data ℝ) ∧
    (position (⟨Real.sqrt, fun _ _ _ => 0, 0⟩ : Env ℝ)
        (⟨60, 10, 4000, ⟨65280⟩, ⟨255⟩, false⟩ : Data ℝ) 8 4).isSome ∧
    ∃ s, scan (⟨Real.sqrt, fun _ _ _ => 0, 0⟩ : Env ℝ)
        (⟨60, 10, 4000, ⟨65280⟩, ⟨255⟩, false⟩ : Data ℝ) = some s ∧ s.index 8 4 = none ∧
      s.geometry.vertices.length <
        (materialized (⟨Real.sqrt, fun _ _ _ => 0, 0⟩ : Env ℝ)
          (⟨60, 10, 4000, ⟨65280⟩, ⟨255⟩, false⟩ : Data ℝ)
          ((8, 4) :: scanPoints (scanSize (⟨60, 10, 4000, ⟨65280⟩, ⟨255⟩, false⟩ : Data ℝ)))).length :=
  scan_misses_point (⟨Real.sqrt, fun _ _ _ => 0, 0⟩ : Env ℝ)
    (⟨60, 10, 4000, ⟨65280⟩, ⟨255⟩, false⟩ : Data ℝ)
    (fun a ha => ⟨Real.sqrt_nonneg a, Real.mul_self_sqrt ha⟩) rfl rfl

/-- C12 (as amended): for `middleRadius = 100`, `unitSize = 1` (and an exact square root)
the derived values are `size = 100`, `unitSize' = 1`, `innerRadius = 99.0001`,
`outerRadius = 101.0001`, `scanSize = 116`; the build ends with a vertex list and a face
list that are not empty; a face is in the sea color; and a face is in the land color when
the noise makes the height of the centre vertex positive. -/
theorem default_scenario (env : Env K) (data : Data K)
    (hsqrt : ∀ a : K, 0 ≤ a → 0 ≤ env.sqrt a ∧ env.sqrt a * env.sqrt a = a)
    (hm : data.middleRadius = 100) (hu : data.unitSize = 1) :
    size data = 100 ∧ unitSize' data = 1 ∧ innerRadius data = 99 + 1 / 10000 ∧
    outerRadius data = 101 + 1 / 10000 ∧ scanSize data = 116 ∧
    ∃ g, init env data = some g ∧ g.vertices ≠ [] ∧ g.faces ≠ [] ∧
      (∃ f ∈ g.faces, f.color = data.seaColor) ∧
      (0 < height env data 0 0 0 → ∃ f ∈ g.faces, f.color = data.color) := by
  obtain ⟨hs, hun, hin, hout, hsc⟩ := default_values hm hu
  refine ⟨hs, hun, hin, hout, hsc, ?_⟩
  have hu0 : data.unitSize ≠ 0 := by
    rw [hu]
    norm_num
  obtain ⟨s, hscan, hinv⟩ := scan_run env data hu0
  obtain ⟨f, hf, hcol⟩ := default_sea_face hsqrt hm hu hinv
  refine ⟨s.geometry, by simp [init, hscan], ?_, List.ne_nil_of_mem hf, ⟨f, hf, hcol⟩,
    fun hpos => default_land_face hsqrt hm hu hinv hpos⟩
  have hlt := (hinv.facesValid (pairwise_scanPoints _) f hf).1
  intro hnil
  rw [hnil] at hlt
  simp at hlt

theorem default_scenario_witness :
    (∀ a : ℝ, 0 ≤ a → 0 ≤ Real.sqrt a ∧ Real.sqrt a * Real.sqrt a = a) ∧
    (⟨100, 1, 4000, ⟨65280⟩, ⟨255⟩, false⟩ : Data ℝ).middleRadius = 100 ∧
    (⟨100, 1, 4000, ⟨65280⟩, ⟨255⟩, false⟩ : Data ℝ).unitSize = 1 ∧
    (size (⟨100, 1, 4000, ⟨65280⟩, ⟨255⟩, false⟩ : Data ℝ) = 100 ∧
    unitSize' (⟨100, 1, 4000, ⟨65280⟩, ⟨255⟩, false⟩ : Data ℝ) = 1 ∧
    innerRadius (⟨100, 1, 4000, ⟨65280⟩, ⟨255⟩, false⟩ : Data ℝ) = 99 + 1 / 10000 ∧
    outerRadius (⟨100, 1, 4000, ⟨65280⟩, ⟨255⟩, false⟩ : Data ℝ) = 101 + 1 / 10000 ∧
    scanSize (⟨100, 1, 4000, ⟨65280⟩, ⟨255⟩, false⟩ : Data ℝ) = 116 ∧
    ∃ g, init (⟨Real.sqrt, fun _ _ _ => 0, 0⟩ : Env ℝ)
        (⟨100, 1, 4000, ⟨65280⟩, ⟨255⟩, false⟩ : Data ℝ) = some g ∧
      g.vertices ≠ [] ∧ g.faces ≠ [] ∧
      (∃ f ∈ g.faces, f.color = (⟨100, 1, 4000, ⟨65280⟩, ⟨255⟩, false⟩ : Data ℝ).seaColor) ∧
      (0 < height (⟨Real.sqrt, fun _ _ _ => 0, 0⟩ : Env ℝ)
          (⟨100, 1, 4000, ⟨65280⟩, ⟨255⟩, false⟩ : Data ℝ) 0 0 0 →
        ∃ f ∈ g.faces, f.color = (⟨100, 1, 4000, ⟨65280⟩, ⟨255⟩, false⟩ : Data ℝ).color)) :=
  ⟨fun a ha => ⟨Real.sqrt_nonneg a, Real.mul_self_sqrt ha⟩, rfl, rfl,
    default_scenario (⟨Real.sqrt, fun _ _ _ => 0, 0⟩ : Env ℝ)
      (⟨100, 1, 4000, ⟨65280⟩, ⟨255⟩, false⟩ : Data ℝ)
      (fun a ha => ⟨Real.sqrt_nonneg a, Real.mul_self_sqrt ha⟩) rfl rfl⟩

/-- C12 (as stated) fails: with a noise constantly `-1/2` the build of the default
configuration has no face in the land color. -/
theorem low_noise_has_no_land :
    ¬ ∃ g, init lowNoiseEnv defaultData = some g ∧
      (∃ f ∈ g.faces, f.color = defaultData.color) ∧
      (∃ f ∈ g.faces, f.color = defaultData.seaColor) := by
  obtain ⟨g0, hg0, hsea⟩ := lowNoiseEnv_all_sea
  rintro ⟨g, hg, ⟨f, hf, hcol⟩, _⟩
  rw [hg0] at hg
  rw [← Option.some.inj hg] at hf
  have := hsea f hf
  rw [hcol] at this
  exact absurd this (by decide)

end Claims

end TerrainPlain
